import Mathlib

/-!
Nebula entity database: deferred ops, migration, filters and queries.

A shallow embedding of `code/application/game/api.cc` (namespace `Game`) together
with the parts of `MemDb` and `Game::World` that `api.cc` calls.  Functions of
`api.cc` are translated from the source.  The collaborators whose source is not
part of the tree (`MemDb::Database`, `MemDb::TableSignature`, `MemDb::TypeRegistry`,
`Game::World`, `Game::CategoryHash`, `Util::Queue`, `Ids::IdAllocator`) are modelled
from the specification; each such definition says so in its doc comment.
`MemDb::ColumnDescription` (`addons/memdb/columndescription.h`) and
`VkUtilities::GetMemoryType` / `VkUtilities::BufferUpdate`
(`render/coregraphics/vk/vkutilities.cc`) are translated from the source as well.

Conventions:
* an id that can be invalid (`InstanceId::Invalid()`, `InvalidIndex`, `nullptr`) is an
  `Option`, `none` being the invalid value;
* a failed `n_assert`, or an access outside the bounds of an array, is `none` in the
  result of the operation;
* a value is the list of its bytes; a column buffer is the list of its cells.
-/

namespace MemDb

abbrev PropertyId := Nat
abbrev TableId := Nat
abbrev ColumnIndex := Nat

/-- The bytes of one value of a property. -/
abbrev Value := List Nat

/-- Modelled from the spec: `Memory::Copy(from, to, numBytes)` overwrites the first
`numBytes` bytes of the destination with the first `numBytes` bytes of the source. -/
def Memory.Copy (src dst : Value) (numBytes : Nat) : Value :=
  src.take numBytes ++ dst.drop numBytes

/-- Modelled from the spec: a type descriptor, {name, byte size, default value of that size}. -/
structure PropertyDescription where
  name : String
  typeSize : Nat
  defVal : Value

/-- Modelled from the spec: the Type Registry, an append-only table from property id
(the position in the table) to the descriptor of the property. -/
structure TypeRegistry where
  descriptions : List PropertyDescription

/-- Modelled from the spec: `Size(id) -> byteSize`. -/
def TypeRegistry.TypeSize (reg : TypeRegistry) (pid : PropertyId) : Nat :=
  match reg.descriptions[pid]? with
  | some d => d.typeSize
  | none => 0

/-- Modelled from the spec: `DefaultValue(id)`. -/
def TypeRegistry.DefaultValue (reg : TypeRegistry) (pid : PropertyId) : Value :=
  match reg.descriptions[pid]? with
  | some d => d.defVal
  | none => []

end MemDb

namespace Game

open MemDb

/-- An entity handle, {index, generation}. -/
structure Entity where
  index : Nat
  generation : Nat
deriving DecidableEq

abbrev CategoryId := Nat
abbrev InstanceId := Nat
abbrev CategoryHash := Nat

end Game

namespace MemDb

/-- Modelled from the spec: a table, {schema, one column buffer per schema entry, row
count}, with the row-to-entity back-mapping (`owners`). -/
structure Table where
  properties : List PropertyId
  columns : List (List Value)
  owners : List Game.Entity
  numRows : Nat

/-- A raw pointer to a column buffer: the table and the column it points into. -/
structure BufferPtr where
  table : TableId
  column : ColumnIndex
deriving DecidableEq

/-- Modelled from the spec: `GetColumn(table, componentId) -> columnIndex | Invalid`. -/
def Table.GetColumnId (t : Table) (pid : PropertyId) : Option ColumnIndex :=
  if t.properties.indexOf pid < t.properties.length then some (t.properties.indexOf pid) else none

/-- The cell of column `col` at `row`. -/
def Table.GetValue (t : Table) (col : ColumnIndex) (row : Nat) : Option Value :=
  match t.columns[col]? with
  | some buffer => buffer[row]?
  | none => none

/-- Modelled from the spec: `AllocateRow(table) -> rowIndex` appends a row to every column,
copying each column's default value from the Type Registry; the new row belongs to `owner`. -/
def Table.AllocateRow (reg : TypeRegistry) (t : Table) (owner : Game.Entity) : Table × Nat :=
  ({ t with
      columns := List.zipWith (fun pid buffer => buffer ++ [reg.DefaultValue pid]) t.properties t.columns
      owners := t.owners ++ [owner]
      numRows := t.numRows + 1 }, t.numRows)

/-- Swap-remove on one buffer: the last element is copied into slot `row`, then the
buffer shrinks by one. -/
def swapRemove {α : Type} (buffer : List α) (row : Nat) : List α :=
  match buffer.getLast? with
  | some last => (buffer.set row last).dropLast
  | none => buffer

/-- Modelled from the spec: `FreeRow(table, rowIndex)`, a swap-remove; the entity that was
at the last row and has been relocated to `row` (if any) is reported to the caller. -/
def Table.FreeRow (t : Table) (row : Nat) : Option (Table × Option Game.Entity) :=
  if row < t.numRows then
    some ({ t with
            columns := t.columns.map (fun buffer => swapRemove buffer row)
            owners := swapRemove t.owners row
            numRows := t.numRows - 1 },
          if row + 1 < t.numRows then t.owners[t.numRows - 1]? else none)
  else none

/-- Modelled from the spec: the copy step of migration. Every column of the target
that the source table also has (matched by property id, not by position) receives the
source's value at `row`; the other columns keep what they hold. -/
def Table.CopyShared (src : Table) (row : Nat) (dst : Table) (newRow : Nat) : Table :=
  { dst with
    columns := List.zipWith (fun pid buffer =>
      match src.GetColumnId pid with
      | some j =>
        match src.GetValue j row with
        | some v => buffer.set newRow v
        | none => buffer
      | none => buffer) dst.properties dst.columns }

/-- Modelled from the spec: the signature of a property-id set, a bitset with bit `id`
set for every id of the set. -/
def TableSignature (ids : List PropertyId) : Nat :=
  ids.foldl (fun mask pid => mask ||| (1 <<< pid)) 0

/-- Modelled from the spec: the database owns all tables; a table id is the position of
the table. -/
structure Database where
  tables : List Table

def Database.GetTable (db : Database) (tid : TableId) : Option Table := db.tables[tid]?

def Database.SetTable (db : Database) (tid : TableId) (t : Table) : Database :=
  { db with tables := db.tables.set tid t }

/-- Modelled from the spec: creates a table with exactly the given schema and no rows. -/
def Database.CreateTable (db : Database) (properties : List PropertyId) : Database × TableId :=
  ({ db with tables := db.tables ++
      [{ properties := properties, columns := properties.map (fun _ => []), owners := [], numRows := 0 }] },
   db.tables.length)

def Database.GetColumnId (db : Database) (tid : TableId) (pid : PropertyId) : Option ColumnIndex :=
  match db.GetTable tid with
  | some t => t.GetColumnId pid
  | none => none

def Database.HasProperty (db : Database) (tid : TableId) (pid : PropertyId) : Option Bool :=
  match db.GetTable tid with
  | some t => some (t.GetColumnId pid).isSome
  | none => none

def Database.GetNumRows (db : Database) (tid : TableId) : Option Nat :=
  match db.GetTable tid with
  | some t => some t.numRows
  | none => none

/-- Modelled from the spec: `RawBuffer(table, columnIndex)`, the pointer to a column buffer. -/
def Database.GetBuffer (db : Database) (tid : TableId) (col : ColumnIndex) : Option BufferPtr :=
  match db.GetTable tid with
  | some t => if col < t.columns.length then some { table := tid, column := col } else none
  | none => none

/-- Reading through a column pointer at a row. -/
def Database.Read (db : Database) (ptr : BufferPtr) (row : Nat) : Option Value :=
  match db.GetTable ptr.table with
  | some t => t.GetValue ptr.column row
  | none => none

/-- Reading the cell `GetValuePointer(table, column, row)` points to. -/
def Database.GetValuePointer (db : Database) (tid : TableId) (col : ColumnIndex) (row : Nat) :
    Option Value :=
  db.Read { table := tid, column := col } row

/-- Writing `numBytes` bytes of `value` through `GetValuePointer(table, column, row)`. -/
def Database.WriteValue (db : Database) (tid : TableId) (col : ColumnIndex) (row : Nat)
    (value : Value) (numBytes : Nat) : Option Database :=
  match db.GetTable tid with
  | some t =>
    match t.columns[col]? with
    | some buffer =>
      match buffer[row]? with
      | some cell =>
        some (db.SetTable tid
          { t with columns := t.columns.set col (buffer.set row (Memory.Copy value cell numBytes)) })
      | none => none
    | none => none
  | none => none

/-- Modelled from the spec: the signature query, every table whose schema signature
satisfies `(sig & inclusive) == inclusive` and `(sig & exclusive) == 0`, in table order. -/
def Database.Query (db : Database) (inclusive exclusive : Nat) : List TableId :=
  (List.range db.tables.length).filter (fun tid =>
    match db.tables[tid]? with
    | some t =>
      (TableSignature t.properties &&& inclusive == inclusive) &&
      (TableSignature t.properties &&& exclusive == 0)
    | none => false)

end MemDb

namespace Ids

/-- Modelled from the spec: `Ids::IdAllocator`, a pool of ids, each with its own entry;
released ids are recycled before the pool grows. -/
structure IdAllocator (α : Type) where
  entries : List α
  freeIds : List Nat

def IdAllocator.Alloc {α : Type} (a : IdAllocator α) (fresh : α) : IdAllocator α × Nat :=
  match a.freeIds with
  | id :: rest => ({ a with freeIds := rest }, id)
  | [] => ({ a with entries := a.entries ++ [fresh] }, a.entries.length)

def IdAllocator.Get {α : Type} (a : IdAllocator α) (id : Nat) : Option α := a.entries[id]?

def IdAllocator.Set {α : Type} (a : IdAllocator α) (id : Nat) (entry : α) : IdAllocator α :=
  { a with entries := a.entries.set id entry }

def IdAllocator.Dealloc {α : Type} (a : IdAllocator α) (id : Nat) : IdAllocator α :=
  { a with freeIds := a.freeIds ++ [id] }

end Ids

namespace Game

open MemDb

/-- Modelled from the spec: `CategoryHash`, an incrementally updatable hash of a
property-id set: the hash of the empty set and the `add(id)` / `remove(id)` updates.
`category.h` is not part of the tree, so the hash function is a parameter. -/
structure HashScheme where
  empty : CategoryHash
  AddToHash : CategoryHash → Nat → CategoryHash
  RemoveFromHash : CategoryHash → Nat → CategoryHash

/-- The hash of a property list computed from scratch, one `AddToHash` per id. -/
def HashScheme.hashOf (H : HashScheme) (ids : List PropertyId) : CategoryHash :=
  ids.foldl H.AddToHash H.empty

/-- A category, {hash, owning table}; the display name is diagnostic only and omitted. -/
structure Category where
  hash : CategoryHash
  instanceTable : TableId
deriving DecidableEq

/-- The mapping of an entity, {category, instance}; `inst = none` is
`InstanceId::Invalid()`, an entity that has not been placed in a table. -/
structure EntityMapping where
  category : CategoryId
  inst : Option InstanceId
deriving DecidableEq

/-- Modelled from the spec: the entity pool, an index and generation arena: the current
generation of every slot, and the queue of released indices waiting for reuse. -/
structure EntityPool where
  generations : List Nat
  freeIds : List Nat := []

/-- Modelled from the spec: `IsValid(entity)`, the generation matches the slot's. -/
def EntityPool.IsValid (pool : EntityPool) (e : Entity) : Bool :=
  pool.generations[e.index]? == some e.generation

structure CategoryCreateInfo where
  properties : List PropertyId

/-- `Ids::InvalidId16`. -/
def InvalidId16 : Nat := 65535

/-- A template id, {blueprint id, template id}, 16 bits each. -/
structure TemplateId where
  blueprintId : Nat
  templateId : Nat
deriving DecidableEq

/-- `TemplateId::Invalid()`. -/
def TemplateId.Invalid : TemplateId := { blueprintId := InvalidId16, templateId := InvalidId16 }

structure BlueprintId where
  id : Nat
deriving DecidableEq

/-- `World::AllocateInstanceCommand`. -/
structure AllocateInstanceCommand where
  entity : Entity
  tid : TemplateId
deriving DecidableEq

/-- `World::DeallocInstanceCommand`. -/
structure DeallocInstanceCommand where
  entity : Entity
deriving DecidableEq

/-- Modelled from the spec: the world, {database, categories, hash-to-category map,
entity map, entity pool, entity count, allocation and deallocation queues}; a category
id is the position of the category. `entityMapCapacity` is the capacity of the entity
map array, whose size is the length of `entityMap`. -/
structure World where
  db : Database
  categories : List Category
  catIndexMap : List (CategoryHash × CategoryId)
  entityMap : List EntityMapping
  pool : EntityPool
  numEntities : Nat := 0
  allocQueue : List AllocateInstanceCommand := []
  deallocQueue : List DeallocInstanceCommand := []
  entityMapCapacity : Nat := entityMap.length

def World.GetCategory (w : World) (cid : CategoryId) : Option Category := w.categories[cid]?

/-- Modelled from the spec: `FindOrCreateCategory(componentIdSet) -> CategoryId` computes
the set's hash and looks it up; on a miss it creates a new table with that exact schema
and a new category entry. -/
def World.CreateCategory (H : HashScheme) (w : World) (info : CategoryCreateInfo) :
    World × CategoryId :=
  match w.catIndexMap.lookup (H.hashOf info.properties) with
  | some cid => (w, cid)
  | none =>
    ({ w with
        db := (w.db.CreateTable info.properties).1
        categories := w.categories ++
          [{ hash := H.hashOf info.properties, instanceTable := (w.db.CreateTable info.properties).2 }]
        catIndexMap := (H.hashOf info.properties, w.categories.length) :: w.catIndexMap },
     w.categories.length)

def IsValid (w : World) (e : Entity) : Bool := w.pool.IsValid e

/-- `IsActive`: asserts `IsValid(e)`, then tests the instance of the mapping. -/
def IsActive (w : World) (e : Entity) : Option Bool :=
  if IsValid w e then
    match w.entityMap[e.index]? with
    | some mapping => some (decide (mapping.inst ≠ none))
    | none => none
  else none

/-- `GetEntityMapping`: asserts `IsActive(entity)`, then reads the entity map. -/
def GetEntityMapping (w : World) (entity : Entity) : Option EntityMapping :=
  match IsActive w entity with
  | some true => w.entityMap[entity.index]?
  | _ => none

/-- Modelled from the spec: `Migrate(entity, targetCategory) -> newRowIndex`. A row is
allocated in the target table (defaults in every column), the values of the shared
columns are copied, the source row is freed by swap-remove (the displaced entity's
mapping is updated), and the migrating entity's mapping is updated. -/
def World.Migrate (reg : TypeRegistry) (w : World) (entity : Entity) (newCategory : CategoryId) :
    Option (World × InstanceId) :=
  match GetEntityMapping w entity with
  | none => none
  | some mapping =>
  match mapping.inst, w.GetCategory mapping.category, w.GetCategory newCategory with
  | some row, some oldCat, some newCat =>
    match w.db.GetTable oldCat.instanceTable, w.db.GetTable newCat.instanceTable with
    | some src, some dst =>
      let db1 := w.db.SetTable newCat.instanceTable
        (src.CopyShared row (dst.AllocateRow reg entity).1 (dst.AllocateRow reg entity).2)
      match db1.GetTable oldCat.instanceTable with
      | none => none
      | some src1 =>
        match src1.FreeRow row with
        | none => none
        | some (src2, moved) =>
          let entityMap1 :=
            match moved with
            | some displaced =>
              w.entityMap.set displaced.index { category := mapping.category, inst := some row }
            | none => w.entityMap
          some ({ w with
                  db := db1.SetTable oldCat.instanceTable src2
                  entityMap := entityMap1.set entity.index
                    { category := newCategory, inst := some (dst.AllocateRow reg entity).2 } },
                (dst.AllocateRow reg entity).2)
    | _, _ => none
  | _, _, _ => none

namespace Op

/-- An add-component op; `value = none` is a null `value` pointer. -/
structure RegisterProperty where
  entity : Entity
  pid : PropertyId
  value : Option Value

/-- A remove-component op. -/
structure DeregisterProperty where
  entity : Entity
  pid : PropertyId

end Op

/-- Modelled from the spec: `Util::Queue`, first in first out: `Enqueue` appends at the
back, `Dequeue` takes from the front. -/
abbrev RegPidQueue := List Op.RegisterProperty
abbrev DeregPidQueue := List Op.DeregisterProperty

abbrev OpBuffer := Nat
abbrev OpBufferAllocator := Ids.IdAllocator (RegPidQueue × DeregPidQueue)

def CreateOpBuffer (opBufferAllocator : OpBufferAllocator) : OpBufferAllocator × OpBuffer :=
  opBufferAllocator.Alloc ([], [])

/-- `AddOp(OpBuffer, Op::RegisterProperty)`: a non-null value is copied (`TypeSize` bytes)
into op-scoped storage, then the op is enqueued on queue 0 of the buffer. -/
def AddOpRegisterProperty (reg : TypeRegistry) (opBufferAllocator : OpBufferAllocator)
    (buffer : OpBuffer) (op : Op.RegisterProperty) : Option OpBufferAllocator :=
  let op1 : Op.RegisterProperty :=
    match op.value with
    | some value => { op with value := some (Memory.Copy value [] (reg.TypeSize op.pid)) }
    | none => op
  match opBufferAllocator.Get buffer with
  | some queues => some (opBufferAllocator.Set buffer (queues.1 ++ [op1], queues.2))
  | none => none

/-- `AddOp(OpBuffer, Op::DeregisterProperty const&)`: the op is enqueued on queue 1. -/
def AddOpDeregisterProperty (opBufferAllocator : OpBufferAllocator)
    (buffer : OpBuffer) (op : Op.DeregisterProperty) : Option OpBufferAllocator :=
  match opBufferAllocator.Get buffer with
  | some queues => some (opBufferAllocator.Set buffer (queues.1, queues.2 ++ [op]))
  | none => none

/-- `Execute(Op::RegisterProperty const&)`. -/
def ExecuteRegisterProperty (H : HashScheme) (reg : TypeRegistry) (op : Op.RegisterProperty)
    (w : World) : Option World :=
  match GetEntityMapping w op.entity with
  | none => none
  | some mapping =>
  match w.GetCategory mapping.category with
  | none => none
  | some cat =>
    let newHash := H.AddToHash cat.hash op.pid
    let found : Option (World × CategoryId) :=
      match w.catIndexMap.lookup newHash with
      | some cid => some (w, cid)
      | none =>
        match w.db.GetTable cat.instanceTable with
        | some tbl => some (w.CreateCategory H { properties := tbl.properties ++ [op.pid] })
        | none => none
    match found with
    | none => none
    | some (w1, newCategoryId) =>
      match w1.Migrate reg op.entity newCategoryId with
      | none => none
      | some (w2, newInstance) =>
        match op.value with
        | none => some w2
        | some value =>
          match w2.GetCategory newCategoryId with
          | none => none
          | some newCat =>
            match w2.db.GetColumnId newCat.instanceTable op.pid with
            | none => none
            | some cid =>
              match w2.db.WriteValue newCat.instanceTable cid newInstance value
                  (reg.TypeSize op.pid) with
              | some db => some { w2 with db := db }
              | none => none

/-- The default-constructed `PropertyId` a freshly sized `FixedArray` holds. -/
def InvalidPropertyId : PropertyId := 4294967295

/-- The loop of `Execute(Op::DeregisterProperty const&)` that fills `info.properties`:
every column other than `pid` is stored at the next free position `col`; storing
outside the array fails. -/
def copyWithout (pid : PropertyId) : List PropertyId → List PropertyId → Nat →
    Option (List PropertyId)
  | [], array, _ => some array
  | c :: cols, array, col =>
    if c = pid then copyWithout pid cols array col
    else if col < array.length then copyWithout pid cols (array.set col c) (col + 1)
    else none

/-- `Execute(Op::DeregisterProperty const&)`; the `HasProperty` assertion is compiled in
debug builds only and is not part of the model. With no column at all, `SetSize(num - 1)`
is given a negative size and fails. -/
def ExecuteDeregisterProperty (H : HashScheme) (reg : TypeRegistry) (op : Op.DeregisterProperty)
    (w : World) : Option World :=
  match GetEntityMapping w op.entity with
  | none => none
  | some mapping =>
  match w.GetCategory mapping.category with
  | none => none
  | some cat =>
    let newHash := H.RemoveFromHash cat.hash op.pid
    let found : Option (World × CategoryId) :=
      match w.catIndexMap.lookup newHash with
      | some cid => some (w, cid)
      | none =>
        match w.db.GetTable cat.instanceTable with
        | some tbl =>
          if tbl.properties.length = 0 then none
          else
            match copyWithout op.pid tbl.properties
                (List.replicate (tbl.properties.length - 1) InvalidPropertyId) 0 with
            | some properties => some (w.CreateCategory H { properties := properties })
            | none => none
        | none => none
    match found with
    | none => none
    | some (w1, newCategoryId) =>
      match w1.Migrate reg op.entity newCategoryId with
      | none => none
      | some (w2, _) => some w2

/-- The loop `while (!queue.IsEmpty()) { auto op = queue.Dequeue(); Execute(op); }`. -/
def drain {α σ : Type} (execute : α → σ → Option σ) : List α → σ → Option σ
  | [], s => some s
  | op :: queue, s =>
    match execute op s with
    | some s1 => drain execute queue s1
    | none => none

/-- `Dispatch(OpBuffer&)` with the two `Execute` overloads as parameters: the register
queue is drained, then the deregister queue; the buffer is deallocated and the handle
set to `InvalidIndex` (`none`). -/
def DispatchWith {σ : Type} (executeRegister : Op.RegisterProperty → σ → Option σ)
    (executeDeregister : Op.DeregisterProperty → σ → Option σ)
    (opBufferAllocator : OpBufferAllocator) (buffer : OpBuffer) (s : σ) :
    Option (σ × OpBufferAllocator × Option OpBuffer) :=
  match opBufferAllocator.Get buffer with
  | none => none
  | some queues =>
    match drain executeRegister queues.1 s with
    | none => none
    | some s1 =>
      match drain executeDeregister queues.2 s1 with
      | none => none
      | some s2 => some (s2, (opBufferAllocator.Set buffer ([], [])).Dealloc buffer, none)

/-- `Dispatch(OpBuffer&)` on the world. -/
def Dispatch (H : HashScheme) (reg : TypeRegistry) (opBufferAllocator : OpBufferAllocator)
    (buffer : OpBuffer) (w : World) : Option (World × OpBufferAllocator × Option OpBuffer) :=
  DispatchWith (ExecuteRegisterProperty H reg) (ExecuteDeregisterProperty H reg)
    opBufferAllocator buffer w

/-- `HasProperty(entity, pid)`. -/
def HasProperty (w : World) (entity : Entity) (pid : PropertyId) : Option Bool :=
  match GetEntityMapping w entity with
  | none => none
  | some mapping =>
    match w.GetCategory mapping.category with
    | some cat => w.db.HasProperty cat.instanceTable pid
    | none => none

/-- `GetNumInstances(category)`. -/
def GetNumInstances (w : World) (category : CategoryId) : Option Nat :=
  match w.GetCategory category with
  | some cat => w.db.GetNumRows cat.instanceTable
  | none => none

/-- `GetInstanceBuffer(category, pid)`. -/
def GetInstanceBuffer (w : World) (category : CategoryId) (pid : PropertyId) : Option BufferPtr :=
  match w.GetCategory category with
  | none => none
  | some cat =>
    match w.db.GetColumnId cat.instanceTable pid with
    | some cid => w.db.GetBuffer cat.instanceTable cid
    | none => none

/-- `GetInstanceId(entity)`. -/
def GetInstanceId (w : World) (entity : Entity) : Option InstanceId :=
  match GetEntityMapping w entity with
  | some mapping => mapping.inst
  | none => none

end Game

namespace Game

open MemDb

inductive AccessMode where
  | READ
  | WRITE
deriving DecidableEq

/-- The create info of a filter: the two id arrays with their counts, and the access mode
of every inclusive id. The arrays are the fixed-size arrays of the struct; the counts are
8-bit, like the counters of the loops that read them. -/
structure FilterCreateInfo where
  inclusive : List PropertyId
  access : List AccessMode
  numInclusive : Nat
  exclusive : List PropertyId
  numExclusive : Nat

/-- A stored filter: `InclusiveTableMask`, `ExclusiveTableMask`, `PropertyArray` and
`AccessModeArray`, the four members of an entry of `filterAllocator`. -/
structure FilterData where
  inclusive : Nat
  exclusive : Nat
  properties : List PropertyId
  access : List AccessMode

abbrev Filter := Nat
abbrev FilterAllocator := Ids.IdAllocator FilterData

/-- The loop `for (uint8_t i = 0; i < num; i++) array[i] = source[i];` that fills an array
resized to `num`. The counter wraps at 256; reading outside `source` fails; the fuel
bounds the number of loop tests. -/
def copyArray {α : Type} (source : List α) (num : Nat) : Nat → Nat → List α → Option (List α)
  | 0, _, _ => none
  | fuel + 1, i, array =>
    if i < num then
      match source[i]? with
      | some x => copyArray source num fuel ((i + 1) % 256) (array ++ [x])
      | none => none
    else some array

/-- `CreateFilter(info)`; 256 loop tests are enough for every 8-bit count. -/
def CreateFilter (filterAllocator : FilterAllocator) (info : FilterCreateInfo) :
    Option (FilterAllocator × Filter) :=
  if info.numInclusive > 0 then
    match copyArray info.inclusive info.numInclusive 256 0 [],
          copyArray info.exclusive info.numExclusive 256 0 [],
          copyArray info.access info.numInclusive 256 0 [] with
    | some inclusiveArray, some exclusiveArray, some accessArray =>
      let allocated := filterAllocator.Alloc
        { inclusive := 0, exclusive := 0, properties := [], access := [] }
      some (allocated.1.Set allocated.2
              { inclusive := TableSignature inclusiveArray
                exclusive := TableSignature exclusiveArray
                properties := inclusiveArray
                access := accessArray },
            allocated.2)
    | _, _, _ => none
  else none

/-- A view of one table: `cid` (`none` is `CategoryId::Invalid()`), one buffer pointer
per projected property (`none` is `nullptr`), and the row count. -/
structure CategoryTableView where
  cid : Option CategoryId
  buffers : List (Option BufferPtr)
  numInstances : Nat

/-- The result of a query; `views = none` is a null `views` pointer. -/
structure Dataset where
  numViews : Nat
  views : Option (List CategoryTableView)

/-- The body of the view loop of `Query` for the table `tid`. -/
def makeView (db : Database) (properties : List PropertyId) (tid : TableId) :
    Option CategoryTableView :=
  match db.GetTable tid, db.GetNumRows tid with
  | some _, some numRows =>
    some { cid := none
           buffers := properties.map (fun pid =>
             match db.GetColumnId tid pid with
             | some colId => db.GetBuffer tid colId
             | none => none)
           numInstances := numRows }
  | _, _ => none

/-- The view loop of `Query`, `for (viewIndex = 0; viewIndex < data.numViews; viewIndex++)`. -/
def makeViews (db : Database) (properties : List PropertyId) : List TableId →
    Option (List CategoryTableView)
  | [] => some []
  | tid :: tids =>
    match makeView db properties tid, makeViews db properties tids with
    | some view, some views => some (view :: views)
    | _, _ => none

/-- `Query(filter)`. -/
def Query (filterAllocator : FilterAllocator) (w : World) (filter : Filter) : Option Dataset :=
  match filterAllocator.Get filter with
  | none => none
  | some f =>
    if (w.db.Query f.inclusive f.exclusive).length = 0 then
      some { numViews := (w.db.Query f.inclusive f.exclusive).length, views := none }
    else
      match makeViews w.db f.properties (w.db.Query f.inclusive f.exclusive) with
      | some views =>
        some { numViews := (w.db.Query f.inclusive f.exclusive).length, views := some views }
      | none => none

end Game

/-! ## Entity lifecycle -/

namespace Game

open MemDb

/-- Modelled from the spec: `pool.Allocate(entity)`. A released index is reused, at the
slot's current generation, before a new slot (generation 0) is appended. -/
def EntityPool.Allocate (pool : EntityPool) : Option (EntityPool × Entity) :=
  match pool.freeIds with
  | index :: rest =>
    match pool.generations[index]? with
    | some generation =>
      some ({ pool with freeIds := rest }, { index := index, generation := generation })
    | none => none
  | [] =>
    some ({ pool with generations := pool.generations ++ [0] },
          { index := pool.generations.length, generation := 0 })

/-- Modelled from the spec: `pool.Deallocate(entity)`. The slot's generation is
incremented and the index is queued for reuse. -/
def EntityPool.Deallocate (pool : EntityPool) (e : Entity) : EntityPool :=
  { generations := pool.generations.set e.index ((pool.generations[e.index]?).getD 0 + 1)
    freeIds := pool.freeIds ++ [e.index] }

/-- The default-constructed `EntityMapping` of a new slot of the entity map: both ids
invalid, so the instance is the not-yet-placed one. -/
def EntityMapping.unplaced : EntityMapping := { category := 4294967295, inst := none }

/-- Modelled from the spec: `Util::Array::Resize(size)`, the array is cut or is filled up
with default-constructed elements. -/
def resizeEntityMap (entityMap : List EntityMapping) (size : Nat) : List EntityMapping :=
  entityMap.take size ++ List.replicate (size - entityMap.length) EntityMapping.unplaced

/-- The collaborators of `CreateEntity` that are not part of the tree, as parameters:
the capacity `Util::Array::Grow()` grows to from a given capacity, and the category the
blueprint manager makes instances of a blueprint, or of a template, in. -/
structure EntityEnv where
  growCapacity : Nat → Nat
  blueprintCategory : Nat → Option CategoryId
  templateCategory : TemplateId → Option CategoryId

/-- Modelled from the spec: the placement of an entity, the `Allocated → Instantiated`
step. A row is appended to the category's table and the entity's mapping is set to it. -/
def World.PlaceInstance (reg : TypeRegistry) (w : World) (entity : Entity)
    (category : Option CategoryId) : Option World :=
  match category with
  | none => none
  | some k =>
    match w.GetCategory k with
    | none => none
    | some cat =>
      match w.db.GetTable cat.instanceTable with
      | none => none
      | some t =>
        if entity.index < w.entityMap.length then
          some { w with
                 db := w.db.SetTable cat.instanceTable (t.AllocateRow reg entity).1
                 entityMap := w.entityMap.set entity.index
                   { category := k, inst := some (t.AllocateRow reg entity).2 } }
        else none

/-- Modelled from the spec: `World::AllocateInstance(Entity, TemplateId)`; the values a
template supplies for the new row are not part of the model. -/
def World.AllocateInstanceTemplate (env : EntityEnv) (reg : TypeRegistry) (w : World)
    (entity : Entity) (tid : TemplateId) : Option World :=
  w.PlaceInstance reg entity (env.templateCategory tid)

/-- Modelled from the spec: `World::AllocateInstance(Entity, BlueprintId)`. -/
def World.AllocateInstanceBlueprint (env : EntityEnv) (reg : TypeRegistry) (w : World)
    (entity : Entity) (blueprint : BlueprintId) : Option World :=
  w.PlaceInstance reg entity (env.blueprintCategory blueprint.id)

structure EntityCreateInfo where
  templateId : TemplateId
  blueprint : BlueprintId
  immediate : Bool

/-- The step of `CreateEntity` that makes sure the entity map can contain the entity:
`if (entityMap.Size() <= index) { entityMap.Grow(); entityMap.Resize(entityMap.Capacity()); }`. -/
def growEntityMap (env : EntityEnv) (w : World) (index : Nat) : World :=
  if w.entityMap.length ≤ index then
    { w with
      entityMapCapacity := env.growCapacity w.entityMapCapacity
      entityMap := resizeEntityMap w.entityMap (env.growCapacity w.entityMapCapacity) }
  else w

/-- The command `CreateEntity` builds: the template id of the create info when it is
valid, the blueprint id with an invalid template id otherwise. -/
def createCommand (info : EntityCreateInfo) (entity : Entity) : AllocateInstanceCommand :=
  { entity := entity
    tid := if info.templateId ≠ TemplateId.Invalid then info.templateId
           else { blueprintId := info.blueprint.id, templateId := InvalidId16 } }

/-- `CreateEntity(info)`; `numEntities` is a 32-bit unsigned counter. -/
def CreateEntity (env : EntityEnv) (reg : TypeRegistry) (w : World) (info : EntityCreateInfo) :
    Option (World × Entity) :=
  match w.pool.Allocate with
  | none => none
  | some (pool, entity) =>
    let w1 := growEntityMap env
      { w with pool := pool, numEntities := (w.numEntities + 1) % 4294967296 } entity.index
    if !info.immediate then
      some ({ w1 with allocQueue := w1.allocQueue ++ [createCommand info entity] }, entity)
    else if (createCommand info entity).tid.templateId ≠ InvalidId16 then
      match w1.AllocateInstanceTemplate env reg entity (createCommand info entity).tid with
      | some w2 => some (w2, entity)
      | none => none
    else
      match w1.AllocateInstanceBlueprint env reg entity
          { id := (createCommand info entity).tid.blueprintId } with
      | some w2 => some (w2, entity)
      | none => none

/-- `DeleteEntity(entity)`: asserts `IsValid(entity)` and `IsActive(entity)`, releases the
entity in the pool, enqueues the deallocation command and decrements the 32-bit
`numEntities`. -/
def DeleteEntity (w : World) (entity : Entity) : Option World :=
  if IsValid w entity then
    match IsActive w entity with
    | some true =>
      some { w with
             pool := w.pool.Deallocate entity
             deallocQueue := w.deallocQueue ++ [{ entity := entity }]
             numEntities := (w.numEntities + 4294967295) % 4294967296 }
    | _ => none
  else none

/-- `GetNumEntities()`. -/
def GetNumEntities (w : World) : Nat := w.numEntities

end Game

/-! ## VkUtilities -/

namespace VkUtilities

/-- `VK_MAX_MEMORY_TYPES`, the size of the `memoryTypes` array. -/
def VK_MAX_MEMORY_TYPES : Nat := 32

inductive VkResult where
  | VK_SUCCESS
  | VK_ERROR_FEATURE_NOT_PRESENT
deriving DecidableEq

/-- The loop of `GetMemoryType` from iteration `i` on, with `remaining` iterations left
and the shifted `bits`: the index it stores, if it returns from inside the loop.
`memoryTypes i` is `props.memoryTypes[i].propertyFlags`. -/
def GetMemoryTypeLoop (memoryTypes : Nat → Nat) (flags : Nat) : Nat → Nat → Nat → Option Nat
  | 0, _, _ => none
  | remaining + 1, i, bits =>
    if bits &&& 1 = 1 then
      if memoryTypes i &&& flags = flags then some i
      else GetMemoryTypeLoop memoryTypes flags remaining (i + 1) (bits >>> 1)
    else GetMemoryTypeLoop memoryTypes flags remaining (i + 1) (bits >>> 1)

/-- `VkUtilities::GetMemoryType(bits, flags, index)`: the result and the value of `index`
after the call. -/
def GetMemoryType (memoryTypes : Nat → Nat) (bits flags index : Nat) : VkResult × Nat :=
  match GetMemoryTypeLoop memoryTypes flags VK_MAX_MEMORY_TYPES 0 bits with
  | some i => (VkResult.VK_SUCCESS, i)
  | none => (VkResult.VK_ERROR_FEATURE_NOT_PRESENT, index)

/-- One `vkCmdUpdateBuffer(cmd, buf, dstOffset, dataSize, pData)`, with the source pointer
as its byte offset from `data`. -/
structure UpdateCommand where
  dstOffset : Nat
  dataSize : Nat
  srcOffset : Nat
deriving DecidableEq

/-- The loop of `VkUtilities::BufferUpdate` (both overloads have the same body): the
commands it issues, in order. `VkDeviceSize` is 64-bit, so `totalOffset += uploadSize`
wraps at `2^64`; the pointer `data + totalOffset` is computed from the same `totalOffset`.
The fuel bounds the number of loop tests. -/
def BufferUpdateLoop : Nat → Nat → Nat → Option (List UpdateCommand)
  | 0, _, _ => none
  | fuel + 1, totalSize, totalOffset =>
    if totalSize > 0 then
      match BufferUpdateLoop fuel
          (totalSize - (if totalSize < 65536 then totalSize else 65536))
          ((totalOffset + (if totalSize < 65536 then totalSize else 65536)) % 18446744073709551616) with
      | some commands =>
        some ({ dstOffset := totalOffset
                dataSize := if totalSize < 65536 then totalSize else 65536
                srcOffset := totalOffset } :: commands)
      | none => none
    else some []

/-- `VkUtilities::BufferUpdate(buf, offset, size, data)`. -/
def BufferUpdate (fuel offset size : Nat) : Option (List UpdateCommand) :=
  BufferUpdateLoop fuel size offset

end VkUtilities

/-! ## Definitions used to state the properties -/

namespace Game

open MemDb

/-- One call of `AddOp`, of either overload. -/
inductive AddOpCall where
  | register (op : Op.RegisterProperty)
  | deregister (op : Op.DeregisterProperty)

def AddOp (reg : TypeRegistry) (opBufferAllocator : OpBufferAllocator) (buffer : OpBuffer) :
    AddOpCall → Option OpBufferAllocator
  | .register op => AddOpRegisterProperty reg opBufferAllocator buffer op
  | .deregister op => AddOpDeregisterProperty opBufferAllocator buffer op

/-- A sequence of `AddOp` calls on one buffer, in call order. -/
def AddOps (reg : TypeRegistry) (buffer : OpBuffer) :
    OpBufferAllocator → List AddOpCall → Option OpBufferAllocator
  | a, [] => some a
  | a, call :: calls =>
    match AddOp reg a buffer call with
    | some a1 => AddOps reg buffer a1 calls
    | none => none

/-- The op that `AddOp` stores for an add-component op: the op with its value copied. -/
def storedOp (reg : TypeRegistry) (op : Op.RegisterProperty) : Op.RegisterProperty :=
  match op.value with
  | some value => { op with value := some (Memory.Copy value [] (reg.TypeSize op.pid)) }
  | none => op

/-- The add-component ops of a call sequence, a1..am, in call order. -/
def addOpsOf (reg : TypeRegistry) : List AddOpCall → List Op.RegisterProperty
  | [] => []
  | .register op :: calls => storedOp reg op :: addOpsOf reg calls
  | .deregister _ :: calls => addOpsOf reg calls

/-- The remove-component ops of a call sequence, r1..rn, in call order. -/
def removeOpsOf : List AddOpCall → List Op.DeregisterProperty
  | [] => []
  | .register _ :: calls => removeOpsOf calls
  | .deregister op :: calls => op :: removeOpsOf calls

/-- An executed op of either kind. -/
abbrev ExecutedOp := Op.RegisterProperty ⊕ Op.DeregisterProperty

/-- Executing an op of either kind with the matching `Execute` overload. -/
def executeOp {σ : Type} (executeRegister : Op.RegisterProperty → σ → Option σ)
    (executeDeregister : Op.DeregisterProperty → σ → Option σ) : ExecutedOp → σ → Option σ
  | .inl op => executeRegister op
  | .inr op => executeDeregister op

/-- An `Execute` that only records the op it is given in the log of executed ops. -/
def logOp {α : Type} (tag : α → ExecutedOp) (op : α) (log : List ExecutedOp) :
    Option (List ExecutedOp) :=
  some (log ++ [tag op])

end Game

namespace MemDb

/-- Row-parallelism of a table: the schema has no repeated id, there is one column buffer
per schema entry, and every column buffer and the back-mapping have `numRows` entries. -/
def Table.WellFormed (t : Table) : Prop :=
  t.properties.Nodup ∧ t.columns.length = t.properties.length ∧
  (∀ buffer ∈ t.columns, buffer.length = t.numRows) ∧ t.owners.length = t.numRows

instance (t : Table) : Decidable t.WellFormed := by
  unfold Table.WellFormed
  infer_instance

end MemDb

namespace Game

open MemDb

/-- The hash-to-category map is canonical for the property set `ids` under `hash`: an
entry under `hash`, if there is one, names a category whose table is well-formed and has
exactly the schema `ids`, in some column order. -/
def World.CanonicalFor (w : World) (hash : CategoryHash) (ids : List PropertyId) : Prop :=
  ∀ cid, w.catIndexMap.lookup hash = some cid →
    ∃ cat t, w.GetCategory cid = some cat ∧ w.db.GetTable cat.instanceTable = some t ∧
      t.WellFormed ∧ t.properties.Perm ids

/-- The lookup-or-create step of both `Execute` overloads, for the new hash `newHash` and
the schema `properties` of the category to create on a miss. -/
def resolveCategory (H : HashScheme) (w : World) (newHash : CategoryHash)
    (properties : List PropertyId) : World × CategoryId :=
  match w.catIndexMap.lookup newHash with
  | some cid => (w, cid)
  | none => w.CreateCategory H { properties := properties }

end Game

namespace Game

open MemDb

/-- A sample hash scheme of the kind the spec describes, order-independent and
incrementally updatable on 32 bits: the sum of `id + 1` over the set, modulo `2^32`. -/
def additiveHash : HashScheme where
  empty := 0
  AddToHash := fun h id => (h + (id + 1)) % 4294967296
  RemoveFromHash := fun h id => (h + (4294967296 - (id + 1) % 4294967296)) % 4294967296

/-- The registry of the spec's scenario: `Position` (id 0, 12 bytes, default zero) and
`Health` (id 1, 4 bytes, default 100). -/
def scenarioRegistry : TypeRegistry where
  descriptions :=
    [{ name := "Position", typeSize := 12, defVal := [0, 0, 0, 0, 0, 0, 0, 0, 0, 0, 0, 0] },
     { name := "Health", typeSize := 4, defVal := [100, 0, 0, 0] }]

/-- The world of the spec's scenario: one category {Position} whose table holds the
entities 0 and 1, at rows 0 and 1. -/
def scenarioWorld : World where
  db := { tables :=
    [{ properties := [0]
       columns := [[[1, 0, 0, 0, 2, 0, 0, 0, 3, 0, 0, 0], [4, 0, 0, 0, 5, 0, 0, 0, 6, 0, 0, 0]]]
       owners := [{ index := 0, generation := 0 }, { index := 1, generation := 0 }]
       numRows := 2 }] }
  categories := [{ hash := additiveHash.hashOf [0], instanceTable := 0 }]
  catIndexMap := [(additiveHash.hashOf [0], 0)]
  entityMap := [{ category := 0, inst := some 0 }, { category := 0, inst := some 1 }]
  pool := { generations := [0, 0] }

end Game

namespace Game

open MemDb

/-- The table of `scenarioWorldHealth`: schema {Position, Health}, entities 0 and 1. -/
def scenarioTableHealth : Table where
  properties := [0, 1]
  columns := [[[1, 0, 0, 0, 2, 0, 0, 0, 3, 0, 0, 0], [4, 0, 0, 0, 5, 0, 0, 0, 6, 0, 0, 0]],
              [[50, 0, 0, 0], [75, 0, 0, 0]]]
  owners := [{ index := 0, generation := 0 }, { index := 1, generation := 0 }]
  numRows := 2

/-- A world with one category {Position, Health} whose table holds the entities 0 and 1. -/
def scenarioWorldHealth : World where
  db := { tables := [scenarioTableHealth] }
  categories := [{ hash := additiveHash.hashOf [0, 1], instanceTable := 0 }]
  catIndexMap := [(additiveHash.hashOf [0, 1], 0)]
  entityMap := [{ category := 0, inst := some 0 }, { category := 0, inst := some 1 }]
  pool := { generations := [0, 0] }

end Game

namespace Game

open MemDb

/-- The world before any category, table or entity exists. -/
def emptyWorld : World where
  db := { tables := [] }
  categories := []
  catIndexMap := []
  entityMap := []
  pool := { generations := [] }

/-- Every entry of the hash-to-category map names an existing category, and no two
hashes name the same category. -/
def World.IndexMapInjective (w : World) : Prop :=
  (∀ h k, w.catIndexMap.lookup h = some k → k < w.categories.length) ∧
  (∀ h1 h2 k, w.catIndexMap.lookup h1 = some k → w.catIndexMap.lookup h2 = some k → h1 = h2)

/-- Order-independence of a hash scheme: two `AddToHash` updates commute. -/
def HashScheme.OrderIndependent (H : HashScheme) : Prop :=
  ∀ h a b, H.AddToHash (H.AddToHash h a) b = H.AddToHash (H.AddToHash h b) a

/-- A world with the categories {0} (entity 0 at row 0) and {2} (no rows), registered
under their `additiveHash` hashes 1 and 3. -/
def collisionWorld : World where
  db := { tables :=
    [{ properties := [0], columns := [[[7]]], owners := [{ index := 0, generation := 0 }],
       numRows := 1 },
     { properties := [2], columns := [[]], owners := [], numRows := 0 }] }
  categories := [{ hash := additiveHash.hashOf [0], instanceTable := 0 },
                 { hash := additiveHash.hashOf [2], instanceTable := 1 }]
  catIndexMap := [(additiveHash.hashOf [0], 0), (additiveHash.hashOf [2], 1)]
  entityMap := [{ category := 0, inst := some 0 }]
  pool := { generations := [0] }

end Game

namespace Game

open MemDb

/-- A filter allocator holding one filter, id 0: inclusive {Position}, exclusive
{Health}, projection [Position], read access. -/
def scenarioFilters : FilterAllocator where
  entries := [{ inclusive := TableSignature [0], exclusive := TableSignature [1],
                properties := [0], access := [AccessMode.READ] }]
  freeIds := []

/-- The buffer pointers of a view of table `tid` for the projected ids `properties`: the
column buffer of the id where the table has a column for it, null otherwise. -/
def viewBuffers (db : Database) (properties : List PropertyId) (tid : TableId) :
    List (Option BufferPtr) :=
  properties.map (fun pid =>
    match db.GetColumnId tid pid with
    | some colId => db.GetBuffer tid colId
    | none => none)

end Game

namespace Game

open MemDb

/-- A create info as its type allows it: both counts are 8-bit and within their arrays. -/
def FilterCreateInfo.WellTyped (info : FilterCreateInfo) : Prop :=
  info.numInclusive ≤ 255 ∧ info.numExclusive ≤ 255 ∧
  info.numInclusive ≤ info.inclusive.length ∧ info.numInclusive ≤ info.access.length ∧
  info.numExclusive ≤ info.exclusive.length

instance (info : FilterCreateInfo) : Decidable info.WellTyped := by
  unfold FilterCreateInfo.WellTyped
  infer_instance

/-- Every id on the free list of an allocator has an entry. -/
def allocatorWellFormed {α : Type} (a : Ids.IdAllocator α) : Prop :=
  ∀ id ∈ a.freeIds, id < a.entries.length

end Game

namespace Game

open MemDb

/-- Every index waiting for reuse in the pool is the index of a slot. -/
def EntityPool.FreeIdsInRange (pool : EntityPool) : Prop :=
  ∀ id ∈ pool.freeIds, id < pool.generations.length

instance (pool : EntityPool) : Decidable pool.FreeIdsInRange := by
  unfold EntityPool.FreeIdsInRange
  infer_instance

/-- The category `CreateEntity` places an immediate entity in: that of the template when
the command's template id is valid, that of the blueprint otherwise. -/
def createTarget (env : EntityEnv) (info : EntityCreateInfo) : Option CategoryId :=
  if (createCommand info { index := 0, generation := 0 }).tid.templateId ≠ InvalidId16 then
    env.templateCategory (createCommand info { index := 0, generation := 0 }).tid
  else env.blueprintCategory (createCommand info { index := 0, generation := 0 }).tid.blueprintId

/-- A sample environment: the capacity grows by 4, blueprint 0 and the templates of
blueprint 0 make instances in category 0. -/
def sampleEnv : EntityEnv where
  growCapacity := fun capacity => capacity + 4
  blueprintCategory := fun blueprint => if blueprint = 0 then some 0 else none
  templateCategory := fun tid => if tid.blueprintId = 0 then some 0 else none

/-- A world with the category {Position}, its empty table, and no entity. -/
def seedWorld : World where
  db := { tables := [{ properties := [0], columns := [[]], owners := [], numRows := 0 }] }
  categories := [{ hash := additiveHash.hashOf [0], instanceTable := 0 }]
  catIndexMap := [(additiveHash.hashOf [0], 0)]
  entityMap := []
  pool := { generations := [] }

end Game

namespace Game

open MemDb

/-- A sequence of `CreateEntity` calls, with the entities they return in call order. -/
def CreateEntities (env : EntityEnv) (reg : TypeRegistry) :
    World → List EntityCreateInfo → Option (World × List Entity)
  | w, [] => some (w, [])
  | w, info :: infos =>
    match CreateEntity env reg w info with
    | none => none
    | some (w1, e) =>
      match CreateEntities env reg w1 infos with
      | none => none
      | some (w2, es) => some (w2, e :: es)

end Game

namespace Game

open MemDb

/-- A run from the world without entities: an immediate `CreateEntity` of blueprint 0,
`DeleteEntity` of the entity it returns, then a `CreateEntity` of blueprint 0 with
`immediate = false`; the queued commands are not applied. The result is the final world
and the entity of the last call. -/
def recycleRun : Option (World × Entity) :=
  match CreateEntity sampleEnv scenarioRegistry seedWorld
      { templateId := TemplateId.Invalid, blueprint := { id := 0 }, immediate := true } with
  | none => none
  | some (w1, e) =>
    match DeleteEntity w1 e with
    | none => none
    | some w2 =>
      CreateEntity sampleEnv scenarioRegistry w2
        { templateId := TemplateId.Invalid, blueprint := { id := 0 }, immediate := false }

end Game

/-! ## Op values as pointers -/

namespace Game

open MemDb

/-- Memory as the list of its blocks; an address is the position of a block, and a freed
block is `none`. -/
abbrev Heap := List (Option Value)

/-- An add-component op with its `value` as the pointer it is in the source: the address
of a block, or `none` for `nullptr`. -/
structure Op.RegisterPropertyPtr where
  entity : Entity
  pid : PropertyId
  value : Option Nat

/-- Modelled from the spec: `opAllocator.Alloc(size)`, op-scoped storage: a new block of
`size` bytes at an address no other block has. -/
def arenaAlloc (heap : Heap) (size : Nat) : Heap × Nat :=
  (heap ++ [some (List.replicate size 0)], heap.length)

/-- `AddOp(OpBuffer, Op::RegisterProperty)` with the memory explicit: the memory after the
call and the op that is enqueued. A non-null value is copied, `TypeSize` bytes, into a
block of the op arena and the op's pointer is redirected to it; reading a freed or
unknown caller block fails. -/
def AddOpRegisterPropertyPtr (reg : TypeRegistry) (heap : Heap) (op : Op.RegisterPropertyPtr) :
    Option (Heap × Op.RegisterPropertyPtr) :=
  match op.value with
  | some source =>
    match heap[source]? with
    | some (some bytes) =>
      match (arenaAlloc heap (reg.TypeSize op.pid)).1[(arenaAlloc heap (reg.TypeSize op.pid)).2]? with
      | some (some block) =>
        some ((arenaAlloc heap (reg.TypeSize op.pid)).1.set
                (arenaAlloc heap (reg.TypeSize op.pid)).2
                (some (Memory.Copy bytes block (reg.TypeSize op.pid))),
              { op with value := some (arenaAlloc heap (reg.TypeSize op.pid)).2 })
      | _ => none
    | _ => none
  | none => some (heap, op)

/-- The op `Execute` sees when it reads an enqueued op's value through its pointer. -/
def loadOp (heap : Heap) (op : Op.RegisterPropertyPtr) : Option Op.RegisterProperty :=
  match op.value with
  | none => some { entity := op.entity, pid := op.pid, value := none }
  | some address =>
    match heap[address]? with
    | some (some bytes) => some { entity := op.entity, pid := op.pid, value := some bytes }
    | _ => none

end Game

/-! ## ColumnDescription -/

namespace MemDb

/-- `MemDb::ColumnDescription`, the members that take part in ownership: `name` (`none`
is the null `StringAtom`), `typeSize`, and `defVal`, the address of the default-value
block (`none` is `nullptr`). -/
structure ColumnDescription where
  name : Option String
  typeSize : Nat
  defVal : Option Nat
deriving DecidableEq

/-- The memory descriptors live in: the descriptor objects, named by their position (a
destroyed object is `none`), and the blocks of the object heap, named by their address (a
freed block is `none`). -/
structure DescriptionMemory where
  objects : List (Option ColumnDescription)
  blocks : List (Option Value)

/-- `ColumnDescription(name, defaultValue)`: a block of `sizeof(T)` bytes is allocated and
the default value is copied into it. The result is the memory and the new object. -/
def ColumnDescription.Create (m : DescriptionMemory) (name : String) (defaultValue : Value) :
    DescriptionMemory × Nat :=
  ({ objects := m.objects ++
       [some { name := some name, typeSize := defaultValue.length, defVal := some m.blocks.length }]
     blocks := m.blocks ++
       [some (Memory.Copy defaultValue (List.replicate defaultValue.length 0) defaultValue.length)] },
   m.objects.length)

/-- `ColumnDescription()`: the member initialisers give `typeSize = 0`, `defVal = nullptr`. -/
def ColumnDescription.CreateEmpty (m : DescriptionMemory) : DescriptionMemory × Nat :=
  ({ m with objects := m.objects ++ [some { name := none, typeSize := 0, defVal := none }] },
   m.objects.length)

/-- `ColumnDescription(ColumnDescription&& desc)`: the new object takes the members of
`desc`, and `desc` is reset. -/
def ColumnDescription.MoveConstruct (m : DescriptionMemory) (desc : Nat) :
    Option (DescriptionMemory × Nat) :=
  match m.objects[desc]? with
  | some (some d) =>
    some ({ m with
            objects := (m.objects ++
                [some ({ name := d.name, typeSize := d.typeSize, defVal := d.defVal } :
                  ColumnDescription)]).set
              desc (some { name := none, typeSize := 0, defVal := none }) },
          m.objects.length)
  | _ => none

/-- `operator=(ColumnDescription&& rhs)` and `operator=(ColumnDescription& rhs)`, which have
the same body: the three members of `this` are overwritten with those of `rhs`, then the
three members of `rhs` are reset. Nothing is freed. -/
def ColumnDescription.Assign (m : DescriptionMemory) (this rhs : Nat) : Option DescriptionMemory :=
  match m.objects[this]?, m.objects[rhs]? with
  | some (some _), some (some r) =>
    some { m with
           objects := (m.objects.set this
               (some ({ name := r.name, typeSize := r.typeSize, defVal := r.defVal } :
                 ColumnDescription))).set
             rhs (some { name := none, typeSize := 0, defVal := none }) }
  | _, _ => none

/-- `~ColumnDescription()`: a non-null `defVal` is freed; freeing a block that is not
allocated fails. -/
def ColumnDescription.Destroy (m : DescriptionMemory) (this : Nat) : Option DescriptionMemory :=
  match m.objects[this]? with
  | some (some d) =>
    match d.defVal with
    | none => some { m with objects := m.objects.set this none }
    | some address =>
      match m.blocks[address]? with
      | some (some _) =>
        some { objects := m.objects.set this none, blocks := m.blocks.set address none }
      | _ => none
  | _ => none

/-- The descriptors that hold `address` as their `defVal`. -/
def DescriptionMemory.owners (m : DescriptionMemory) (address : Nat) : List Nat :=
  (List.range m.objects.length).filter (fun object =>
    match m.objects[object]? with
    | some (some d) => decide (d.defVal = some address)
    | _ => false)

/-- Two descriptors, `Position` owning block 0 and `Health` owning block 1. -/
def twoDescriptions : DescriptionMemory :=
  (ColumnDescription.Create
    (ColumnDescription.Create ({ objects := [], blocks := [] } : DescriptionMemory) "Position"
      [1, 2, 3, 4]).1
    "Health" [100, 0, 0, 0]).1

end MemDb

/-! ## Query with its memory explicit -/

namespace Game

open MemDb

/-- The state `Query` runs in: the world, the filters, and the view arena
`viewAllocator`, the list of the blocks allocated since the last `Release`, each block an
array of views. -/
structure QueryMemory where
  world : World
  filterAllocator : FilterAllocator
  viewAllocator : List (List CategoryTableView)

/-- A `Dataset` as it is in the source: `views` is a pointer into the view arena, the
position of a block (`none` is `nullptr`). -/
structure DatasetPtr where
  numViews : Nat
  views : Option Nat
deriving DecidableEq

/-- The content of a view that has been allocated and not written yet. -/
def CategoryTableView.unwritten : CategoryTableView :=
  { cid := none, buffers := [], numInstances := 0 }

/-- Modelled from the spec: `viewAllocator.Alloc(sizeof(CategoryTableView) * numViews)`, a
new block of the arena. -/
def allocViews (m : QueryMemory) (numViews : Nat) : QueryMemory × Nat :=
  ({ m with viewAllocator := m.viewAllocator ++ [List.replicate numViews CategoryTableView.unwritten] },
   m.viewAllocator.length)

/-- The stores through `view = data.views + viewIndex` of one iteration of the view loop;
a store outside the block fails. -/
def storeView (m : QueryMemory) (views viewIndex : Nat) (view : CategoryTableView) :
    Option QueryMemory :=
  match m.viewAllocator[views]? with
  | some block =>
    if viewIndex < block.length then
      some { m with viewAllocator := m.viewAllocator.set views (block.set viewIndex view) }
    else none
  | none => none

/-- The view loop of `Query` on the memory, from `viewIndex` on. -/
def fillViews (properties : List PropertyId) (views : Nat) :
    List TableId → Nat → QueryMemory → Option QueryMemory
  | [], _, m => some m
  | tid :: tids, viewIndex, m =>
    match makeView m.world.db properties tid with
    | some view =>
      match storeView m views viewIndex view with
      | some m1 => fillViews properties views tids (viewIndex + 1) m1
      | none => none
    | none => none

/-- `Query(filter)` with the memory explicit: the memory after the call and the dataset
that is returned. -/
def QueryInMemory (m : QueryMemory) (filter : Filter) : Option (QueryMemory × DatasetPtr) :=
  match m.filterAllocator.Get filter with
  | none => none
  | some f =>
    if (m.world.db.Query f.inclusive f.exclusive).length = 0 then
      some (m, { numViews := (m.world.db.Query f.inclusive f.exclusive).length, views := none })
    else
      match fillViews f.properties
          (allocViews m (m.world.db.Query f.inclusive f.exclusive).length).2
          (m.world.db.Query f.inclusive f.exclusive) 0
          (allocViews m (m.world.db.Query f.inclusive f.exclusive).length).1 with
      | some m1 =>
        some (m1, { numViews := (m.world.db.Query f.inclusive f.exclusive).length
                    views := some (allocViews m (m.world.db.Query f.inclusive f.exclusive).length).2 })
      | none => none

/-- The dataset a pointer dataset denotes in a memory: the views read through the pointer. -/
def loadDataset (m : QueryMemory) (data : DatasetPtr) : Option Dataset :=
  match data.views with
  | none => some { numViews := data.numViews, views := none }
  | some views =>
    match m.viewAllocator[views]? with
    | some block => some { numViews := data.numViews, views := some block }
    | none => none

end Game

/-! ## Runs of entity calls -/

namespace Game

open MemDb

/-- A call of `CreateEntity` or of `DeleteEntity`. -/
inductive EntityCall where
  | create (info : EntityCreateInfo)
  | delete (entity : Entity)

/-- The world after one call; `none` when the call fails an assertion. -/
def EntityCall.apply (env : EntityEnv) (reg : TypeRegistry) (w : World) : EntityCall → Option World
  | EntityCall.create info =>
    match CreateEntity env reg w info with
    | some (w1, _) => some w1
    | none => none
  | EntityCall.delete entity => DeleteEntity w entity

/-- The world after a sequence of calls, each of which succeeds. -/
def runEntityCalls (env : EntityEnv) (reg : TypeRegistry) : World → List EntityCall → Option World
  | w, [] => some w
  | w, call :: calls =>
    match call.apply env reg w with
    | some w1 => runEntityCalls env reg w1 calls
    | none => none

/-- The number of `CreateEntity` calls of a sequence. -/
def countCreates : List EntityCall → Nat
  | [] => 0
  | EntityCall.create _ :: calls => countCreates calls + 1
  | EntityCall.delete _ :: calls => countCreates calls

/-- The number of `DeleteEntity` calls of a sequence. -/
def countDeletes : List EntityCall → Nat
  | [] => 0
  | EntityCall.create _ :: calls => countDeletes calls
  | EntityCall.delete _ :: calls => countDeletes calls + 1

/-- Every `DeleteEntity` call of the sequence is given an entity whose index is allocated
at the time of the call, that is, not waiting for reuse in the pool. -/
def deletesAllocated (env : EntityEnv) (reg : TypeRegistry) : World → List EntityCall → Bool
  | _, [] => true
  | w, call :: calls =>
    (match call with
     | EntityCall.delete entity => decide (entity.index ∉ w.pool.freeIds)
     | EntityCall.create _ => true) &&
    (match call.apply env reg w with
     | some w1 => deletesAllocated env reg w1 calls
     | none => true)

/-- A world without entities: no slot in the pool, no slot in the entity map, and a
count of zero. -/
def World.NoEntities (w : World) : Prop :=
  w.pool.generations = [] ∧ w.pool.freeIds = [] ∧ w.entityMap = [] ∧ w.numEntities = 0

instance (w : World) : Decidable w.NoEntities := by
  unfold World.NoEntities
  infer_instance

end Game

/-! ## Deallocation, queued commands and runs of world calls -/

namespace Game

open MemDb

/-- Modelled from the spec: `World::DeallocateInstance(entity)`, the `Instantiated → Deleted`
step. The mapping is read from the entity's slot (the handle is released in the pool when
the command is applied); the row is freed by swap-remove, the displaced entity's mapping
is updated, and the slot is reset to the not-placed mapping. -/
def World.DeallocateInstance (w : World) (entity : Entity) : Option World :=
  match w.entityMap[entity.index]? with
  | none => none
  | some mapping =>
    match mapping.inst, w.GetCategory mapping.category with
    | some row, some cat =>
      match w.db.GetTable cat.instanceTable with
      | none => none
      | some t =>
        match t.FreeRow row with
        | none => none
        | some (t2, moved) =>
          let entityMap1 :=
            match moved with
            | some displaced =>
              w.entityMap.set displaced.index { category := mapping.category, inst := some row }
            | none => w.entityMap
          some { w with
                 db := w.db.SetTable cat.instanceTable t2
                 entityMap := entityMap1.set entity.index EntityMapping.unplaced }
    | _, _ => none

/-- Modelled from the spec: the application of the first queued `AllocateInstance`
command, with the same choice between template and blueprint as the immediate path of
`CreateEntity`. -/
def ApplyAllocateCommand (env : EntityEnv) (reg : TypeRegistry) (w : World) : Option World :=
  match w.allocQueue with
  | [] => none
  | cmd :: queue =>
    if cmd.tid.templateId ≠ InvalidId16 then
      World.AllocateInstanceTemplate env reg { w with allocQueue := queue } cmd.entity cmd.tid
    else
      World.AllocateInstanceBlueprint env reg { w with allocQueue := queue } cmd.entity
        { id := cmd.tid.blueprintId }

/-- Modelled from the spec: the application of the first queued `DeallocateInstance`
command. -/
def ApplyDeallocCommand (w : World) : Option World :=
  match w.deallocQueue with
  | [] => none
  | cmd :: queue => World.DeallocateInstance { w with deallocQueue := queue } cmd.entity

/-- A call that changes the world: `CreateEntity`, `DeleteEntity`, the application of a
queued command, or `Dispatch` of an op buffer (the buffer `buffer` of an op-buffer
allocator). -/
inductive WorldCall where
  | createEntity (info : EntityCreateInfo)
  | deleteEntity (entity : Entity)
  | applyAllocate
  | applyDealloc
  | dispatch (opBufferAllocator : OpBufferAllocator) (buffer : OpBuffer)

/-- The world after one call; `none` when the call fails an assertion. -/
def WorldCall.apply (env : EntityEnv) (H : HashScheme) (reg : TypeRegistry) (w : World) :
    WorldCall → Option World
  | WorldCall.createEntity info =>
    match CreateEntity env reg w info with
    | some (w1, _) => some w1
    | none => none
  | WorldCall.deleteEntity entity => DeleteEntity w entity
  | WorldCall.applyAllocate => ApplyAllocateCommand env reg w
  | WorldCall.applyDealloc => ApplyDeallocCommand w
  | WorldCall.dispatch opBufferAllocator buffer =>
    match Dispatch H reg opBufferAllocator buffer w with
    | some (w1, _, _) => some w1
    | none => none

/-- The world after a sequence of calls, each of which succeeds. -/
def runWorldCalls (env : EntityEnv) (H : HashScheme) (reg : TypeRegistry) :
    World → List WorldCall → Option World
  | w, [] => some w
  | w, call :: calls =>
    match call.apply env H reg w with
    | some w1 => runWorldCalls env H reg w1 calls
    | none => none

end Game

namespace MemDb

/-- Row-parallelism of a table: one column buffer per schema entry, and every column
buffer and the row-to-entity back-mapping have `numRows` entries. -/
def Table.RowParallel (t : Table) : Prop :=
  t.columns.length = t.properties.length ∧
  (∀ buffer ∈ t.columns, buffer.length = t.numRows) ∧ t.owners.length = t.numRows

instance (t : Table) : Decidable t.RowParallel := by
  unfold Table.RowParallel
  infer_instance

/-- Every table of the database is row-parallel. -/
def Database.RowParallel (db : Database) : Prop := ∀ t ∈ db.tables, t.RowParallel

instance (db : Database) : Decidable db.RowParallel := by
  unfold Database.RowParallel
  infer_instance

end MemDb

/-! ## Consistency of a world -/

namespace Game

open MemDb

end Game

/-! ## Properties -/

namespace Game

open MemDb

theorem drain_append {α σ : Type} (execute : α → σ → Option σ) (q1 q2 : List α) (s : σ) :
    drain execute (q1 ++ q2) s =
      match drain execute q1 s with
      | some s1 => drain execute q2 s1
      | none => none := by
  induction q1 generalizing s with
  | nil => simp [drain]
  | cons op q ih =>
    simp only [List.cons_append, drain]
    cases execute op s with
    | none => rfl
    | some s1 => exact ih s1

theorem drain_map_inl {σ : Type} (er : Op.RegisterProperty → σ → Option σ)
    (ed : Op.DeregisterProperty → σ → Option σ) (q : List Op.RegisterProperty) (s : σ) :
    drain (executeOp er ed) (q.map Sum.inl) s = drain er q s := by
  induction q generalizing s with
  | nil => rfl
  | cons op q ih =>
    simp only [List.map_cons, drain, executeOp]
    cases er op s with
    | none => rfl
    | some s1 => exact ih s1

theorem drain_map_inr {σ : Type} (er : Op.RegisterProperty → σ → Option σ)
    (ed : Op.DeregisterProperty → σ → Option σ) (q : List Op.DeregisterProperty) (s : σ) :
    drain (executeOp er ed) (q.map Sum.inr) s = drain ed q s := by
  induction q generalizing s with
  | nil => rfl
  | cons op q ih =>
    simp only [List.map_cons, drain, executeOp]
    cases ed op s with
    | none => rfl
    | some s1 => exact ih s1

theorem drain_logOp (log ops : List ExecutedOp) :
    drain (logOp id) ops log = some (log ++ ops) := by
  induction ops generalizing log with
  | nil => simp [drain]
  | cons op ops ih => simp [drain, logOp, ih]

theorem idAllocator_get_set {α : Type} (a : Ids.IdAllocator α) (id : Nat) (x y : α)
    (h : a.Get id = some x) : (a.Set id y).Get id = some y := by
  simp only [Ids.IdAllocator.Get, Ids.IdAllocator.Set] at *
  have hlt : id < a.entries.length := by
    by_contra hn
    rw [List.getElem?_eq_none (by omega)] at h
    cases h
  simp [List.getElem?_set, hlt]

/-- The queues of a buffer after a sequence of `AddOp` calls: the calls succeed, and each
queue holds what it held before followed by the new ops of its kind in call order. -/
theorem addOps_queues (reg : TypeRegistry) (buffer : OpBuffer) (calls : List AddOpCall)
    (a : OpBufferAllocator) (q0 : RegPidQueue) (q1 : DeregPidQueue)
    (h : a.Get buffer = some (q0, q1)) :
    ∃ a2, AddOps reg buffer a calls = some a2 ∧
      a2.Get buffer = some (q0 ++ addOpsOf reg calls, q1 ++ removeOpsOf calls) := by
  induction calls generalizing a q0 q1 with
  | nil => exact ⟨a, rfl, by simpa [addOpsOf, removeOpsOf] using h⟩
  | cons call calls ih =>
    cases call with
    | register op =>
      have h1 := idAllocator_get_set a buffer (q0, q1) (q0 ++ [storedOp reg op], q1) h
      obtain ⟨a2, ha2, hq⟩ := ih _ _ _ h1
      refine ⟨a2, ?_, ?_⟩
      · simp only [AddOps, AddOp, AddOpRegisterProperty, h]
        exact ha2
      · simpa [addOpsOf] using hq
    | deregister op =>
      have h1 := idAllocator_get_set a buffer (q0, q1) (q0, q1 ++ [op]) h
      obtain ⟨a2, ha2, hq⟩ := ih _ _ _ h1
      refine ⟨a2, ?_, ?_⟩
      · simp only [AddOps, AddOp, AddOpDeregisterProperty, h]
        exact ha2
      · simpa [removeOpsOf] using hq

end Game

namespace Game

open MemDb

/-- C1: on a buffer with empty queues, any interleaving of `AddOp` calls succeeds, and
`Dispatch` then executes exactly a1,...,am,r1,...,rn: the add ops in their call order,
followed by the remove ops in their call order. This holds for the recorded log of
executed ops, for every pair of `Execute` functions on every state, and so for
`Dispatch` on the world. -/
theorem dispatch_executes_adds_then_removes (reg : TypeRegistry) (H : HashScheme)
    (a : OpBufferAllocator) (buffer : OpBuffer) (calls : List AddOpCall)
    (hfresh : a.Get buffer = some ([], [])) :
    ∃ a2, AddOps reg buffer a calls = some a2 ∧
      (DispatchWith (logOp Sum.inl) (logOp Sum.inr) a2 buffer []).map Prod.fst =
        some ((addOpsOf reg calls).map Sum.inl ++ (removeOpsOf calls).map Sum.inr) ∧
      (∀ (σ : Type) (er : Op.RegisterProperty → σ → Option σ)
          (ed : Op.DeregisterProperty → σ → Option σ) (s : σ),
        (DispatchWith er ed a2 buffer s).map Prod.fst =
          drain (executeOp er ed)
            ((addOpsOf reg calls).map Sum.inl ++ (removeOpsOf calls).map Sum.inr) s) ∧
      (∀ w : World, (Dispatch H reg a2 buffer w).map Prod.fst =
          drain (executeOp (ExecuteRegisterProperty H reg) (ExecuteDeregisterProperty H reg))
            ((addOpsOf reg calls).map Sum.inl ++ (removeOpsOf calls).map Sum.inr) w) := by
  obtain ⟨a2, ha2, hq⟩ := addOps_queues reg buffer calls a [] [] hfresh
  simp only [List.nil_append] at hq
  have hgen : ∀ (σ : Type) (er : Op.RegisterProperty → σ → Option σ)
      (ed : Op.DeregisterProperty → σ → Option σ) (s : σ),
      (DispatchWith er ed a2 buffer s).map Prod.fst =
        drain (executeOp er ed)
          ((addOpsOf reg calls).map Sum.inl ++ (removeOpsOf calls).map Sum.inr) s := by
    intro σ er ed s
    rw [drain_append, drain_map_inl]
    simp only [DispatchWith, hq]
    cases drain er (addOpsOf reg calls) s with
    | none => rfl
    | some s1 =>
      simp only [drain_map_inr]
      cases drain ed (removeOpsOf calls) s1 with
      | none => rfl
      | some s2 => rfl
  refine ⟨a2, ha2, ?_, hgen, fun w => hgen _ _ _ w⟩
  rw [hgen]
  have hlog : executeOp (logOp (Sum.inl : Op.RegisterProperty → ExecutedOp))
      (logOp (Sum.inr : Op.DeregisterProperty → ExecutedOp)) = logOp id := by
    funext op log
    cases op <;> rfl
  rw [hlog, drain_logOp]
  simp

/-- C1 at a concrete input: a fresh buffer, calls remove(e0,7), add(e0,3), add(e1,4),
remove(e1,9) in that order. -/
theorem dispatch_executes_adds_then_removes_witness :
    (CreateOpBuffer { entries := [], freeIds := [] }).1.Get 0 = some ([], []) ∧
    ∃ a2, AddOps { descriptions := [] } 0 (CreateOpBuffer { entries := [], freeIds := [] }).1
        [.deregister ⟨⟨0, 0⟩, 7⟩, .register ⟨⟨0, 0⟩, 3, none⟩, .register ⟨⟨1, 0⟩, 4, none⟩,
         .deregister ⟨⟨1, 0⟩, 9⟩] = some a2 ∧
      (DispatchWith (logOp Sum.inl) (logOp Sum.inr) a2 0 []).map Prod.fst =
        some [.inl ⟨⟨0, 0⟩, 3, none⟩, .inl ⟨⟨1, 0⟩, 4, none⟩, .inr ⟨⟨0, 0⟩, 7⟩,
              .inr ⟨⟨1, 0⟩, 9⟩] :=
  ⟨rfl,
   (dispatch_executes_adds_then_removes { descriptions := [] } ⟨0, fun h _ => h, fun h _ => h⟩
      (CreateOpBuffer { entries := [], freeIds := [] }).1 0
      [.deregister ⟨⟨0, 0⟩, 7⟩, .register ⟨⟨0, 0⟩, 3, none⟩, .register ⟨⟨1, 0⟩, 4, none⟩,
       .deregister ⟨⟨1, 0⟩, 9⟩] rfl).imp (fun _ h => ⟨h.1, h.2.1⟩)⟩

end Game

namespace MemDb

theorem getElem?_swapRemove {α : Type} (l : List α) (row r : Nat) (hrow : row < l.length) :
    (swapRemove l row)[r]? =
      if r < l.length - 1 then (if r = row then l[l.length - 1]? else l[r]?) else none := by
  unfold swapRemove
  rw [List.getLast?_eq_getElem?]
  obtain ⟨last, hlast⟩ : ∃ last, l[l.length - 1]? = some last :=
    ⟨_, List.getElem?_eq_getElem (by omega)⟩
  rw [hlast]
  simp only [List.dropLast_eq_take, List.getElem?_take, List.length_set, List.getElem?_set]
  by_cases h1 : r < l.length - 1
  · by_cases h2 : r = row
    · subst h2
      simp [h1, hrow]
    · have h3 : ¬ row = r := fun h => h2 h.symm
      simp [h1, h2, h3]
  · simp [h1]

theorem length_swapRemove {α : Type} (l : List α) (row : Nat) :
    (swapRemove l row).length = l.length - 1 := by
  unfold swapRemove
  rw [List.getLast?_eq_getElem?]
  cases h : l[l.length - 1]? with
  | none =>
    have : l.length ≤ l.length - 1 := by
      by_contra hn
      rw [List.getElem?_eq_getElem (by omega)] at h
      cases h
    simp only
    omega
  | some last => simp

theorem table_getColumnId_some (t : Table) (pid : PropertyId) (j : Nat)
    (h : t.GetColumnId pid = some j) : t.properties[j]? = some pid := by
  unfold Table.GetColumnId at h
  split at h
  · next hlt =>
    cases h
    rw [List.getElem?_eq_getElem hlt]
    exact congrArg some (List.getElem_indexOf hlt)
  · cases h

theorem table_getColumnId_isSome (t : Table) (pid : PropertyId) :
    (t.GetColumnId pid).isSome = true ↔ pid ∈ t.properties := by
  unfold Table.GetColumnId
  split
  · next h => simpa using List.indexOf_lt_length.mp h
  · next h => simpa using fun hm => h (List.indexOf_lt_length.mpr hm)

theorem table_getColumnId_none (t : Table) (pid : PropertyId) :
    t.GetColumnId pid = none ↔ pid ∉ t.properties := by
  rw [← table_getColumnId_isSome]
  cases t.GetColumnId pid <;> simp

theorem table_getColumnId_of_nodup (t : Table) (pid : PropertyId) (j : Nat)
    (hnd : t.properties.Nodup) (h : t.properties[j]? = some pid) : t.GetColumnId pid = some j := by
  obtain ⟨hj, hget⟩ := List.getElem?_eq_some.mp h
  have hidx : t.properties.indexOf pid = j := by
    rw [← hget]
    exact List.indexOf_getElem hnd j hj
  unfold Table.GetColumnId
  rw [hidx]
  simp [hj]

/-- The value a migrated row holds in column `j` of the target table: the source's value
when the source has a column for the same property id, the registered default otherwise. -/
theorem getValue_copyShared_allocateRow (reg : TypeRegistry) (src dst : Table) (e : Game.Entity)
    (row j : Nat) (pid : PropertyId)
    (hlen : dst.columns.length = dst.properties.length)
    (hrows : ∀ buffer ∈ dst.columns, buffer.length = dst.numRows)
    (hj : dst.properties[j]? = some pid) :
    (src.CopyShared row (dst.AllocateRow reg e).1 dst.numRows).GetValue j dst.numRows =
      some (match src.GetColumnId pid with
            | some i =>
              match src.GetValue i row with
              | some v => v
              | none => reg.DefaultValue pid
            | none => reg.DefaultValue pid) := by
  obtain ⟨hjlt, _⟩ := List.getElem?_eq_some.mp hj
  have hjc : j < dst.columns.length := by omega
  have hbuf : dst.columns[j]? = some (dst.columns[j]) := List.getElem?_eq_getElem hjc
  have hbl : (dst.columns[j]).length = dst.numRows := hrows _ (List.getElem_mem hjc)
  simp only [Table.GetValue, Table.CopyShared, Table.AllocateRow, List.getElem?_zipWith, hj, hbuf]
  cases src.GetColumnId pid with
  | none => simp [← hbl]
  | some i =>
    simp only
    cases hv : (match src.columns[i]? with
        | some buffer => buffer[row]?
        | none => none) with
    | none => simp [← hbl]
    | some v => simp [← hbl, List.getElem?_set]

theorem wellFormed_copyShared_allocateRow (reg : TypeRegistry) (src dst : Table) (e : Game.Entity)
    (row : Nat) (h : dst.WellFormed) :
    (src.CopyShared row (dst.AllocateRow reg e).1 dst.numRows).WellFormed ∧
    (src.CopyShared row (dst.AllocateRow reg e).1 dst.numRows).properties = dst.properties ∧
    (src.CopyShared row (dst.AllocateRow reg e).1 dst.numRows).numRows = dst.numRows + 1 ∧
    (src.CopyShared row (dst.AllocateRow reg e).1 dst.numRows).owners = dst.owners ++ [e] := by
  obtain ⟨hnd, hlen, hrows, hown⟩ := h
  refine ⟨⟨hnd, ?_, ?_, ?_⟩, rfl, rfl, rfl⟩
  · simp [Table.CopyShared, Table.AllocateRow, hlen]
  · intro buffer hb
    obtain ⟨j, hjlt, hget⟩ := List.getElem_of_mem hb
    have hj? : (src.CopyShared row (dst.AllocateRow reg e).1 dst.numRows).columns[j]? = some buffer := by
      rw [List.getElem?_eq_getElem hjlt, hget]
    simp only [Table.CopyShared, Table.AllocateRow, List.getElem?_zipWith] at hj?
    cases hp : dst.properties[j]? with
    | none => simp [hp] at hj?
    | some pid =>
      cases hc : dst.columns[j]? with
      | none => simp [hp, hc] at hj?
      | some col =>
        have hcl : col.length = dst.numRows := hrows _ (List.getElem?_mem hc)
        simp only [hp, hc, Option.some.injEq] at hj?
        subst hj?
        show _ = dst.numRows + 1
        split
        · split <;> simp [hcl]
        · simp [hcl]
  · simp [Table.CopyShared, Table.AllocateRow, hown]

theorem freeRow_eq (t : Table) (row : Nat) (h : row < t.numRows) :
    t.FreeRow row =
      some ({ t with
              columns := t.columns.map (fun buffer => swapRemove buffer row)
              owners := swapRemove t.owners row
              numRows := t.numRows - 1 },
            if row + 1 < t.numRows then t.owners[t.numRows - 1]? else none) := by
  simp [Table.FreeRow, h]

/-- The value of column `j` after a swap-remove of `row`: the former last row's value at
`row`, the old value at every other remaining row. -/
theorem getValue_freeRow (t t2 : Table) (moved : Option Game.Entity) (row j r : Nat)
    (hwf : t.WellFormed) (hfree : t.FreeRow row = some (t2, moved)) :
    t2.GetValue j r =
      if r < t.numRows - 1 then (if r = row then t.GetValue j (t.numRows - 1) else t.GetValue j r)
      else none := by
  obtain ⟨_, _, hrows, _⟩ := hwf
  have hlt : row < t.numRows := by
    by_contra hn
    simp [Table.FreeRow, hn] at hfree
  rw [freeRow_eq t row hlt] at hfree
  cases hfree
  simp only [Table.GetValue, List.getElem?_map]
  cases hc : t.columns[j]? with
  | none => simp
  | some buffer =>
    have hbl : buffer.length = t.numRows := hrows _ (List.getElem?_mem hc)
    simp only [Option.map_some']
    rw [getElem?_swapRemove buffer row r (by omega), hbl]

theorem db_getTable_setTable (db : Database) (tid tid2 : TableId) (t : Table) :
    (db.SetTable tid t).GetTable tid2 =
      if tid = tid2 then (if tid < db.tables.length then some t else none) else db.GetTable tid2 := by
  simp [Database.SetTable, Database.GetTable, List.getElem?_set]

theorem db_getTable_lt (db : Database) (tid : TableId) (t : Table) (h : db.GetTable tid = some t) :
    tid < db.tables.length := by
  unfold Database.GetTable at h
  exact (List.getElem?_eq_some.mp h).1

end MemDb

namespace Game

open MemDb

theorem getEntityMapping_some (w : World) (e : Entity) (m : EntityMapping)
    (h : GetEntityMapping w e = some m) :
    IsValid w e = true ∧ w.entityMap[e.index]? = some m ∧ m.inst ≠ none := by
  unfold GetEntityMapping IsActive at h
  by_cases hv : IsValid w e = true
  · cases hm : w.entityMap[e.index]? with
    | none => simp [hv, hm] at h
    | some m0 =>
      simp only [hv, hm, if_true] at h
      cases hi : m0.inst with
      | none => simp [hi] at h
      | some r =>
        simp only [hi] at h
        have : m0 = m := by simpa using h
        subst this
        exact ⟨hv, rfl, by simp [hi]⟩
  · simp [hv] at h

theorem getEntityMapping_of (w : World) (e : Entity) (m : EntityMapping)
    (hv : IsValid w e = true) (hm : w.entityMap[e.index]? = some m) (hi : m.inst ≠ none) :
    GetEntityMapping w e = some m := by
  unfold GetEntityMapping IsActive
  cases hr : m.inst with
  | none => exact absurd hr hi
  | some r => simp [hv, hm, hr]

/-- What `Migrate` does between two different tables: the target table gets the
allocated and copied row, the source table loses the row by swap-remove, every other
table and all categories are untouched, and the entity is mapped to the new row. -/
theorem migrate_spec (reg : TypeRegistry) (w : World) (e : Entity) (newCategory : CategoryId)
    (mapping : EntityMapping) (row : Nat) (oldCat newCat : Category) (src dst : Table)
    (hm : GetEntityMapping w e = some mapping) (hrow : mapping.inst = some row)
    (hold : w.GetCategory mapping.category = some oldCat)
    (hnew : w.GetCategory newCategory = some newCat)
    (hsrc : w.db.GetTable oldCat.instanceTable = some src)
    (hdst : w.db.GetTable newCat.instanceTable = some dst)
    (hne : oldCat.instanceTable ≠ newCat.instanceTable) (hlt : row < src.numRows) :
    ∃ w2, w.Migrate reg e newCategory = some (w2, dst.numRows) ∧
      w2.categories = w.categories ∧ w2.catIndexMap = w.catIndexMap ∧ w2.pool = w.pool ∧
      w2.db.tables.length = w.db.tables.length ∧
      w2.db.GetTable newCat.instanceTable =
        some (src.CopyShared row (dst.AllocateRow reg e).1 dst.numRows) ∧
      (∃ src2 moved, src.FreeRow row = some (src2, moved) ∧
        w2.db.GetTable oldCat.instanceTable = some src2) ∧
      (∀ tid, tid ≠ oldCat.instanceTable → tid ≠ newCat.instanceTable →
        w2.db.GetTable tid = w.db.GetTable tid) ∧
      GetEntityMapping w2 e = some { category := newCategory, inst := some dst.numRows } := by
  have hnlt := db_getTable_lt _ _ _ hdst
  have holt := db_getTable_lt _ _ _ hsrc
  obtain ⟨hv, hem, _⟩ := getEntityMapping_some w e mapping hm
  have helt : e.index < w.entityMap.length := (List.getElem?_eq_some.mp hem).1
  have hdb1 : (w.db.SetTable newCat.instanceTable
      (src.CopyShared row (dst.AllocateRow reg e).1 (dst.AllocateRow reg e).2)).GetTable
        oldCat.instanceTable = some src := by
    rw [db_getTable_setTable, if_neg (fun h => hne h.symm)]
    exact hsrc
  have hfree := freeRow_eq src row hlt
  apply Exists.intro
  refine ⟨?_, ?_⟩
  · unfold World.Migrate
    simp only [hm, hrow, hold, hnew, hsrc, hdst, hdb1, hfree]
    rfl
  · refine ⟨rfl, rfl, rfl, ?_, ?_, ⟨_, _, hfree, ?_⟩, ?_, ?_⟩
    · simp [Database.SetTable]
    · rw [db_getTable_setTable, if_neg hne, db_getTable_setTable]
      simp [hnlt]
      rfl
    · rw [db_getTable_setTable]
      simp [Database.SetTable, holt]
    · intro tid h1 h2
      rw [db_getTable_setTable, if_neg (fun h => h1 h.symm), db_getTable_setTable,
        if_neg (fun h => h2 h.symm)]
    · apply getEntityMapping_of
      · exact hv
      · show (List.set _ e.index _)[e.index]? = _
        rw [List.getElem?_set]
        have hl : e.index < (match (if row + 1 < src.numRows then src.owners[src.numRows - 1]? else none) with
            | some displaced =>
              w.entityMap.set displaced.index { category := mapping.category, inst := some row }
            | none => w.entityMap).length := by
          split <;> simpa using helt
        simp only [if_true, hl]
        rfl
      · simp

end Game

namespace Game

open MemDb

/-- The lookup-or-create step yields a category with a well-formed table of schema
`properties` (up to column order) and keeps the entity map, the pool, and every existing
category and table. -/
theorem resolveCategory_spec (H : HashScheme) (w : World) (newHash : CategoryHash)
    (properties : List PropertyId) (hnd : properties.Nodup)
    (hc1 : w.CanonicalFor newHash properties)
    (hc2 : w.CanonicalFor (H.hashOf properties) properties) :
    ∃ newCat dst,
      (resolveCategory H w newHash properties).1.GetCategory
        (resolveCategory H w newHash properties).2 = some newCat ∧
      (resolveCategory H w newHash properties).1.db.GetTable newCat.instanceTable = some dst ∧
      dst.WellFormed ∧ dst.properties.Perm properties ∧
      (resolveCategory H w newHash properties).1.entityMap = w.entityMap ∧
      (resolveCategory H w newHash properties).1.pool = w.pool ∧
      (∀ k c, w.GetCategory k = some c →
        (resolveCategory H w newHash properties).1.GetCategory k = some c) ∧
      (∀ tid t, w.db.GetTable tid = some t →
        (resolveCategory H w newHash properties).1.db.GetTable tid = some t) := by
  unfold resolveCategory
  cases h1 : w.catIndexMap.lookup newHash with
  | some cid =>
    obtain ⟨cat, t, hcat, ht, hwf, hp⟩ := hc1 cid h1
    exact ⟨cat, t, hcat, ht, hwf, hp, rfl, rfl, fun _ _ h => h, fun _ _ h => h⟩
  | none =>
    simp only [World.CreateCategory]
    cases h2 : w.catIndexMap.lookup (H.hashOf properties) with
    | some cid =>
      obtain ⟨cat, t, hcat, ht, hwf, hp⟩ := hc2 cid h2
      exact ⟨cat, t, hcat, ht, hwf, hp, rfl, rfl, fun _ _ h => h, fun _ _ h => h⟩
    | none =>
      refine ⟨{ hash := H.hashOf properties, instanceTable := w.db.tables.length },
        { properties := properties, columns := properties.map (fun _ => []), owners := [],
          numRows := 0 }, ?_, ?_, ?_, List.Perm.refl _, rfl, rfl, ?_, ?_⟩
      · simp [World.GetCategory, Database.CreateTable]
      · simp [Database.GetTable, Database.CreateTable]
      · refine ⟨hnd, by simp, ?_, rfl⟩
        intro buffer hb
        simp only [List.mem_map] at hb
        obtain ⟨_, _, rfl⟩ := hb
        rfl
      · intro k c hk
        simp only [World.GetCategory] at hk ⊢
        rw [List.getElem?_append_left (List.getElem?_eq_some.mp hk).1]
        exact hk
      · intro tid t ht
        simp only [Database.GetTable, Database.CreateTable] at ht ⊢
        rw [List.getElem?_append_left (List.getElem?_eq_some.mp ht).1]
        exact ht

theorem getEntityMapping_congr (w w1 : World) (e : Entity) (h1 : w1.entityMap = w.entityMap)
    (h2 : w1.pool = w.pool) : GetEntityMapping w1 e = GetEntityMapping w e := by
  simp [GetEntityMapping, IsActive, IsValid, h1, h2]

end Game

namespace MemDb

/-- Writing a value through a value pointer changes exactly the addressed cell. -/
theorem writeValue_spec (db : Database) (tid : TableId) (col : ColumnIndex) (row : Nat)
    (value : Value) (n : Nat) (t : Table) (cell : Value)
    (ht : db.GetTable tid = some t) (hcell : t.GetValue col row = some cell) :
    ∃ db2 t2, db.WriteValue tid col row value n = some db2 ∧ db2.GetTable tid = some t2 ∧
      t2.properties = t.properties ∧ t2.numRows = t.numRows ∧ t2.owners = t.owners ∧
      (t.WellFormed → t2.WellFormed) ∧
      (∀ j r, t2.GetValue j r =
        if j = col ∧ r = row then some (Memory.Copy value cell n) else t.GetValue j r) ∧
      (∀ tid2, tid2 ≠ tid → db2.GetTable tid2 = db.GetTable tid2) := by
  have hlt := db_getTable_lt _ _ _ ht
  unfold Table.GetValue at hcell
  cases hb : t.columns[col]? with
  | none => simp [hb] at hcell
  | some buffer =>
    simp only [hb] at hcell
    have hcl : col < t.columns.length := (List.getElem?_eq_some.mp hb).1
    have hrl : row < buffer.length := (List.getElem?_eq_some.mp hcell).1
    refine ⟨db.SetTable tid
        { t with columns := t.columns.set col (buffer.set row (Memory.Copy value cell n)) },
      { t with columns := t.columns.set col (buffer.set row (Memory.Copy value cell n)) },
      ?_, ?_, rfl, rfl, rfl, ?_, ?_, ?_⟩
    · simp only [Database.WriteValue, ht, hb, hcell]
    · rw [db_getTable_setTable]
      simp [hlt]
    · rintro ⟨hnd, hlen, hrows, hown⟩
      refine ⟨hnd, by simpa using hlen, ?_, hown⟩
      intro b hbm
      obtain ⟨j, hjlt, hget⟩ := List.getElem_of_mem hbm
      have hj : (t.columns.set col (buffer.set row (Memory.Copy value cell n)))[j]? = some b := by
        rw [List.getElem?_eq_getElem hjlt, hget]
      rw [List.getElem?_set] at hj
      show b.length = t.numRows
      by_cases hcj : col = j
      · simp only [hcj, if_true] at hj
        split at hj
        · cases hj
          rw [List.length_set]
          exact hrows _ (List.getElem?_mem hb)
        · cases hj
      · simp only [hcj, if_false] at hj
        exact hrows _ (List.getElem?_mem hj)
    · intro j r
      simp only [Table.GetValue, List.getElem?_set]
      by_cases hcj : col = j
      · subst hcj
        simp only [if_true, hcl, true_and]
        by_cases hr : r = row
        · subst hr
          simp [hrl]
        · have hr2 : ¬ row = r := fun h => hr h.symm
          simp [hr, hr2, List.getElem?_set, hb]
      · have hjc : ¬ j = col := fun h => hcj h.symm
        simp [hcj, hjc]
    · intro tid2 hne
      rw [db_getTable_setTable, if_neg (fun h => hne h.symm)]

end MemDb

namespace Game

open MemDb

/-- The effect of `Execute(Op::RegisterProperty)` on an active entity whose table lacks
the property: the entity moves to the last row of a table with the old schema plus the
property; there, a column the old table has holds the old row's value, and the new column
holds the op's value (written over the default) or the default; the old table loses the
row by swap-remove. -/
theorem executeRegister_spec (H : HashScheme) (reg : TypeRegistry) (w : World)
    (op : Op.RegisterProperty) (k : CategoryId) (row : Nat) (cat : Category) (src : Table)
    (hm : GetEntityMapping w op.entity = some { category := k, inst := some row })
    (hcat : w.GetCategory k = some cat)
    (hsrc : w.db.GetTable cat.instanceTable = some src)
    (hwf : src.WellFormed) (hrow : row < src.numRows) (hnot : op.pid ∉ src.properties)
    (hc1 : w.CanonicalFor (H.AddToHash cat.hash op.pid) (src.properties ++ [op.pid]))
    (hc2 : w.CanonicalFor (H.hashOf (src.properties ++ [op.pid])) (src.properties ++ [op.pid])) :
    ∃ w2 k2 newCat dst newRow src2 moved,
      ExecuteRegisterProperty H reg op w = some w2 ∧
      GetEntityMapping w2 op.entity = some { category := k2, inst := some newRow } ∧
      w2.GetCategory k2 = some newCat ∧
      w2.db.GetTable newCat.instanceTable = some dst ∧
      dst.WellFormed ∧ dst.properties.Perm (src.properties ++ [op.pid]) ∧
      newRow + 1 = dst.numRows ∧
      (∀ j p, dst.properties[j]? = some p →
        dst.GetValue j newRow = some
          (match src.GetColumnId p with
           | some i =>
             match src.GetValue i row with
             | some v => v
             | none => reg.DefaultValue p
           | none =>
             match op.value with
             | some v => Memory.Copy v (reg.DefaultValue p) (reg.TypeSize p)
             | none => reg.DefaultValue p)) ∧
      w2.GetCategory k = some cat ∧
      src.FreeRow row = some (src2, moved) ∧ w2.db.GetTable cat.instanceTable = some src2 := by
  have hnd : (src.properties ++ [op.pid]).Nodup := by
    rw [List.nodup_append]
    exact ⟨hwf.1, List.nodup_singleton _, by simpa using hnot⟩
  obtain ⟨newCat, dst0, hk2, hdst0, hwf0, hperm, hem, hpool, hcats, htabs⟩ :=
    resolveCategory_spec H w (H.AddToHash cat.hash op.pid) (src.properties ++ [op.pid]) hnd hc1 hc2
  have hfound : (match w.catIndexMap.lookup (H.AddToHash cat.hash op.pid) with
      | some cid => some (w, cid)
      | none =>
        match w.db.GetTable cat.instanceTable with
        | some tbl => some (w.CreateCategory H { properties := tbl.properties ++ [op.pid] })
        | none => none) =
      some (resolveCategory H w (H.AddToHash cat.hash op.pid) (src.properties ++ [op.pid])) := by
    rw [hsrc]
    unfold resolveCategory
    cases w.catIndexMap.lookup (H.AddToHash cat.hash op.pid) <;> rfl
  generalize resolveCategory H w (H.AddToHash cat.hash op.pid) (src.properties ++ [op.pid]) = res
    at hk2 hdst0 hem hpool hcats htabs hfound
  obtain ⟨w1, k2⟩ := res
  simp only at hk2 hdst0 hem hpool hcats htabs
  have hm1 : GetEntityMapping w1 op.entity = some { category := k, inst := some row } := by
    rw [getEntityMapping_congr _ _ _ hem hpool]
    exact hm
  have hcat1 := hcats k cat hcat
  have hsrc1 := htabs _ _ hsrc
  have hne : cat.instanceTable ≠ newCat.instanceTable := by
    intro heq
    rw [heq, hdst0] at hsrc1
    cases hsrc1
    have := hperm.length_eq
    simp at this
  obtain ⟨w2, hmig, hcats2, _, _, _, hnew2, ⟨src2, moved, hfree, hold2⟩, _, hmap2⟩ :=
    migrate_spec reg w1 op.entity k2 { category := k, inst := some row } row cat newCat src dst0
      hm1 rfl hcat1 hk2 hsrc1 hdst0 hne hrow
  obtain ⟨hwf1, hprops1, hrows1, _⟩ :=
    wellFormed_copyShared_allocateRow reg src dst0 op.entity row hwf0
  have hk2' : w2.GetCategory k2 = some newCat := by
    simpa [World.GetCategory, hcats2] using hk2
  have hcat2 : w2.GetCategory k = some cat := by
    simpa [World.GetCategory, hcats2] using hcat1
  have hexec : ExecuteRegisterProperty H reg op w =
      match op.value with
      | none => some w2
      | some value =>
        match w2.GetCategory k2 with
        | none => none
        | some newCat =>
          match w2.db.GetColumnId newCat.instanceTable op.pid with
          | none => none
          | some cid =>
            match w2.db.WriteValue newCat.instanceTable cid dst0.numRows value
                (reg.TypeSize op.pid) with
            | some db => some { w2 with db := db }
            | none => none := by
    unfold ExecuteRegisterProperty
    simp only [hm, hcat, hfound, hmig]
  rw [hexec]
  cases hval : op.value with
  | none =>
    refine ⟨w2, k2, newCat, _, dst0.numRows, src2, moved, rfl, hmap2, hk2', hnew2, hwf1,
      by rw [hprops1]; exact hperm, by rw [hrows1], ?_, hcat2, hfree, hold2⟩
    intro j p hj
    rw [hprops1] at hj
    rw [getValue_copyShared_allocateRow reg src dst0 op.entity row j p hwf0.2.1 hwf0.2.2.1 hj]
  | some v =>
    have hmem : op.pid ∈ dst0.properties := hperm.symm.subset (by simp)
    obtain ⟨cid, hcid⟩ := Option.isSome_iff_exists.mp
      ((table_getColumnId_isSome (src.CopyShared row (dst0.AllocateRow reg op.entity).1 dst0.numRows)
        op.pid).mpr (by rw [hprops1]; exact hmem))
    have hcidp := table_getColumnId_some _ _ _ hcid
    rw [hprops1] at hcidp
    have hcell := getValue_copyShared_allocateRow reg src dst0 op.entity row cid op.pid
      hwf0.2.1 hwf0.2.2.1 hcidp
    have hsrcnone : src.GetColumnId op.pid = none := (table_getColumnId_none _ _).mpr hnot
    rw [hsrcnone] at hcell
    simp only at hcell
    obtain ⟨db3, dst2, hwrite, hget3, hprops3, hrows3, _, hwf3, hvals3, hoth3⟩ :=
      writeValue_spec w2.db newCat.instanceTable cid dst0.numRows v (reg.TypeSize op.pid) _ _
        hnew2 hcell
    have hgc : w2.db.GetColumnId newCat.instanceTable op.pid = some cid := by
      simp only [Database.GetColumnId, hnew2]
      exact hcid
    refine ⟨{ w2 with db := db3 }, k2, newCat, dst2, dst0.numRows, src2, moved, ?_, ?_, hk2',
      hget3, hwf3 hwf1, by rw [hprops3, hprops1]; exact hperm, by rw [hrows3, hrows1], ?_, hcat2,
      hfree, ?_⟩
    · simp only [hk2', hgc, hwrite]
    · exact (getEntityMapping_congr w2 { w2 with db := db3 } op.entity rfl rfl).trans hmap2
    · intro j p hj
      rw [hprops3, hprops1] at hj
      rw [hvals3]
      by_cases hjc : j = cid
      · subst hjc
        have hp : p = op.pid := by
          rw [hcidp] at hj
          exact (Option.some.inj hj).symm
        subst hp
        simp [hsrcnone]
      · simp only [hjc, false_and, if_false]
        rw [getValue_copyShared_allocateRow reg src dst0 op.entity row j p hwf0.2.1 hwf0.2.2.1 hj]
        have hpne : p ≠ op.pid := by
          intro hp
          subst hp
          have h1 := table_getColumnId_of_nodup
            (src.CopyShared row (dst0.AllocateRow reg op.entity).1 dst0.numRows) op.pid j hwf1.1
            (by rw [hprops1]; exact hj)
          rw [hcid] at h1
          exact hjc (Option.some.inj h1).symm
        have hpsrc : p ∈ src.properties := by
          have := hperm.subset (List.getElem?_mem hj)
          simpa [hpne] using this
        obtain ⟨i, hi⟩ := Option.isSome_iff_exists.mp
          ((table_getColumnId_isSome src p).mpr hpsrc)
        rw [hi]
    · show db3.GetTable cat.instanceTable = some src2
      rw [hoth3 _ hne]
      exact hold2

end Game

namespace Game

open MemDb

theorem memory_copy_full (v cell : Value) (n : Nat) (hv : v.length = n) (hc : cell.length ≤ n) :
    Memory.Copy v cell n = v := by
  unfold Memory.Copy
  rw [List.take_of_length_le (by omega), List.drop_eq_nil_of_le hc, List.append_nil]

theorem dispatch_single_register (H : HashScheme) (reg : TypeRegistry) (a : OpBufferAllocator)
    (buffer : OpBuffer) (op : Op.RegisterProperty) (w w2 : World)
    (hfresh : a.Get buffer = some ([], []))
    (hexec : ExecuteRegisterProperty H reg (storedOp reg op) w = some w2) :
    ∃ a1 a2, AddOpRegisterProperty reg a buffer op = some a1 ∧
      Dispatch H reg a1 buffer w = some (w2, a2, none) := by
  have h1 := idAllocator_get_set a buffer ([], []) ([storedOp reg op], []) hfresh
  refine ⟨a.Set buffer ([storedOp reg op], []),
    ((a.Set buffer ([storedOp reg op], [])).Set buffer ([], [])).Dealloc buffer, ?_, ?_⟩
  · simp only [AddOpRegisterProperty, hfresh]
    rfl
  · simp only [Dispatch, DispatchWith, h1, drain, hexec]

/-- C2: for a registered component C whose default has C's byte size, a value v of that
size, and an active entity e whose table (well-formed, canonical target) has no column C:
`AddOp` of (e, C, v) on a fresh buffer followed by `Dispatch` succeeds; afterwards e is
mapped to a category whose schema is the old schema plus C, `HasProperty(e, C)` is true,
the C buffer of that category read at `GetInstanceId(e)` is v, and the old category's
table has exactly one row fewer. -/
theorem add_with_value_then_dispatch (H : HashScheme) (reg : TypeRegistry) (w : World)
    (a : OpBufferAllocator) (buffer : OpBuffer) (e : Entity) (pid : PropertyId) (v : Value)
    (desc : PropertyDescription) (k : CategoryId) (row : Nat) (cat : Category) (src : Table)
    (hfresh : a.Get buffer = some ([], []))
    (hreg : reg.descriptions[pid]? = some desc)
    (hdef : desc.defVal.length = desc.typeSize) (hsize : v.length = desc.typeSize)
    (hm : GetEntityMapping w e = some { category := k, inst := some row })
    (hcat : w.GetCategory k = some cat)
    (hsrc : w.db.GetTable cat.instanceTable = some src)
    (hwf : src.WellFormed) (hrow : row < src.numRows) (hnot : pid ∉ src.properties)
    (hc1 : w.CanonicalFor (H.AddToHash cat.hash pid) (src.properties ++ [pid]))
    (hc2 : w.CanonicalFor (H.hashOf (src.properties ++ [pid])) (src.properties ++ [pid])) :
    ∃ a1 a2 w2 k2 newCat dst newRow ptr oldRows,
      AddOpRegisterProperty reg a buffer { entity := e, pid := pid, value := some v } = some a1 ∧
      Dispatch H reg a1 buffer w = some (w2, a2, none) ∧
      GetEntityMapping w2 e = some { category := k2, inst := some newRow } ∧
      w2.GetCategory k2 = some newCat ∧
      w2.db.GetTable newCat.instanceTable = some dst ∧
      dst.properties.Perm (src.properties ++ [pid]) ∧
      HasProperty w2 e pid = some true ∧
      GetInstanceId w2 e = some newRow ∧
      GetInstanceBuffer w2 k2 pid = some ptr ∧
      w2.db.Read ptr newRow = some v ∧
      GetNumInstances w k = some (oldRows + 1) ∧ GetNumInstances w2 k = some oldRows := by
  have hts : reg.TypeSize pid = desc.typeSize := by simp [TypeRegistry.TypeSize, hreg]
  have hdv : reg.DefaultValue pid = desc.defVal := by simp [TypeRegistry.DefaultValue, hreg]
  have hstored : storedOp reg { entity := e, pid := pid, value := some v } =
      { entity := e, pid := pid, value := some v } := by
    simp only [storedOp]
    rw [memory_copy_full v [] _ (by rw [hts, hsize]) (by simp)]
  obtain ⟨w2, k2, newCat, dst, newRow, src2, moved, hexec, hmap, hk2, hdst, hwfd, hperm, _,
      hvals, hcat2, hfree, hold2⟩ :=
    executeRegister_spec H reg w { entity := e, pid := pid, value := some v } k row cat src
      hm hcat hsrc hwf hrow hnot hc1 hc2
  obtain ⟨a1, a2, hadd, hdisp⟩ :=
    dispatch_single_register H reg a buffer { entity := e, pid := pid, value := some v } w w2
      hfresh (by rw [hstored]; exact hexec)
  have hmem : pid ∈ dst.properties := hperm.symm.subset (by simp)
  obtain ⟨cid, hcid⟩ := Option.isSome_iff_exists.mp ((table_getColumnId_isSome dst pid).mpr hmem)
  have hcidp := table_getColumnId_some _ _ _ hcid
  have hcidlt : cid < dst.columns.length := by
    rw [hwfd.2.1]
    exact (List.getElem?_eq_some.mp hcidp).1
  have hval := hvals cid pid hcidp
  rw [(table_getColumnId_none src pid).mpr hnot] at hval
  simp only at hval
  rw [hts, hdv, memory_copy_full v desc.defVal _ hsize (by omega)] at hval
  have hlt : row < src.numRows := hrow
  rw [freeRow_eq src row hlt] at hfree
  refine ⟨a1, a2, w2, k2, newCat, dst, newRow, { table := newCat.instanceTable, column := cid },
    src.numRows - 1, hadd, hdisp, hmap, hk2, hdst, hperm, ?_, ?_, ?_, ?_, ?_, ?_⟩
  · simp [HasProperty, hmap, hk2, Database.HasProperty, hdst, hcid]
  · simp [GetInstanceId, hmap]
  · simp [GetInstanceBuffer, hk2, Database.GetColumnId, hdst, hcid, Database.GetBuffer, hcidlt]
  · simp [Database.Read, hdst, hval]
  · simp only [GetNumInstances, hcat, Database.GetNumRows, hsrc]
    congr 1
    omega
  · cases hfree
    simp [GetNumInstances, hcat2, Database.GetNumRows, hold2]

end Game

namespace Game

open MemDb

/-- C2 at the spec's scenario: entity 0 has only `Position`; `Health` (default 100) is
added with the value 50. -/
theorem add_with_value_then_dispatch_witness :
    (CreateOpBuffer { entries := [], freeIds := [] }).1.Get 0 = some ([], []) ∧
    GetEntityMapping scenarioWorld { index := 0, generation := 0 } =
      some { category := 0, inst := some 0 } ∧
    (1 : PropertyId) ∉ [0] ∧
    ∃ a1 a2 w2 k2 newCat dst newRow ptr oldRows,
      AddOpRegisterProperty scenarioRegistry (CreateOpBuffer { entries := [], freeIds := [] }).1 0
        { entity := { index := 0, generation := 0 }, pid := 1, value := some [50, 0, 0, 0] }
        = some a1 ∧
      Dispatch additiveHash scenarioRegistry a1 0 scenarioWorld = some (w2, a2, none) ∧
      GetEntityMapping w2 { index := 0, generation := 0 } =
        some { category := k2, inst := some newRow } ∧
      w2.GetCategory k2 = some newCat ∧
      w2.db.GetTable newCat.instanceTable = some dst ∧
      dst.properties.Perm ([0] ++ [1]) ∧
      HasProperty w2 { index := 0, generation := 0 } 1 = some true ∧
      GetInstanceId w2 { index := 0, generation := 0 } = some newRow ∧
      GetInstanceBuffer w2 k2 1 = some ptr ∧
      w2.db.Read ptr newRow = some [50, 0, 0, 0] ∧
      GetNumInstances scenarioWorld 0 = some (oldRows + 1) ∧
      GetNumInstances w2 0 = some oldRows :=
  ⟨rfl, by decide, by decide,
   add_with_value_then_dispatch additiveHash scenarioRegistry scenarioWorld
     (CreateOpBuffer { entries := [], freeIds := [] }).1 0 { index := 0, generation := 0 } 1
     [50, 0, 0, 0] { name := "Health", typeSize := 4, defVal := [100, 0, 0, 0] } 0 0
     { hash := additiveHash.hashOf [0], instanceTable := 0 }
     { properties := [0]
       columns := [[[1, 0, 0, 0, 2, 0, 0, 0, 3, 0, 0, 0], [4, 0, 0, 0, 5, 0, 0, 0, 6, 0, 0, 0]]]
       owners := [{ index := 0, generation := 0 }, { index := 1, generation := 0 }]
       numRows := 2 }
     rfl rfl rfl rfl (by decide) rfl rfl (by decide) (by decide) (by decide)
     (fun cid h => by
       have hnone : scenarioWorld.catIndexMap.lookup
           (additiveHash.AddToHash (additiveHash.hashOf [0]) 1) = none := by decide
       rw [show (Category.mk (additiveHash.hashOf [0]) 0).hash = additiveHash.hashOf [0] from rfl,
         hnone] at h
       cases h)
     (fun cid h => by
       have hnone : scenarioWorld.catIndexMap.lookup (additiveHash.hashOf ([0] ++ [1])) = none := by
         decide
       rw [hnone] at h
       cases h)⟩

end Game

namespace Game

open MemDb

theorem table_getValue_some (t : Table) (i row : Nat) (p : PropertyId) (hwf : t.WellFormed)
    (hi : t.properties[i]? = some p) (hrow : row < t.numRows) :
    ∃ v, t.GetValue i row = some v := by
  obtain ⟨_, hlen, hrows, _⟩ := hwf
  have hil : i < t.columns.length := by
    rw [hlen]
    exact (List.getElem?_eq_some.mp hi).1
  have hb : t.columns[i]? = some t.columns[i] := List.getElem?_eq_getElem hil
  have hbl : (t.columns[i]).length = t.numRows := hrows _ (List.getElem_mem hil)
  refine ⟨(t.columns[i])[row], ?_⟩
  simp only [Table.GetValue, hb]
  exact List.getElem?_eq_getElem (by omega)

/-- C3: executing an add-component op for C without a value on an active entity whose
table (well-formed, canonical target) has no column C succeeds; at the entity's new row
in the target table every column shared with the old table holds exactly the bytes it
held at the old row, and column C holds C's registered default value. -/
theorem add_without_value_keeps_shared_and_sets_default (H : HashScheme) (reg : TypeRegistry)
    (w : World) (e : Entity) (pid : PropertyId) (k : CategoryId) (row : Nat) (cat : Category)
    (src : Table)
    (hm : GetEntityMapping w e = some { category := k, inst := some row })
    (hcat : w.GetCategory k = some cat)
    (hsrc : w.db.GetTable cat.instanceTable = some src)
    (hwf : src.WellFormed) (hrow : row < src.numRows) (hnot : pid ∉ src.properties)
    (hc1 : w.CanonicalFor (H.AddToHash cat.hash pid) (src.properties ++ [pid]))
    (hc2 : w.CanonicalFor (H.hashOf (src.properties ++ [pid])) (src.properties ++ [pid])) :
    ∃ w2 k2 newCat dst newRow,
      ExecuteRegisterProperty H reg { entity := e, pid := pid, value := none } w = some w2 ∧
      GetEntityMapping w2 e = some { category := k2, inst := some newRow } ∧
      w2.GetCategory k2 = some newCat ∧
      w2.db.GetTable newCat.instanceTable = some dst ∧
      (∀ p i j, src.GetColumnId p = some i → dst.GetColumnId p = some j →
        ∃ bytes, src.GetValue i row = some bytes ∧ dst.GetValue j newRow = some bytes) ∧
      (∀ p ∈ src.properties, p ∈ dst.properties) ∧
      (∃ c, dst.GetColumnId pid = some c ∧ dst.GetValue c newRow = some (reg.DefaultValue pid)) := by
  obtain ⟨w2, k2, newCat, dst, newRow, src2, moved, hexec, hmap, hk2, hdst, hwfd, hperm, _,
      hvals, _, _, _⟩ :=
    executeRegister_spec H reg w { entity := e, pid := pid, value := none } k row cat src
      hm hcat hsrc hwf hrow hnot hc1 hc2
  refine ⟨w2, k2, newCat, dst, newRow, hexec, hmap, hk2, hdst, ?_, ?_, ?_⟩
  · intro p i j hi hj
    have hip := table_getColumnId_some _ _ _ hi
    have hjp := table_getColumnId_some _ _ _ hj
    obtain ⟨bytes, hb⟩ := table_getValue_some src i row p hwf hip hrow
    refine ⟨bytes, hb, ?_⟩
    rw [hvals j p hjp, hi]
    simp only [hb]
  · intro p hp
    exact hperm.symm.subset (by simp [hp])
  · have hmem : pid ∈ dst.properties := hperm.symm.subset (by simp)
    obtain ⟨c, hc⟩ := Option.isSome_iff_exists.mp ((table_getColumnId_isSome dst pid).mpr hmem)
    refine ⟨c, hc, ?_⟩
    rw [hvals c pid (table_getColumnId_some _ _ _ hc), (table_getColumnId_none src pid).mpr hnot]

/-- C3 at a concrete input: entity 1 of the scenario world, at row 1 of the {Position}
table, gets `Health` without a value. -/
theorem add_without_value_keeps_shared_and_sets_default_witness :
    GetEntityMapping scenarioWorld { index := 1, generation := 0 } =
      some { category := 0, inst := some 1 } ∧
    (1 : PropertyId) ∉ [0] ∧
    ∃ w2 k2 newCat dst newRow,
      ExecuteRegisterProperty additiveHash scenarioRegistry
        { entity := { index := 1, generation := 0 }, pid := 1, value := none } scenarioWorld
        = some w2 ∧
      GetEntityMapping w2 { index := 1, generation := 0 } =
        some { category := k2, inst := some newRow } ∧
      w2.GetCategory k2 = some newCat ∧
      w2.db.GetTable newCat.instanceTable = some dst ∧
      (∀ p i j,
        Table.GetColumnId
          { properties := [0]
            columns := [[[1, 0, 0, 0, 2, 0, 0, 0, 3, 0, 0, 0], [4, 0, 0, 0, 5, 0, 0, 0, 6, 0, 0, 0]]]
            owners := [{ index := 0, generation := 0 }, { index := 1, generation := 0 }]
            numRows := 2 } p = some i →
        dst.GetColumnId p = some j →
        ∃ bytes,
          Table.GetValue
            { properties := [0]
              columns := [[[1, 0, 0, 0, 2, 0, 0, 0, 3, 0, 0, 0], [4, 0, 0, 0, 5, 0, 0, 0, 6, 0, 0, 0]]]
              owners := [{ index := 0, generation := 0 }, { index := 1, generation := 0 }]
              numRows := 2 } i 1 = some bytes ∧
          dst.GetValue j newRow = some bytes) ∧
      (∀ p ∈ [0], p ∈ dst.properties) ∧
      (∃ c, dst.GetColumnId 1 = some c ∧
        dst.GetValue c newRow = some (scenarioRegistry.DefaultValue 1)) :=
  ⟨by decide, by decide,
   add_without_value_keeps_shared_and_sets_default additiveHash scenarioRegistry scenarioWorld
     { index := 1, generation := 0 } 1 0 1
     { hash := additiveHash.hashOf [0], instanceTable := 0 }
     { properties := [0]
       columns := [[[1, 0, 0, 0, 2, 0, 0, 0, 3, 0, 0, 0], [4, 0, 0, 0, 5, 0, 0, 0, 6, 0, 0, 0]]]
       owners := [{ index := 0, generation := 0 }, { index := 1, generation := 0 }]
       numRows := 2 }
     (by decide) rfl rfl (by decide) (by decide) (by decide)
     (fun cid h => by
       have hnone : scenarioWorld.catIndexMap.lookup
           (additiveHash.AddToHash (additiveHash.hashOf [0]) 1) = none := by decide
       rw [show (Category.mk (additiveHash.hashOf [0]) 0).hash = additiveHash.hashOf [0] from rfl,
         hnone] at h
       cases h)
     (fun cid h => by
       have hnone : scenarioWorld.catIndexMap.lookup (additiveHash.hashOf ([0] ++ [1])) = none := by
         decide
       rw [hnone] at h
       cases h)⟩

end Game

namespace Game

open MemDb

/-- The fill loop of the remove path writes the columns other than `pid`, in order,
behind what is already written, when the array has room for them. -/
theorem copyWithout_eq (pid x : PropertyId) (cols pre : List PropertyId) (n : Nat)
    (hn : (cols.filter (fun c => decide (c ≠ pid))).length ≤ n) :
    copyWithout pid cols (pre ++ List.replicate n x) pre.length =
      some (pre ++ cols.filter (fun c => decide (c ≠ pid)) ++
        List.replicate (n - (cols.filter (fun c => decide (c ≠ pid))).length) x) := by
  induction cols generalizing pre n with
  | nil => simp [copyWithout]
  | cons c cols ih =>
    by_cases hc : c = pid
    · have hf : (c :: cols).filter (fun c => decide (c ≠ pid)) =
          cols.filter (fun c => decide (c ≠ pid)) := by simp [List.filter_cons, hc]
      rw [hf] at hn ⊢
      simp only [copyWithout, hc, if_true]
      exact ih pre n hn
    · have hf : (c :: cols).filter (fun c => decide (c ≠ pid)) =
          c :: cols.filter (fun c => decide (c ≠ pid)) := by simp [List.filter_cons, hc]
      rw [hf] at hn ⊢
      simp only [List.length_cons] at hn
      obtain ⟨m, rfl⟩ : ∃ m, n = m + 1 := ⟨n - 1, by omega⟩
      have hset : (pre ++ List.replicate (m + 1) x).set pre.length c =
          (pre ++ [c]) ++ List.replicate m x := by
        rw [List.replicate_succ, List.set_append_right _ _ (le_refl _)]
        simp
      have hlt : pre.length < (pre ++ List.replicate (m + 1) x).length := by simp
      simp only [copyWithout, hc, if_false, hlt, if_true, hset]
      have := ih (pre ++ [c]) m (by omega)
      simp only [List.length_append, List.length_singleton] at this
      rw [this]
      simp

theorem copyWithout_of_mem (pid : PropertyId) (cols : List PropertyId) (hnd : cols.Nodup)
    (hmem : pid ∈ cols) :
    copyWithout pid cols (List.replicate (cols.length - 1) InvalidPropertyId) 0 =
      some (cols.erase pid) := by
  have hfilter : cols.filter (fun c => decide (c ≠ pid)) = cols.erase pid := by
    rw [hnd.erase_eq_filter pid]
    congr 1
    funext c
    by_cases hc : c = pid <;> simp [hc]
  have hlen : (cols.erase pid).length = cols.length - 1 := List.length_erase_of_mem hmem
  have := copyWithout_eq pid InvalidPropertyId cols [] (cols.length - 1)
    (by rw [hfilter, hlen])
  rw [hfilter, hlen] at this
  simpa using this

end Game

namespace Game

open MemDb

/-- The effect of `Execute(Op::DeregisterProperty)` on an active entity whose table has
the property: the entity moves to the last row of a table with the old schema without
the property, where every column holds the old row's value; the old table loses the row
by swap-remove. -/
theorem executeDeregister_spec (H : HashScheme) (reg : TypeRegistry) (w : World)
    (op : Op.DeregisterProperty) (k : CategoryId) (row : Nat) (cat : Category) (src : Table)
    (hm : GetEntityMapping w op.entity = some { category := k, inst := some row })
    (hcat : w.GetCategory k = some cat)
    (hsrc : w.db.GetTable cat.instanceTable = some src)
    (hwf : src.WellFormed) (hrow : row < src.numRows) (hmem : op.pid ∈ src.properties)
    (hc1 : w.CanonicalFor (H.RemoveFromHash cat.hash op.pid) (src.properties.erase op.pid))
    (hc2 : w.CanonicalFor (H.hashOf (src.properties.erase op.pid))
      (src.properties.erase op.pid)) :
    ∃ w2 k2 newCat dst newRow src2 moved,
      ExecuteDeregisterProperty H reg op w = some w2 ∧
      GetEntityMapping w2 op.entity = some { category := k2, inst := some newRow } ∧
      w2.GetCategory k2 = some newCat ∧
      w2.db.GetTable newCat.instanceTable = some dst ∧
      dst.WellFormed ∧ dst.properties.Perm (src.properties.erase op.pid) ∧
      newRow + 1 = dst.numRows ∧
      (∀ j p, dst.properties[j]? = some p →
        dst.GetValue j newRow = some
          (match src.GetColumnId p with
           | some i =>
             match src.GetValue i row with
             | some v => v
             | none => reg.DefaultValue p
           | none => reg.DefaultValue p)) ∧
      w2.GetCategory k = some cat ∧
      src.FreeRow row = some (src2, moved) ∧ w2.db.GetTable cat.instanceTable = some src2 := by
  have hnd : (src.properties.erase op.pid).Nodup := hwf.1.erase _
  obtain ⟨newCat, dst0, hk2, hdst0, hwf0, hperm, hem, hpool, hcats, htabs⟩ :=
    resolveCategory_spec H w (H.RemoveFromHash cat.hash op.pid) (src.properties.erase op.pid)
      hnd hc1 hc2
  have hfound : (match w.catIndexMap.lookup (H.RemoveFromHash cat.hash op.pid) with
      | some cid => some (w, cid)
      | none =>
        match w.db.GetTable cat.instanceTable with
        | some tbl =>
          if tbl.properties.length = 0 then none
          else
            match copyWithout op.pid tbl.properties
                (List.replicate (tbl.properties.length - 1) InvalidPropertyId) 0 with
            | some properties => some (w.CreateCategory H { properties := properties })
            | none => none
        | none => none) =
      some (resolveCategory H w (H.RemoveFromHash cat.hash op.pid)
        (src.properties.erase op.pid)) := by
    rw [hsrc]
    have hlen0 : ¬ src.properties.length = 0 := by
      have := List.length_pos_of_mem hmem
      omega
    simp only [hlen0, if_false, copyWithout_of_mem op.pid src.properties hwf.1 hmem]
    unfold resolveCategory
    cases w.catIndexMap.lookup (H.RemoveFromHash cat.hash op.pid) <;> rfl
  generalize resolveCategory H w (H.RemoveFromHash cat.hash op.pid)
    (src.properties.erase op.pid) = res at hk2 hdst0 hem hpool hcats htabs hfound
  obtain ⟨w1, k2⟩ := res
  simp only at hk2 hdst0 hem hpool hcats htabs
  have hm1 : GetEntityMapping w1 op.entity = some { category := k, inst := some row } := by
    rw [getEntityMapping_congr _ _ _ hem hpool]
    exact hm
  have hcat1 := hcats k cat hcat
  have hsrc1 := htabs _ _ hsrc
  have hne : cat.instanceTable ≠ newCat.instanceTable := by
    intro heq
    rw [heq, hdst0] at hsrc1
    cases hsrc1
    have h1 := hperm.length_eq
    rw [List.length_erase_of_mem hmem] at h1
    have h2 := List.length_pos_of_mem hmem
    omega
  obtain ⟨w2, hmig, hcats2, _, _, _, hnew2, ⟨src2, moved, hfree, hold2⟩, _, hmap2⟩ :=
    migrate_spec reg w1 op.entity k2 { category := k, inst := some row } row cat newCat src dst0
      hm1 rfl hcat1 hk2 hsrc1 hdst0 hne hrow
  obtain ⟨hwf1, hprops1, hrows1, _⟩ :=
    wellFormed_copyShared_allocateRow reg src dst0 op.entity row hwf0
  have hk2' : w2.GetCategory k2 = some newCat := by
    simpa [World.GetCategory, hcats2] using hk2
  have hcat2 : w2.GetCategory k = some cat := by
    simpa [World.GetCategory, hcats2] using hcat1
  refine ⟨w2, k2, newCat, _, dst0.numRows, src2, moved, ?_, hmap2, hk2', hnew2, hwf1,
    by rw [hprops1]; exact hperm, by rw [hrows1], ?_, hcat2, hfree, hold2⟩
  · unfold ExecuteDeregisterProperty
    simp only [hm, hcat, hfound, hmig]
  · intro j p hj
    rw [hprops1] at hj
    rw [getValue_copyShared_allocateRow reg src dst0 op.entity row j p hwf0.2.1 hwf0.2.2.1 hj]

end Game

namespace Game

open MemDb

theorem not_mem_swapRemove_owners (owners : List Entity) (e : Entity) (row : Nat)
    (hrow : row < owners.length) (hown : ∀ r, owners[r]? = some e → r = row) :
    e ∉ swapRemove owners row := by
  intro hmem
  obtain ⟨r, hr, hget⟩ := List.getElem_of_mem hmem
  have h1 : (swapRemove owners row)[r]? = some e := by
    rw [List.getElem?_eq_getElem hr, hget]
  rw [getElem?_swapRemove owners row r hrow] at h1
  by_cases hlt : r < owners.length - 1
  · simp only [hlt, if_true] at h1
    by_cases hrr : r = row
    · simp only [hrr, if_true] at h1
      have := hown _ h1
      omega
    · simp only [hrr, if_false] at h1
      exact hrr (hown _ h1)
  · simp [hlt] at h1

/-- C4: executing a remove-component op for C on an active entity e whose table
(well-formed, canonical target, e owning only its own row) has a column C succeeds and
moves e to a category whose schema is the old schema without C: every column of the new
table holds at e's new row exactly the bytes the old table held at e's old row,
`HasProperty(e, C)` is false, the old table's row count drops by one, and no row of the
old table belongs to e. -/
theorem remove_migrates_and_keeps_values (H : HashScheme) (reg : TypeRegistry) (w : World)
    (e : Entity) (pid : PropertyId) (k : CategoryId) (row : Nat) (cat : Category) (src : Table)
    (hm : GetEntityMapping w e = some { category := k, inst := some row })
    (hcat : w.GetCategory k = some cat)
    (hsrc : w.db.GetTable cat.instanceTable = some src)
    (hwf : src.WellFormed) (hrow : row < src.numRows) (hmem : pid ∈ src.properties)
    (hown : ∀ r, src.owners[r]? = some e → r = row)
    (hc1 : w.CanonicalFor (H.RemoveFromHash cat.hash pid) (src.properties.erase pid))
    (hc2 : w.CanonicalFor (H.hashOf (src.properties.erase pid)) (src.properties.erase pid)) :
    ∃ w2 k2 newCat dst newRow src2,
      ExecuteDeregisterProperty H reg { entity := e, pid := pid } w = some w2 ∧
      GetEntityMapping w2 e = some { category := k2, inst := some newRow } ∧
      w2.GetCategory k2 = some newCat ∧
      w2.db.GetTable newCat.instanceTable = some dst ∧
      dst.properties.Perm (src.properties.erase pid) ∧
      (∀ p j, dst.GetColumnId p = some j →
        ∃ i bytes, src.GetColumnId p = some i ∧ src.GetValue i row = some bytes ∧
          dst.GetValue j newRow = some bytes) ∧
      HasProperty w2 e pid = some false ∧
      w2.GetCategory k = some cat ∧
      w2.db.GetTable cat.instanceTable = some src2 ∧
      src2.numRows + 1 = src.numRows ∧
      GetNumInstances w k = some (src2.numRows + 1) ∧ GetNumInstances w2 k = some src2.numRows ∧
      e ∉ src2.owners := by
  obtain ⟨w2, k2, newCat, dst, newRow, src2, moved, hexec, hmap, hk2, hdst, hwfd, hperm, _,
      hvals, hcat2, hfree, hold2⟩ :=
    executeDeregister_spec H reg w { entity := e, pid := pid } k row cat src
      hm hcat hsrc hwf hrow hmem hc1 hc2
  have hnotin : pid ∉ dst.properties := fun h => (hwf.1.not_mem_erase) (hperm.subset h)
  rw [freeRow_eq src row hrow] at hfree
  cases hfree
  refine ⟨w2, k2, newCat, dst, newRow, _, hexec, hmap, hk2, hdst, hperm, ?_, ?_, hcat2, hold2,
    ?_, ?_, ?_, ?_⟩
  · intro p j hj
    have hjp := table_getColumnId_some _ _ _ hj
    have hps : p ∈ src.properties := List.mem_of_mem_erase (hperm.subset (List.getElem?_mem hjp))
    obtain ⟨i, hi⟩ := Option.isSome_iff_exists.mp ((table_getColumnId_isSome src p).mpr hps)
    obtain ⟨bytes, hb⟩ := table_getValue_some src i row p hwf (table_getColumnId_some _ _ _ hi) hrow
    refine ⟨i, bytes, hi, hb, ?_⟩
    rw [hvals j p hjp, hi]
    simp only [hb]
  · simp [HasProperty, hmap, hk2, Database.HasProperty, hdst,
      (table_getColumnId_none dst pid).mpr hnotin]
  · show src.numRows - 1 + 1 = src.numRows
    omega
  · simp only [GetNumInstances, hcat, Database.GetNumRows, hsrc]
    congr 1
    show src.numRows = src.numRows - 1 + 1
    omega
  · simp [GetNumInstances, hcat2, Database.GetNumRows, hold2]
  · exact not_mem_swapRemove_owners src.owners e row (by rw [hwf.2.2.2]; exact hrow) hown

/-- C4 at a concrete input: `Health` is removed from entity 0 of the {Position, Health}
table, which also holds entity 1. -/
theorem remove_migrates_and_keeps_values_witness :
    GetEntityMapping scenarioWorldHealth { index := 0, generation := 0 } =
      some { category := 0, inst := some 0 } ∧
    (1 : PropertyId) ∈ scenarioTableHealth.properties ∧
    ∃ w2 k2 newCat dst newRow src2,
      ExecuteDeregisterProperty additiveHash scenarioRegistry
        { entity := { index := 0, generation := 0 }, pid := 1 } scenarioWorldHealth = some w2 ∧
      GetEntityMapping w2 { index := 0, generation := 0 } =
        some { category := k2, inst := some newRow } ∧
      w2.GetCategory k2 = some newCat ∧
      w2.db.GetTable newCat.instanceTable = some dst ∧
      dst.properties.Perm (scenarioTableHealth.properties.erase 1) ∧
      (∀ p j, dst.GetColumnId p = some j →
        ∃ i bytes, scenarioTableHealth.GetColumnId p = some i ∧
          scenarioTableHealth.GetValue i 0 = some bytes ∧ dst.GetValue j newRow = some bytes) ∧
      HasProperty w2 { index := 0, generation := 0 } 1 = some false ∧
      w2.GetCategory 0 = some { hash := additiveHash.hashOf [0, 1], instanceTable := 0 } ∧
      w2.db.GetTable 0 = some src2 ∧
      src2.numRows + 1 = scenarioTableHealth.numRows ∧
      GetNumInstances scenarioWorldHealth 0 = some (src2.numRows + 1) ∧
      GetNumInstances w2 0 = some src2.numRows ∧
      ({ index := 0, generation := 0 } : Entity) ∉ src2.owners :=
  ⟨by decide, by decide,
   remove_migrates_and_keeps_values additiveHash scenarioRegistry scenarioWorldHealth
     { index := 0, generation := 0 } 1 0 0
     { hash := additiveHash.hashOf [0, 1], instanceTable := 0 } scenarioTableHealth
     (by decide) rfl rfl (by decide) (by decide) (by decide)
     (fun r h => by
       match r, h with
       | 0, _ => rfl
       | 1, h => exact absurd h (by decide)
       | r + 2, h => exact absurd h (by simp [scenarioTableHealth]))
     (fun cid h => by
       have hnone : scenarioWorldHealth.catIndexMap.lookup
           (additiveHash.RemoveFromHash (additiveHash.hashOf [0, 1]) 1) = none := by decide
       rw [show (Category.mk (additiveHash.hashOf [0, 1]) 0).hash = additiveHash.hashOf [0, 1]
         from rfl, hnone] at h
       cases h)
     (fun cid h => by
       have hnone : scenarioWorldHealth.catIndexMap.lookup
           (additiveHash.hashOf (scenarioTableHealth.properties.erase 1)) = none := by decide
       rw [hnone] at h
       cases h)⟩

end Game

namespace Game

open MemDb

theorem hashOf_perm (H : HashScheme) (hoi : H.OrderIndependent) (l1 l2 : List PropertyId)
    (hp : l1.Perm l2) : H.hashOf l1 = H.hashOf l2 := by
  unfold HashScheme.hashOf
  generalize H.empty = h0
  induction hp generalizing h0 with
  | nil => rfl
  | cons x _ ih => exact ih _
  | swap x y l =>
    simp only [List.foldl_cons]
    rw [hoi]
  | trans _ _ ih1 ih2 => exact (ih1 h0).trans (ih2 h0)

/-- No hash of fixed width tells all property-id sets apart: when every hash is below
`2 ^ width`, two different sets of ids below `width + 1` have the same hash. -/
theorem fixed_width_hash_collides (H : HashScheme) (width : Nat)
    (hbound : ∀ ids, H.hashOf ids < 2 ^ width) :
    ∃ l1 l2 : List PropertyId, l1.Nodup ∧ l2.Nodup ∧ ¬ l1.Perm l2 ∧
      H.hashOf l1 = H.hashOf l2 := by
  have hcard : (Finset.range (2 ^ width)).card < ((Finset.range (width + 1)).powerset).card := by
    rw [Finset.card_powerset, Finset.card_range, Finset.card_range]
    exact Nat.pow_lt_pow_right (by norm_num) (by omega)
  obtain ⟨x, _, y, _, hne, heq⟩ :=
    Finset.exists_ne_map_eq_of_card_lt_of_maps_to hcard
      (f := fun s : Finset ℕ => H.hashOf (s.sort (fun a b => a ≤ b)))
      (fun s _ => Finset.mem_range.mpr (hbound _))
  refine ⟨x.sort (fun a b => a ≤ b), y.sort (fun a b => a ≤ b), Finset.sort_nodup _ _,
    Finset.sort_nodup _ _, ?_, heq⟩
  intro hp
  apply hne
  ext a
  rw [← Finset.mem_sort (fun a b => a ≤ b), ← Finset.mem_sort (fun a b => a ≤ b) (s := y)]
  exact hp.mem_iff

/-- C5, counterexample: under the 32-bit additive hash the sets {0, 1} and {2} have the
same hash, so find-or-create on the empty world returns the same category for both
although they differ; and the hash-only lookup of `Execute` moves entity 0 of
`collisionWorld`, to which component 1 is added, into the category of {2}, whose table
has no column 1. -/
theorem find_or_create_collision :
    ¬ ([0, 1] : List PropertyId).Perm [2] ∧
    ((emptyWorld.CreateCategory additiveHash { properties := [0, 1] }).1.CreateCategory
        additiveHash { properties := [2] }).2 =
      (emptyWorld.CreateCategory additiveHash { properties := [0, 1] }).2 ∧
    (ExecuteRegisterProperty additiveHash scenarioRegistry
        { entity := { index := 0, generation := 0 }, pid := 1, value := none }
        collisionWorld).map
      (fun w2 => (GetEntityMapping w2 { index := 0, generation := 0 },
        (w2.db.GetTable 1).map (fun t => t.properties),
        HasProperty w2 { index := 0, generation := 0 } 1)) =
      some (some { category := 1, inst := some 0 }, some [2], some false) := by
  refine ⟨by decide, by decide, by decide⟩

/-- C5, amended: on a world whose hash-to-category map is injective, find-or-create for
S1 followed by find-or-create for S2 returns the same category if and only if the two
sets have the same hash; for an order-independent hash, set-equal id lists have the same
hash, in whatever order their ids were added, and so get the same category. -/
theorem find_or_create_same_iff_same_hash (H : HashScheme) (w : World) (l1 l2 : List PropertyId)
    (hinj : w.IndexMapInjective) :
    (((w.CreateCategory H { properties := l1 }).1.CreateCategory H { properties := l2 }).2 =
        (w.CreateCategory H { properties := l1 }).2 ↔ H.hashOf l1 = H.hashOf l2) ∧
    (H.OrderIndependent → l1.Perm l2 →
      H.hashOf l1 = H.hashOf l2 ∧
      ((w.CreateCategory H { properties := l1 }).1.CreateCategory H { properties := l2 }).2 =
        (w.CreateCategory H { properties := l1 }).2) := by
  obtain ⟨hrange, hinj⟩ := hinj
  have hiff : ((w.CreateCategory H { properties := l1 }).1.CreateCategory H
      { properties := l2 }).2 = (w.CreateCategory H { properties := l1 }).2 ↔
      H.hashOf l1 = H.hashOf l2 := by
    simp only [World.CreateCategory]
    cases h1 : w.catIndexMap.lookup (H.hashOf l1) with
    | some c1 =>
      simp only
      cases h2 : w.catIndexMap.lookup (H.hashOf l2) with
      | some c2 =>
        simp only
        constructor
        · intro heq
          subst heq
          exact hinj _ _ _ h1 h2
        · intro heq
          rw [heq, h2] at h1
          exact Option.some.inj h1
      | none =>
        simp only
        have := hrange _ _ h1
        constructor
        · intro heq
          rw [heq] at this
          exact absurd this (Nat.lt_irrefl _)
        · intro heq
          rw [heq, h2] at h1
          cases h1
    | none =>
      simp only [List.lookup_cons]
      by_cases heq : H.hashOf l2 = H.hashOf l1
      · simp [heq]
      · have hne : (H.hashOf l2 == H.hashOf l1) = false := by simpa using heq
        simp only [hne]
        cases h2 : w.catIndexMap.lookup (H.hashOf l2) with
        | some c2 =>
          simp only
          have := hrange _ _ h2
          constructor
          · intro h
            rw [h] at this
            exact absurd this (Nat.lt_irrefl _)
          · intro h
            exact absurd h.symm heq
        | none =>
          simp only [List.length_append, List.length_singleton]
          constructor
          · intro h
            exact absurd h (Nat.succ_ne_self _)
          · intro h
            exact absurd h.symm heq
  refine ⟨hiff, fun hoi hp => ?_⟩
  have hh := hashOf_perm H hoi l1 l2 hp
  exact ⟨hh, hiff.mpr hh⟩

/-- C5, amended, at a concrete input: the empty world, S1 = [0, 1] and S2 = [1, 0]. -/
theorem find_or_create_same_iff_same_hash_witness :
    ((((emptyWorld.CreateCategory additiveHash { properties := [0, 1] }).1.CreateCategory
          additiveHash { properties := [1, 0] }).2 =
        (emptyWorld.CreateCategory additiveHash { properties := [0, 1] }).2 ↔
        additiveHash.hashOf [0, 1] = additiveHash.hashOf [1, 0]) ∧
    (additiveHash.OrderIndependent → ([0, 1] : List PropertyId).Perm [1, 0] →
      additiveHash.hashOf [0, 1] = additiveHash.hashOf [1, 0] ∧
      ((emptyWorld.CreateCategory additiveHash { properties := [0, 1] }).1.CreateCategory
          additiveHash { properties := [1, 0] }).2 =
        (emptyWorld.CreateCategory additiveHash { properties := [0, 1] }).2)) :=
  find_or_create_same_iff_same_hash additiveHash emptyWorld [0, 1] [1, 0]
    ⟨fun h k hk => by simp [emptyWorld] at hk, fun h1 h2 k hk => by simp [emptyWorld] at hk⟩

end Game

namespace MemDb

theorem testBit_foldl_signature (ids : List PropertyId) (mask i : Nat) :
    (ids.foldl (fun mask pid => mask ||| (1 <<< pid)) mask).testBit i =
      (mask.testBit i || decide (i ∈ ids)) := by
  induction ids generalizing mask with
  | nil => simp
  | cons p ids ih =>
    rw [List.foldl_cons, ih, Nat.testBit_or, Nat.one_shiftLeft, Nat.testBit_two_pow]
    by_cases hp : p = i
    · simp [hp]
    · have hip : ¬ i = p := fun h => hp h.symm
      simp [hp, hip]

/-- Bit `i` of the signature of an id list is set exactly when `i` is in the list. -/
theorem testBit_tableSignature (ids : List PropertyId) (i : Nat) :
    (TableSignature ids).testBit i = decide (i ∈ ids) := by
  unfold TableSignature
  rw [testBit_foldl_signature]
  simp

/-- The inclusive test of the signature query: the schema contains every id of the mask. -/
theorem signature_and_eq_iff (schema ids : List PropertyId) :
    TableSignature schema &&& TableSignature ids = TableSignature ids ↔
      ∀ p ∈ ids, p ∈ schema := by
  constructor
  · intro h p hp
    have hb := congrArg (fun m => Nat.testBit m p) h
    simp only [Nat.testBit_and, testBit_tableSignature] at hb
    simpa [hp] using hb
  · intro h
    apply Nat.eq_of_testBit_eq
    intro i
    simp only [Nat.testBit_and, testBit_tableSignature]
    by_cases hi : i ∈ ids
    · simp [hi, h i hi]
    · simp [hi]

/-- The exclusive test of the signature query: the schema contains no id of the mask. -/
theorem signature_and_eq_zero_iff (schema ids : List PropertyId) :
    TableSignature schema &&& TableSignature ids = 0 ↔ ∀ p ∈ ids, p ∉ schema := by
  constructor
  · intro h p hp hps
    have hb := congrArg (fun m => Nat.testBit m p) h
    simp only [Nat.testBit_and, testBit_tableSignature, Nat.zero_testBit] at hb
    simp [hp, hps] at hb
  · intro h
    apply Nat.eq_of_testBit_eq
    intro i
    simp only [Nat.testBit_and, testBit_tableSignature, Nat.zero_testBit]
    by_cases hi : i ∈ ids
    · simp [hi, h i hi]
    · simp [hi]

/-- The tables the signature query returns: exactly the existing tables whose signature
passes both tests, each once. -/
theorem db_query_spec (db : Database) (inclusive exclusive : Nat) :
    (db.Query inclusive exclusive).Nodup ∧
    ∀ tid, tid ∈ db.Query inclusive exclusive ↔
      ∃ t, db.GetTable tid = some t ∧
        TableSignature t.properties &&& inclusive = inclusive ∧
        TableSignature t.properties &&& exclusive = 0 := by
  refine ⟨(List.nodup_range _).filter _, fun tid => ?_⟩
  unfold Database.Query Database.GetTable
  rw [List.mem_filter, List.mem_range]
  constructor
  · rintro ⟨hlt, hp⟩
    rw [List.getElem?_eq_getElem hlt] at hp
    refine ⟨_, List.getElem?_eq_getElem hlt, ?_⟩
    simpa using hp
  · rintro ⟨t, ht, h1, h2⟩
    refine ⟨(List.getElem?_eq_some.mp ht).1, ?_⟩
    rw [ht]
    simp [h1, h2]

end MemDb

namespace Game

open MemDb

theorem makeView_eq (db : Database) (properties : List PropertyId) (tid : TableId) (t : Table)
    (ht : db.GetTable tid = some t) :
    makeView db properties tid =
      some { cid := none, buffers := viewBuffers db properties tid, numInstances := t.numRows } := by
  simp only [makeView, Database.GetNumRows, ht, viewBuffers]

/-- The view loop builds one view per table id, in order. -/
theorem makeViews_spec (db : Database) (properties : List PropertyId) (tids : List TableId)
    (h : ∀ tid ∈ tids, ∃ t, db.GetTable tid = some t) :
    ∃ views, makeViews db properties tids = some views ∧ views.length = tids.length ∧
      ∀ (i : Nat) (tid : TableId), tids[i]? = some tid →
        ∃ t, db.GetTable tid = some t ∧
          views[i]? = some ({ cid := none, buffers := viewBuffers db properties tid,
                              numInstances := t.numRows } : CategoryTableView) := by
  induction tids with
  | nil => exact ⟨[], rfl, rfl, fun i tid hi => by simp at hi⟩
  | cons tid0 tids ih =>
    obtain ⟨t0, ht0⟩ := h tid0 (by simp)
    obtain ⟨views, hv, hlen, hget⟩ := ih (fun tid hm => h tid (by simp [hm]))
    refine ⟨({ cid := none, buffers := viewBuffers db properties tid0,
               numInstances := t0.numRows } : CategoryTableView) :: views, ?_, by simp [hlen], ?_⟩
    · simp only [makeViews, makeView_eq db properties tid0 t0 ht0, hv]
    · intro i tid hi
      cases i with
      | zero =>
        simp only [List.getElem?_cons_zero, Option.some.injEq] at hi
        subst hi
        exact ⟨t0, ht0, by simp⟩
      | succ i =>
        simp only [List.getElem?_cons_succ] at hi ⊢
        exact hget i tid hi

/-- The result of `Query`: the number of views is the number of tables the signature
query returns; the views pointer is null when there is none, and otherwise there is one
view per returned table, in the order of the returned tables. -/
theorem query_spec (fa : FilterAllocator) (w : World) (filter : Filter) (f : FilterData)
    (hf : fa.Get filter = some f) :
    ∃ data, Query fa w filter = some data ∧
      data.numViews = (w.db.Query f.inclusive f.exclusive).length ∧
      (w.db.Query f.inclusive f.exclusive = [] → data.views = none) ∧
      (w.db.Query f.inclusive f.exclusive ≠ [] →
        ∃ views, data.views = some views ∧
          views.length = (w.db.Query f.inclusive f.exclusive).length ∧
          ∀ (i : Nat) (tid : TableId), (w.db.Query f.inclusive f.exclusive)[i]? = some tid →
            ∃ t, w.db.GetTable tid = some t ∧
              views[i]? = some ({ cid := none, buffers := viewBuffers w.db f.properties tid,
                                  numInstances := t.numRows } : CategoryTableView)) := by
  obtain ⟨views, hv, hlen, hget⟩ := makeViews_spec w.db f.properties
    (w.db.Query f.inclusive f.exclusive)
    (fun tid hm => by
      obtain ⟨t, ht, _⟩ := ((db_query_spec w.db f.inclusive f.exclusive).2 tid).mp hm
      exact ⟨t, ht⟩)
  by_cases hnil : w.db.Query f.inclusive f.exclusive = []
  · refine ⟨{ numViews := (w.db.Query f.inclusive f.exclusive).length, views := none },
      ?_, rfl, fun _ => rfl, fun h => absurd hnil h⟩
    simp [Query, hf, hnil]
  · refine ⟨{ numViews := (w.db.Query f.inclusive f.exclusive).length, views := some views },
      ?_, rfl, fun h => absurd h hnil, fun _ => ⟨views, rfl, hlen, hget⟩⟩
    have hlen0 : ¬ (w.db.Query f.inclusive f.exclusive).length = 0 := by
      simpa [List.length_eq_zero] using hnil
    simp only [Query, hf, hlen0, if_false, hv]

end Game

namespace Game

open MemDb

/-- C6: `Query(filter)` succeeds on a stored filter. The tables it makes views for are
exactly the tables T with `(signature(T) & inclusiveMask) == inclusiveMask` and
`(signature(T) & exclusiveMask) == 0`, that is, whose schema contains every inclusive id
and no exclusive id, each once; `numViews` is their number; when there is none,
`numViews` is 0 and `views` is null; otherwise view `i` is the view of the `i`-th such
table. -/
theorem query_views_match_signature (fa : FilterAllocator) (w : World) (filter : Filter)
    (f : FilterData) (inclusive exclusive : List PropertyId)
    (hf : fa.Get filter = some f)
    (hincl : f.inclusive = TableSignature inclusive)
    (hexcl : f.exclusive = TableSignature exclusive) :
    ∃ data, Query fa w filter = some data ∧
      (w.db.Query f.inclusive f.exclusive).Nodup ∧
      (∀ tid, tid ∈ w.db.Query f.inclusive f.exclusive ↔
        ∃ t, w.db.GetTable tid = some t ∧
          TableSignature t.properties &&& f.inclusive = f.inclusive ∧
          TableSignature t.properties &&& f.exclusive = 0) ∧
      (∀ tid, tid ∈ w.db.Query f.inclusive f.exclusive ↔
        ∃ t, w.db.GetTable tid = some t ∧
          (∀ p ∈ inclusive, p ∈ t.properties) ∧ (∀ p ∈ exclusive, p ∉ t.properties)) ∧
      data.numViews = (w.db.Query f.inclusive f.exclusive).length ∧
      (w.db.Query f.inclusive f.exclusive = [] → data.numViews = 0 ∧ data.views = none) ∧
      (w.db.Query f.inclusive f.exclusive ≠ [] →
        ∃ views, data.views = some views ∧ views.length = data.numViews ∧
          ∀ (i : Nat) (tid : TableId), (w.db.Query f.inclusive f.exclusive)[i]? = some tid →
            ∃ view, views[i]? = some view ∧ makeView w.db f.properties tid = some view) := by
  obtain ⟨data, hq, hnum, hnone, hsome⟩ := query_spec fa w filter f hf
  obtain ⟨hnd, hmem⟩ := db_query_spec w.db f.inclusive f.exclusive
  refine ⟨data, hq, hnd, hmem, ?_, hnum, ?_, ?_⟩
  · intro tid
    rw [hmem tid]
    constructor
    · rintro ⟨t, ht, h1, h2⟩
      rw [hincl] at h1
      rw [hexcl] at h2
      exact ⟨t, ht, (signature_and_eq_iff _ _).mp h1, (signature_and_eq_zero_iff _ _).mp h2⟩
    · rintro ⟨t, ht, h1, h2⟩
      refine ⟨t, ht, ?_, ?_⟩
      · rw [hincl]
        exact (signature_and_eq_iff _ _).mpr h1
      · rw [hexcl]
        exact (signature_and_eq_zero_iff _ _).mpr h2
  · intro hnil
    exact ⟨by rw [hnum, hnil]; rfl, hnone hnil⟩
  · intro hne
    obtain ⟨views, hv, hlen, hget⟩ := hsome hne
    refine ⟨views, hv, by rw [hlen, hnum], ?_⟩
    intro i tid hi
    obtain ⟨t, ht, hview⟩ := hget i tid hi
    exact ⟨_, hview, makeView_eq w.db f.properties tid t ht⟩

/-- C6 at a concrete input: the filter (inclusive {0}, exclusive {1}) on the world with
the tables {0} and {2} has exactly one view, for table 0. -/
theorem query_views_match_signature_witness :
    scenarioFilters.Get 0 = some
      { inclusive := TableSignature [0], exclusive := TableSignature [1], properties := [0],
        access := [AccessMode.READ] } ∧
    ∃ data, Query scenarioFilters collisionWorld 0 = some data ∧
      (∀ tid, tid ∈ collisionWorld.db.Query (TableSignature [0]) (TableSignature [1]) ↔
        ∃ t, collisionWorld.db.GetTable tid = some t ∧
          (∀ p ∈ [0], p ∈ t.properties) ∧ (∀ p ∈ [1], p ∉ t.properties)) ∧
      data.numViews = (collisionWorld.db.Query (TableSignature [0]) (TableSignature [1])).length :=
  ⟨rfl,
   (query_views_match_signature scenarioFilters collisionWorld 0
      { inclusive := TableSignature [0], exclusive := TableSignature [1], properties := [0],
        access := [AccessMode.READ] } [0] [1] rfl rfl rfl).imp
     (fun _ h => ⟨h.1, h.2.2.2.1, h.2.2.2.2.1⟩)⟩

/-- C7: every view of `Query(filter)` has `numInstances` equal to the row count, at the
time of the query, of the table it views: view `i` that of the `i`-th matching table. -/
theorem query_numInstances_eq_row_count (fa : FilterAllocator) (w : World) (filter : Filter)
    (f : FilterData) (hf : fa.Get filter = some f) :
    ∃ data, Query fa w filter = some data ∧
      ∀ views, data.views = some views →
        views.length = (w.db.Query f.inclusive f.exclusive).length ∧
        ∀ (i : Nat) (tid : TableId), (w.db.Query f.inclusive f.exclusive)[i]? = some tid →
          ∃ view, views[i]? = some view ∧ w.db.GetNumRows tid = some view.numInstances := by
  obtain ⟨data, hq, _, hnone, hsome⟩ := query_spec fa w filter f hf
  refine ⟨data, hq, fun views hviews => ?_⟩
  by_cases hnil : w.db.Query f.inclusive f.exclusive = []
  · rw [hnone hnil] at hviews
    cases hviews
  · obtain ⟨views2, hv, hlen, hget⟩ := hsome hnil
    rw [hv] at hviews
    cases hviews
    refine ⟨hlen, fun i tid hi => ?_⟩
    obtain ⟨t, ht, hview⟩ := hget i tid hi
    exact ⟨_, hview, by simp [Database.GetNumRows, ht]⟩

/-- C7 at a concrete input: the single view of the filter on `collisionWorld`. -/
theorem query_numInstances_eq_row_count_witness :
    scenarioFilters.Get 0 = some
      { inclusive := TableSignature [0], exclusive := TableSignature [1], properties := [0],
        access := [AccessMode.READ] } ∧
    ∃ data, Query scenarioFilters collisionWorld 0 = some data ∧
      ∀ views, data.views = some views →
        views.length = (collisionWorld.db.Query (TableSignature [0]) (TableSignature [1])).length ∧
        ∀ (i : Nat) (tid : TableId),
          (collisionWorld.db.Query (TableSignature [0]) (TableSignature [1]))[i]? = some tid →
          ∃ view, views[i]? = some view ∧
            collisionWorld.db.GetNumRows tid = some view.numInstances :=
  ⟨rfl,
   query_numInstances_eq_row_count scenarioFilters collisionWorld 0
     { inclusive := TableSignature [0], exclusive := TableSignature [1], properties := [0],
       access := [AccessMode.READ] } rfl⟩

/-- C8: in every view of `Query(filter)`, the buffers are in the filter's projection
order: `buffers` has one entry per projected id, and entry `n`, for the projected id
`p_n`, is `GetBuffer` of the column of `p_n` in the viewed table when `GetColumnId` finds
one (a non-null pointer to that column when the table has a buffer per schema entry) and
null when `GetColumnId` returns the invalid index. -/
theorem query_buffers_in_projection_order (fa : FilterAllocator) (w : World) (filter : Filter)
    (f : FilterData) (hf : fa.Get filter = some f) :
    ∃ data, Query fa w filter = some data ∧
      ∀ views, data.views = some views →
        ∀ (i : Nat) (tid : TableId), (w.db.Query f.inclusive f.exclusive)[i]? = some tid →
          ∃ view t, views[i]? = some view ∧ w.db.GetTable tid = some t ∧
            view.buffers.length = f.properties.length ∧
            ∀ (n : Nat) (pid : PropertyId), f.properties[n]? = some pid →
              (∀ col, w.db.GetColumnId tid pid = some col →
                view.buffers[n]? = some (w.db.GetBuffer tid col) ∧
                (t.columns.length = t.properties.length →
                  view.buffers[n]? = some (some { table := tid, column := col }))) ∧
              (w.db.GetColumnId tid pid = none → view.buffers[n]? = some none) := by
  obtain ⟨data, hq, _, hnone, hsome⟩ := query_spec fa w filter f hf
  refine ⟨data, hq, fun views hviews => ?_⟩
  by_cases hnil : w.db.Query f.inclusive f.exclusive = []
  · rw [hnone hnil] at hviews
    cases hviews
  · obtain ⟨views2, hv, _, hget⟩ := hsome hnil
    rw [hv] at hviews
    cases hviews
    intro i tid hi
    obtain ⟨t, ht, hview⟩ := hget i tid hi
    refine ⟨_, t, hview, ht, by simp [viewBuffers], ?_⟩
    intro n pid hn
    have hb : (viewBuffers w.db f.properties tid)[n]? =
        some (match w.db.GetColumnId tid pid with
              | some colId => w.db.GetBuffer tid colId
              | none => none) := by
      simp [viewBuffers, List.getElem?_map, hn]
    constructor
    · intro col hcol
      rw [hcol] at hb
      refine ⟨hb, fun hlen => ?_⟩
      show (viewBuffers w.db f.properties tid)[n]? = _
      rw [hb]
      have hcolp : t.properties[col]? = some pid := by
        simp only [Database.GetColumnId, ht] at hcol
        exact table_getColumnId_some t pid col hcol
      have hlt : col < t.columns.length := by
        rw [hlen]
        exact (List.getElem?_eq_some.mp hcolp).1
      simp [Database.GetBuffer, ht, hlt]
    · intro hcol
      rw [hcol] at hb
      exact hb

/-- C8 at a concrete input: the single view of the filter on `collisionWorld`. -/
theorem query_buffers_in_projection_order_witness :
    scenarioFilters.Get 0 = some
      { inclusive := TableSignature [0], exclusive := TableSignature [1], properties := [0],
        access := [AccessMode.READ] } ∧
    ∃ data, Query scenarioFilters collisionWorld 0 = some data ∧
      ∀ views, data.views = some views →
        ∀ (i : Nat) (tid : TableId),
          (collisionWorld.db.Query (TableSignature [0]) (TableSignature [1]))[i]? = some tid →
          ∃ view t, views[i]? = some view ∧ collisionWorld.db.GetTable tid = some t ∧
            view.buffers.length = [0].length ∧
            ∀ (n : Nat) (pid : PropertyId), [0][n]? = some pid →
              (∀ col, collisionWorld.db.GetColumnId tid pid = some col →
                view.buffers[n]? = some (collisionWorld.db.GetBuffer tid col) ∧
                (t.columns.length = t.properties.length →
                  view.buffers[n]? = some (some { table := tid, column := col }))) ∧
              (collisionWorld.db.GetColumnId tid pid = none → view.buffers[n]? = some none) :=
  ⟨rfl,
   query_buffers_in_projection_order scenarioFilters collisionWorld 0
     { inclusive := TableSignature [0], exclusive := TableSignature [1], properties := [0],
       access := [AccessMode.READ] } rfl⟩

/-- C9, the code at a failing input: the filter (inclusive {0}, exclusive {1}) on
`collisionWorld` yields one view, of table 0, which category 0 owns; the view's `cid` is
`CategoryId::Invalid()`, not 0. -/
theorem query_view_cid_is_invalid :
    collisionWorld.db.Query (TableSignature [0]) (TableSignature [1]) = [0] ∧
    (collisionWorld.GetCategory 0).map (fun cat => cat.instanceTable) = some 0 ∧
    (Query scenarioFilters collisionWorld 0).map
      (fun data => (data.numViews, data.views.map (fun views => views.map (fun v => v.cid)))) =
      some (1, some [none]) := by
  refine ⟨by decide, by decide, by decide⟩

end Game

namespace Game

open MemDb

/-- The copy loop, started at `i` with the first `i` elements copied, returns the first
`num` elements of the source when the count is 8-bit, within the source, and the fuel
covers the remaining loop tests. -/
theorem copyArray_eq {α : Type} (source : List α) (num fuel i : Nat)
    (hnum : num ≤ 255) (hlen : num ≤ source.length) (hi : i ≤ num) (hfuel : num - i < fuel) :
    copyArray source num fuel i (source.take i) = some (source.take num) := by
  induction fuel generalizing i with
  | zero => omega
  | succ fuel ih =>
    unfold copyArray
    by_cases hlt : i < num
    · have hget : source[i]? = some source[i] := List.getElem?_eq_getElem (by omega)
      have hmod : (i + 1) % 256 = i + 1 := Nat.mod_eq_of_lt (by omega)
      have htake : source.take i ++ [source[i]] = source.take (i + 1) := by
        rw [List.take_succ, hget]
        rfl
      simp only [hlt, if_true, hget, hmod, htake]
      exact ih (i + 1) (by omega) (by omega)
    · have : i = num := by omega
      simp [hlt, this]

theorem idAllocator_alloc_set_get {α : Type} (a : Ids.IdAllocator α) (fresh entry : α)
    (hwf : allocatorWellFormed a) :
    ((a.Alloc fresh).1.Set (a.Alloc fresh).2 entry).Get (a.Alloc fresh).2 = some entry := by
  unfold Ids.IdAllocator.Alloc
  cases hfree : a.freeIds with
  | nil => simp [Ids.IdAllocator.Set, Ids.IdAllocator.Get]
  | cons id rest =>
    have hlt : id < a.entries.length := hwf id (by simp [hfree])
    simp [Ids.IdAllocator.Set, Ids.IdAllocator.Get, List.getElem?_set, hlt]

/-- C10: `CreateFilter` fails its assertion when `numInclusive` is 0. For a create info
with `numInclusive > 0` (counts 8-bit and within their arrays) it succeeds, and the
filter it stores has the inclusive mask built from exactly `inclusive[0..numInclusive)`,
the exclusive mask built from exactly `exclusive[0..numExclusive)`, the projection list
equal to the inclusive ids in their given order, and an access list of length
`numInclusive` with `access[i] = info.access[i]`. -/
theorem createFilter_stores_masks_projection_access (fa : FilterAllocator)
    (info : FilterCreateInfo) (htyped : info.WellTyped) (hfa : allocatorWellFormed fa) :
    (info.numInclusive = 0 → CreateFilter fa info = none) ∧
    (info.numInclusive > 0 →
      ∃ fa2 filter f, CreateFilter fa info = some (fa2, filter) ∧ fa2.Get filter = some f ∧
        f.inclusive = TableSignature (info.inclusive.take info.numInclusive) ∧
        f.exclusive = TableSignature (info.exclusive.take info.numExclusive) ∧
        f.properties = info.inclusive.take info.numInclusive ∧
        f.properties.length = info.numInclusive ∧
        f.access.length = info.numInclusive ∧
        (∀ i, i < info.numInclusive →
          f.properties[i]? = info.inclusive[i]? ∧ f.access[i]? = info.access[i]?)) := by
  obtain ⟨h1, h2, h3, h4, h5⟩ := htyped
  constructor
  · intro h0
    simp [CreateFilter, h0]
  · intro hpos
    have hinc := copyArray_eq info.inclusive info.numInclusive 256 0 h1 h3 (by omega) (by omega)
    have hexc := copyArray_eq info.exclusive info.numExclusive 256 0 h2 h5 (by omega) (by omega)
    have hacc := copyArray_eq info.access info.numInclusive 256 0 h1 h4 (by omega) (by omega)
    simp only [List.take_zero] at hinc hexc hacc
    refine ⟨_, (fa.Alloc { inclusive := 0, exclusive := 0, properties := [], access := [] }).2,
      { inclusive := TableSignature (info.inclusive.take info.numInclusive)
        exclusive := TableSignature (info.exclusive.take info.numExclusive)
        properties := info.inclusive.take info.numInclusive
        access := info.access.take info.numInclusive },
      ?_, idAllocator_alloc_set_get fa
        { inclusive := 0, exclusive := 0, properties := [], access := [] } _ hfa,
      rfl, rfl, rfl, ?_, ?_, ?_⟩
    · simp only [CreateFilter, hpos, if_true, hinc, hexc, hacc]
    · simp [h3]
    · simp [h4]
    · intro i hi
      simp [List.getElem?_take, hi]

/-- C10 at a concrete input: inclusive [0, 2] with access [READ, WRITE], exclusive [1],
on an empty filter allocator. -/
theorem createFilter_stores_masks_projection_access_witness :
    FilterCreateInfo.WellTyped
      { inclusive := [0, 2], access := [AccessMode.READ, AccessMode.WRITE], numInclusive := 2,
        exclusive := [1], numExclusive := 1 } ∧
    ∃ fa2 filter f,
      CreateFilter { entries := [], freeIds := [] }
        { inclusive := [0, 2], access := [AccessMode.READ, AccessMode.WRITE], numInclusive := 2,
          exclusive := [1], numExclusive := 1 } = some (fa2, filter) ∧
      fa2.Get filter = some f ∧
      f.inclusive = TableSignature [0, 2] ∧ f.exclusive = TableSignature [1] ∧
      f.properties = [0, 2] ∧ f.access = [AccessMode.READ, AccessMode.WRITE] :=
  ⟨by decide,
   ((createFilter_stores_masks_projection_access { entries := [], freeIds := [] }
      { inclusive := [0, 2], access := [AccessMode.READ, AccessMode.WRITE], numInclusive := 2,
        exclusive := [1], numExclusive := 1 } (by decide)
      (fun id h => by simp at h)).2 (by decide)).imp
     (fun _ h => h.imp (fun _ h => h.imp (fun f h =>
       ⟨h.1, h.2.1, h.2.2.1, h.2.2.2.1, h.2.2.2.2.1, by
         have hlen : f.access.length = 2 := h.2.2.2.2.2.2.1
         have h0 := (h.2.2.2.2.2.2.2 0 (by decide)).2
         have h1 := (h.2.2.2.2.2.2.2 1 (by decide)).2
         apply List.ext_getElem?
         intro n
         match n with
         | 0 => exact h0
         | 1 => exact h1
         | n + 2 =>
           rw [List.getElem?_eq_none (by omega)]
           rfl⟩)))⟩

end Game

namespace Game

open MemDb

theorem pool_allocate_some (pool : EntityPool) (h : pool.FreeIdsInRange) :
    ∃ pool2 e, pool.Allocate = some (pool2, e) := by
  unfold EntityPool.Allocate
  cases hf : pool.freeIds with
  | nil => exact ⟨_, _, rfl⟩
  | cons index rest =>
    have hlt : index < pool.generations.length := h index (by simp [hf])
    simp only [List.getElem?_eq_getElem hlt]
    exact ⟨_, _, rfl⟩

theorem growEntityMap_frame (env : EntityEnv) (w : World) (index : Nat) :
    (growEntityMap env w index).db = w.db ∧
    (growEntityMap env w index).categories = w.categories ∧
    (growEntityMap env w index).catIndexMap = w.catIndexMap ∧
    (growEntityMap env w index).pool = w.pool ∧
    (growEntityMap env w index).numEntities = w.numEntities ∧
    (growEntityMap env w index).allocQueue = w.allocQueue ∧
    (growEntityMap env w index).deallocQueue = w.deallocQueue := by
  unfold growEntityMap
  split <;> exact ⟨rfl, rfl, rfl, rfl, rfl, rfl, rfl⟩

/-- What a successful placement does: the category and its table exist, the entity has a
slot, the table gets one more row owned by the entity, and the slot is mapped to it. -/
theorem placeInstance_some (reg : TypeRegistry) (w w2 : World) (e : Entity)
    (category : Option CategoryId) (h : w.PlaceInstance reg e category = some w2) :
    ∃ k cat t, category = some k ∧ w.GetCategory k = some cat ∧
      w.db.GetTable cat.instanceTable = some t ∧ e.index < w.entityMap.length ∧
      w2 = { w with
             db := w.db.SetTable cat.instanceTable (t.AllocateRow reg e).1
             entityMap := w.entityMap.set e.index
               { category := k, inst := some (t.AllocateRow reg e).2 } } := by
  unfold World.PlaceInstance at h
  cases category with
  | none => simp at h
  | some k =>
    simp only at h
    cases hc : w.GetCategory k with
    | none => simp [hc] at h
    | some cat =>
      simp only [hc] at h
      cases ht : w.db.GetTable cat.instanceTable with
      | none => simp [ht] at h
      | some t =>
        simp only [ht] at h
        by_cases hlt : e.index < w.entityMap.length
        · simp only [hlt, if_true, Option.some.injEq] at h
          exact ⟨k, cat, t, rfl, hc, ht, hlt, h.symm⟩
        · simp [hlt] at h

theorem placeInstance_placed (reg : TypeRegistry) (w w2 : World) (e : Entity)
    (category : Option CategoryId) (h : w.PlaceInstance reg e category = some w2) :
    w2.allocQueue = w.allocQueue ∧ w2.deallocQueue = w.deallocQueue ∧ w2.pool = w.pool ∧
    ∃ k cat t row, category = some k ∧
      w2.entityMap[e.index]? = some { category := k, inst := some row } ∧
      w2.GetCategory k = some cat ∧ w2.db.GetTable cat.instanceTable = some t ∧
      row + 1 = t.numRows ∧ e ∈ t.owners := by
  obtain ⟨k, cat, t, hk, hcat, ht, hlt, rfl⟩ := placeInstance_some reg w w2 e category h
  refine ⟨rfl, rfl, rfl, k, cat, (t.AllocateRow reg e).1, t.numRows, hk, ?_, hcat, ?_, rfl, ?_⟩
  · simp [List.getElem?_set, hlt]
    rfl
  · rw [db_getTable_setTable]
    simp [db_getTable_lt _ _ _ ht]
  · simp [Table.AllocateRow]

end Game

namespace Game

open MemDb

/-- The entity the pool hands out is valid in the new pool, its index is at most the old
number of slots, and the generations of the old slots are unchanged. -/
theorem pool_allocate_spec (pool pool2 : EntityPool) (e : Entity)
    (h : pool.Allocate = some (pool2, e)) :
    pool2.generations[e.index]? = some e.generation ∧
    e.index ≤ pool.generations.length ∧
    (∀ (i g : Nat), pool.generations[i]? = some g → pool2.generations[i]? = some g) ∧
    (e.index < pool.generations.length → pool.generations[e.index]? = some e.generation) := by
  unfold EntityPool.Allocate at h
  cases hf : pool.freeIds with
  | nil =>
    simp only [hf, Option.some.injEq, Prod.mk.injEq] at h
    obtain ⟨rfl, rfl⟩ := h
    refine ⟨by simp, le_refl _, ?_, fun hlt => absurd hlt (Nat.lt_irrefl _)⟩
    intro i g hi
    rw [List.getElem?_append_left (List.getElem?_eq_some.mp hi).1]
    exact hi
  | cons index rest =>
    simp only [hf] at h
    cases hg : pool.generations[index]? with
    | none => simp [hg] at h
    | some generation =>
      simp only [hg, Option.some.injEq, Prod.mk.injEq] at h
      obtain ⟨rfl, rfl⟩ := h
      exact ⟨hg, Nat.le_of_lt (List.getElem?_eq_some.mp hg).1, fun _ _ hi => hi, fun _ => hg⟩

theorem createCommand_tid (info : EntityCreateInfo) (e1 e2 : Entity) :
    (createCommand info e1).tid = (createCommand info e2).tid := rfl

theorem length_resizeEntityMap (entityMap : List EntityMapping) (size : Nat) :
    (resizeEntityMap entityMap size).length = size := by
  simp only [resizeEntityMap, List.length_append, List.length_take, List.length_replicate]
  omega

/-- C11: on a world whose pool free list is in range, `CreateEntity` with
`immediate = false` succeeds, appends exactly one `AllocateInstance` command carrying the
returned entity and the chosen template or blueprint id to the allocation queue, and
changes no table. With `immediate = true`, whenever it returns, the allocation queue is
unchanged and the returned entity is active, mapped to the last row of the table of the
chosen category, which it owns; it returns when that category and its table exist and
one growth step makes room in the entity map. -/
theorem createEntity_deferred_or_immediate (env : EntityEnv) (reg : TypeRegistry) (w : World)
    (info : EntityCreateInfo) (hpool : w.pool.FreeIdsInRange) :
    (info.immediate = false →
      ∃ w2 e, CreateEntity env reg w info = some (w2, e) ∧
        w2.allocQueue = w.allocQueue ++
          [{ entity := e
             tid := if info.templateId ≠ TemplateId.Invalid then info.templateId
                    else { blueprintId := info.blueprint.id, templateId := InvalidId16 } }] ∧
        w2.db = w.db) ∧
    (info.immediate = true →
      (∀ w2 e, CreateEntity env reg w info = some (w2, e) →
        w2.allocQueue = w.allocQueue ∧
        ∃ k cat t row, createTarget env info = some k ∧
          GetEntityMapping w2 e = some { category := k, inst := some row } ∧
          w2.GetCategory k = some cat ∧ w2.db.GetTable cat.instanceTable = some t ∧
          row + 1 = t.numRows ∧ e ∈ t.owners) ∧
      (∀ k cat t, createTarget env info = some k → w.GetCategory k = some cat →
        w.db.GetTable cat.instanceTable = some t →
        w.pool.generations.length ≤ w.entityMap.length →
        w.entityMap.length < env.growCapacity w.entityMapCapacity →
        ∃ w2 e, CreateEntity env reg w info = some (w2, e))) := by
  obtain ⟨pool2, e0, halloc⟩ := pool_allocate_some w.pool hpool
  obtain ⟨hgen, hidx, _, _⟩ := pool_allocate_spec w.pool pool2 e0 halloc
  obtain ⟨hdb, hcats, _, hpl, _, haq, _⟩ := growEntityMap_frame env
    { w with pool := pool2, numEntities := (w.numEntities + 1) % 4294967296 } e0.index
  have hlen : w.entityMap.length < env.growCapacity w.entityMapCapacity →
      w.pool.generations.length ≤ w.entityMap.length →
      e0.index < (growEntityMap env
        { w with pool := pool2, numEntities := (w.numEntities + 1) % 4294967296 }
        e0.index).entityMap.length := by
    intro hgrow hcover
    unfold growEntityMap
    split
    · show e0.index < (resizeEntityMap _ _).length
      rw [length_resizeEntityMap]
      show e0.index < env.growCapacity w.entityMapCapacity
      omega
    · next hn => exact Nat.lt_of_not_le hn
  have hcreate : CreateEntity env reg w info =
      (fun w1 : World =>
        if (!info.immediate) = true then
          some ({ w1 with allocQueue := w1.allocQueue ++ [createCommand info e0] }, e0)
        else if (createCommand info e0).tid.templateId ≠ InvalidId16 then
          match w1.PlaceInstance reg e0 (env.templateCategory (createCommand info e0).tid) with
          | some w2 => some (w2, e0)
          | none => none
        else
          match w1.PlaceInstance reg e0
              (env.blueprintCategory (createCommand info e0).tid.blueprintId) with
          | some w2 => some (w2, e0)
          | none => none)
      (growEntityMap env
        { w with pool := pool2, numEntities := (w.numEntities + 1) % 4294967296 } e0.index) := by
    simp only [CreateEntity, halloc, World.AllocateInstanceTemplate,
      World.AllocateInstanceBlueprint]
  generalize growEntityMap env
    { w with pool := pool2, numEntities := (w.numEntities + 1) % 4294967296 } e0.index = w1
    at hcreate hdb hcats hpl haq hlen
  simp only at hcreate hdb hcats hpl haq
  have htarget : createTarget env info =
      if (createCommand info e0).tid.templateId ≠ InvalidId16 then
        env.templateCategory (createCommand info e0).tid
      else env.blueprintCategory (createCommand info e0).tid.blueprintId := rfl
  have hrest : info.immediate = true → CreateEntity env reg w info =
      match w1.PlaceInstance reg e0 (createTarget env info) with
      | some w2 => some (w2, e0)
      | none => none := by
    intro himm
    rw [hcreate, htarget]
    simp only [himm, Bool.not_true, Bool.false_eq_true, if_false]
    split <;> rfl
  refine ⟨fun himm => ?_, fun himm => ⟨fun w2 e hce => ?_, fun k cat t hk hcat ht hcover hgrow => ?_⟩⟩
  · refine ⟨{ w1 with allocQueue := w1.allocQueue ++ [createCommand info e0] }, e0, ?_, ?_, hdb⟩
    · rw [hcreate]
      simp [himm]
    · show w1.allocQueue ++ _ = _
      rw [haq]
      rfl
  · rw [hrest himm] at hce
    cases hp : w1.PlaceInstance reg e0 (createTarget env info) with
    | none => simp [hp] at hce
    | some w3 =>
      simp only [hp, Option.some.injEq, Prod.mk.injEq] at hce
      obtain ⟨rfl, rfl⟩ := hce
      obtain ⟨h1, _, h3, k, cat, t, row, hk, hmap, hc, ht, hr, ho⟩ :=
        placeInstance_placed reg w1 w3 e0 _ hp
      refine ⟨by rw [h1, haq], k, cat, t, row, hk, ?_, hc, ht, hr, ho⟩
      apply getEntityMapping_of _ _ _ _ hmap (by simp)
      simp only [IsValid, EntityPool.IsValid, h3, hpl, hgen]
      simp
  · have hslot := hlen hgrow hcover
    rw [hrest himm]
    simp only [World.GetCategory] at hcat
    simp only [World.PlaceInstance, hk, World.GetCategory, hcats, hdb, hcat, ht, hslot, if_true]
    exact ⟨_, _, rfl⟩

end Game

namespace Game

open MemDb

/-- C11 at a concrete input: an immediate `CreateEntity` of blueprint 0 on the world with
the empty {Position} table. -/
theorem createEntity_deferred_or_immediate_witness :
    seedWorld.pool.FreeIdsInRange ∧
    ∃ w2 e,
      CreateEntity sampleEnv scenarioRegistry seedWorld
        { templateId := TemplateId.Invalid, blueprint := { id := 0 }, immediate := true }
        = some (w2, e) ∧
      w2.allocQueue = seedWorld.allocQueue ∧
      ∃ k cat t row,
        createTarget sampleEnv
          { templateId := TemplateId.Invalid, blueprint := { id := 0 }, immediate := true }
          = some k ∧
        GetEntityMapping w2 e = some { category := k, inst := some row } ∧
        w2.GetCategory k = some cat ∧ w2.db.GetTable cat.instanceTable = some t ∧
        row + 1 = t.numRows ∧ e ∈ t.owners :=
  ⟨by decide,
   match (createEntity_deferred_or_immediate sampleEnv scenarioRegistry seedWorld
      { templateId := TemplateId.Invalid, blueprint := { id := 0 }, immediate := true }
      (by decide)).2 rfl with
   | ⟨h1, h2⟩ =>
     match h2 0 { hash := additiveHash.hashOf [0], instanceTable := 0 }
       { properties := [0], columns := [[]], owners := [], numRows := 0 }
       (by decide) rfl rfl (by decide) (by decide) with
     | ⟨w2, e, hce⟩ => ⟨w2, e, hce, h1 w2 e hce⟩⟩

/-- C12, counterexample: `DeleteEntity` has no immediacy flag. On the scenario world,
deleting entity 0 leaves its row in the table (2 rows, entity 0 still the owner of row 0,
mapping unchanged) and puts one command on the deallocation queue, which was empty. -/
theorem deleteEntity_never_frees_row :
    scenarioWorld.deallocQueue = [] ∧
    (DeleteEntity scenarioWorld { index := 0, generation := 0 }).map
      (fun w2 => (w2.deallocQueue, (w2.db.GetTable 0).map (fun t => (t.numRows, t.owners)),
        w2.entityMap[0]?)) =
      some ([{ entity := { index := 0, generation := 0 } }],
        some (2, [{ index := 0, generation := 0 }, { index := 1, generation := 0 }]),
        some { category := 0, inst := some 0 }) := by
  refine ⟨rfl, by decide⟩

/-- C12, amended: `DeleteEntity` on an active entity always succeeds and defers: it
enqueues exactly one `DeallocateInstance` command carrying the entity, releases the
entity in the pool and decrements the entity count; no table, no mapping and no other
queue changes before it returns. -/
theorem deleteEntity_always_enqueues (w : World) (e : Entity)
    (hactive : IsActive w e = some true) :
    ∃ w2, DeleteEntity w e = some w2 ∧
      w2.deallocQueue = w.deallocQueue ++ [{ entity := e }] ∧
      w2.db = w.db ∧ w2.entityMap = w.entityMap ∧ w2.allocQueue = w.allocQueue ∧
      w2.categories = w.categories ∧
      w2.pool = w.pool.Deallocate e ∧
      w2.numEntities = (w.numEntities + 4294967295) % 4294967296 := by
  have hvalid : IsValid w e = true := by
    unfold IsActive at hactive
    by_contra hv
    simp [hv] at hactive
  refine ⟨{ w with
            pool := w.pool.Deallocate e
            deallocQueue := w.deallocQueue ++ [{ entity := e }]
            numEntities := (w.numEntities + 4294967295) % 4294967296 },
    ?_, rfl, rfl, rfl, rfl, rfl, rfl, rfl⟩
  simp only [DeleteEntity, hvalid, if_true, hactive]

/-- C12, amended, at a concrete input: entity 1 of the scenario world. -/
theorem deleteEntity_always_enqueues_witness :
    IsActive scenarioWorld { index := 1, generation := 0 } = some true ∧
    ∃ w2, DeleteEntity scenarioWorld { index := 1, generation := 0 } = some w2 ∧
      w2.deallocQueue = scenarioWorld.deallocQueue ++ [{ entity := { index := 1, generation := 0 } }] ∧
      w2.db = scenarioWorld.db :=
  ⟨by decide,
   (deleteEntity_always_enqueues scenarioWorld { index := 1, generation := 0 } (by decide)).imp
     (fun _ h => ⟨h.1, h.2.1, h.2.2.1⟩)⟩

/-- C14, counterexample: for the stale handle (index 0, generation 5) of the scenario
world, whose slot 0 has generation 0, `IsActive` fails its assertion; it does not return
false. -/
theorem isActive_asserts_on_stale_handle :
    IsValid scenarioWorld { index := 0, generation := 5 } = false ∧
    IsActive scenarioWorld { index := 0, generation := 5 } = none ∧
    IsActive scenarioWorld { index := 0, generation := 5 } ≠ some false := by
  refine ⟨by decide, by decide, by decide⟩

/-- C14, amended: `IsActive(e)` is true if and only if `e` is valid and its mapping holds
a row; for a valid handle with a mapping it returns whether the mapping holds a row; for
a handle that is not valid it fails its assertion and returns nothing. -/
theorem isActive_iff_valid_and_instantiated (w : World) (e : Entity) :
    (IsActive w e = some true ↔
      IsValid w e = true ∧ ∃ m row, w.entityMap[e.index]? = some m ∧ m.inst = some row) ∧
    (IsValid w e = true → ∀ m, w.entityMap[e.index]? = some m →
      IsActive w e = some (decide (m.inst ≠ none))) ∧
    (IsValid w e = false → IsActive w e = none) := by
  refine ⟨?_, ?_, ?_⟩
  · constructor
    · intro h
      unfold IsActive at h
      by_cases hv : IsValid w e = true
      · simp only [hv, if_true] at h
        cases hm : w.entityMap[e.index]? with
        | none => simp [hm] at h
        | some m =>
          simp only [hm, Option.some.injEq, decide_eq_true_eq] at h
          cases hi : m.inst with
          | none => exact absurd hi h
          | some row => exact ⟨hv, m, row, rfl, hi⟩
      · simp [hv] at h
    · rintro ⟨hv, m, row, hm, hi⟩
      simp [IsActive, hv, hm, hi]
  · intro hv m hm
    simp [IsActive, hv, hm]
  · intro hv
    simp [IsActive, hv]

/-- `DeleteEntity(e)` returns only for an active entity. It fails its assertion, before
any write, when `e` is not valid and when `e` is valid but its mapping holds the invalid
instance id; after a successful `DeleteEntity(e)` the handle is not valid any more, so
deleting it a second time fails; on an active entity it succeeds. -/
theorem deleteEntity_only_on_active (w : World) (e : Entity) :
    (∀ w2, DeleteEntity w e = some w2 → IsValid w e = true ∧ IsActive w e = some true) ∧
    (IsValid w e = false → DeleteEntity w e = none) ∧
    (∀ m, IsValid w e = true → w.entityMap[e.index]? = some m → m.inst = none →
      IsActive w e = some false ∧ DeleteEntity w e = none) ∧
    (∀ w2, DeleteEntity w e = some w2 → IsValid w2 e = false ∧ DeleteEntity w2 e = none) ∧
    (IsActive w e = some true → ∃ w2, DeleteEntity w e = some w2) := by
  have hsome : ∀ w2, DeleteEntity w e = some w2 →
      IsValid w e = true ∧ IsActive w e = some true ∧
      w2.pool = w.pool.Deallocate e := by
    intro w2 h
    unfold DeleteEntity at h
    by_cases hv : IsValid w e = true
    · simp only [hv, if_true] at h
      cases ha : IsActive w e with
      | none => simp [ha] at h
      | some b =>
        cases b with
        | false => simp [ha] at h
        | true =>
          simp only [ha, Option.some.injEq] at h
          exact ⟨hv, rfl, by rw [← h]⟩
    · simp [hv] at h
  refine ⟨fun w2 h => ⟨(hsome w2 h).1, (hsome w2 h).2.1⟩, ?_, ?_, ?_, ?_⟩
  · intro hv
    simp [DeleteEntity, hv]
  · intro m hv hm hi
    have ha : IsActive w e = some false := by simp [IsActive, hv, hm, hi]
    exact ⟨ha, by simp [DeleteEntity, hv, ha]⟩
  · intro w2 h
    obtain ⟨hv, _, hp⟩ := hsome w2 h
    have hinv : IsValid w2 e = false := by
      simp only [IsValid, EntityPool.IsValid] at hv ⊢
      have hg : w.pool.generations[e.index]? = some e.generation := by simpa using hv
      have hlt : e.index < w.pool.generations.length := (List.getElem?_eq_some.mp hg).1
      rw [hp]
      simp [EntityPool.Deallocate, List.getElem?_set, hlt, hg]
    exact ⟨hinv, by simp [DeleteEntity, hinv]⟩
  · intro ha
    have hvalid : IsValid w e = true := by
      unfold IsActive at ha
      by_contra hv
      simp [hv] at ha
    refine ⟨{ w with
              pool := w.pool.Deallocate e
              deallocQueue := w.deallocQueue ++ [{ entity := e }]
              numEntities := (w.numEntities + 4294967295) % 4294967296 }, ?_⟩
    simp only [DeleteEntity, hvalid, if_true, ha]

end Game

namespace Game

open MemDb

/-- `CreateEntity` changes the pool by exactly one `Allocate`, whose entity it returns. -/
theorem createEntity_pool (env : EntityEnv) (reg : TypeRegistry) (w w2 : World)
    (info : EntityCreateInfo) (e : Entity) (h : CreateEntity env reg w info = some (w2, e)) :
    w.pool.Allocate = some (w2.pool, e) := by
  unfold CreateEntity at h
  cases hA : w.pool.Allocate with
  | none => simp [hA] at h
  | some res =>
    obtain ⟨pool2, e0⟩ := res
    simp only [hA] at h
    obtain ⟨_, _, _, hpl, _, _, _⟩ := growEntityMap_frame env
      { w with pool := pool2, numEntities := (w.numEntities + 1) % 4294967296 } e0.index
    simp only at hpl
    by_cases himm : info.immediate = true
    · simp only [himm, Bool.not_true, Bool.false_eq_true, if_false] at h
      split at h
      · simp only [World.AllocateInstanceTemplate] at h
        split at h
        · next w3 hp =>
          simp only [Option.some.injEq, Prod.mk.injEq] at h
          obtain ⟨rfl, rfl⟩ := h
          rw [(placeInstance_placed reg _ _ _ _ hp).2.2.1, hpl]
        · cases h
      · simp only [World.AllocateInstanceBlueprint] at h
        split at h
        · next w3 hp =>
          simp only [Option.some.injEq, Prod.mk.injEq] at h
          obtain ⟨rfl, rfl⟩ := h
          rw [(placeInstance_placed reg _ _ _ _ hp).2.2.1, hpl]
        · cases h
    · have hf : info.immediate = false := by simpa using himm
      simp only [hf, Bool.not_false, if_true, Option.some.injEq, Prod.mk.injEq] at h
      obtain ⟨rfl, rfl⟩ := h
      show some (pool2, e0) = some ((growEntityMap env _ e0.index).pool, e0)
      rw [hpl]

/-- Once slot `index` has generation `g`, a run of `CreateEntity` calls keeps it so; the
last entity the run returns is valid afterwards, and has generation `g` if its index is
`index`. -/
theorem createEntities_generation (env : EntityEnv) (reg : TypeRegistry) (index g : Nat)
    (infos : List EntityCreateInfo) (w wn : World) (es : List Entity)
    (hinv : w.pool.generations[index]? = some g)
    (hrun : CreateEntities env reg w infos = some (wn, es)) :
    wn.pool.generations[index]? = some g ∧
    ∀ e2, es.getLast? = some e2 →
      IsValid wn e2 = true ∧ (e2.index = index → e2.generation = g) := by
  induction infos generalizing w es with
  | nil =>
    simp only [CreateEntities, Option.some.injEq, Prod.mk.injEq] at hrun
    obtain ⟨rfl, rfl⟩ := hrun
    exact ⟨hinv, fun e2 h => by simp at h⟩
  | cons info infos ih =>
    simp only [CreateEntities] at hrun
    cases hc : CreateEntity env reg w info with
    | none => simp [hc] at hrun
    | some res =>
      obtain ⟨w1, e1⟩ := res
      simp only [hc] at hrun
      cases hr : CreateEntities env reg w1 infos with
      | none => simp [hr] at hrun
      | some res2 =>
        obtain ⟨w2, es2⟩ := res2
        simp only [hr, Option.some.injEq, Prod.mk.injEq] at hrun
        obtain ⟨rfl, rfl⟩ := hrun
        obtain ⟨hgen, _, hkeep, hold⟩ := pool_allocate_spec _ _ _ (createEntity_pool env reg w w1 info e1 hc)
        have hinv1 := hkeep index g hinv
        obtain ⟨hinvn, hlast⟩ := ih w1 es2 hinv1 hr
        refine ⟨hinvn, fun e2 he2 => ?_⟩
        cases es2 with
        | nil =>
          have hnil : infos = [] := by
            cases infos with
            | nil => rfl
            | cons i is =>
              simp only [CreateEntities] at hr
              cases hc2 : CreateEntity env reg w1 i with
              | none => simp [hc2] at hr
              | some r =>
                simp only [hc2] at hr
                cases hr2 : CreateEntities env reg r.1 is with
                | none => simp [hr2] at hr
                | some r2 => simp [hr2] at hr
          subst hnil
          simp only [CreateEntities, Option.some.injEq, Prod.mk.injEq, and_true] at hr
          subst hr
          simp only [List.getLast?_singleton, Option.some.injEq] at he2
          subst he2
          refine ⟨by simp [IsValid, EntityPool.IsValid, hgen], fun hidx => ?_⟩
          rw [hidx, hinv1] at hgen
          exact (Option.some.inj hgen).symm
        | cons e3 es3 =>
          apply hlast
          rw [List.getLast?_cons_cons] at he2
          exact he2

/-- C13: `DeleteEntity(e)` on an active entity succeeds; after it and any run of
`CreateEntity` calls whose last call returns an entity `e2` with `e2.index = e.index`,
the generation of `e2` differs from that of `e`, `IsValid(e)` is false and `IsValid(e2)`
is true. -/
theorem recycled_index_gets_new_generation (env : EntityEnv) (reg : TypeRegistry) (w : World)
    (e : Entity) (hactive : IsActive w e = some true) :
    ∃ w1, DeleteEntity w e = some w1 ∧
      ∀ infos wn es e2, CreateEntities env reg w1 infos = some (wn, es) →
        es.getLast? = some e2 → e2.index = e.index →
        e2.generation ≠ e.generation ∧ IsValid wn e = false ∧ IsValid wn e2 = true := by
  obtain ⟨w1, hdel, _, _, _, _, _, hpool, _⟩ := deleteEntity_always_enqueues w e hactive
  have hvalid : IsValid w e = true := by
    unfold IsActive at hactive
    by_contra hv
    simp [hv] at hactive
  have hg : w.pool.generations[e.index]? = some e.generation := by
    simpa [IsValid, EntityPool.IsValid] using hvalid
  have hlt : e.index < w.pool.generations.length := (List.getElem?_eq_some.mp hg).1
  have hinv : w1.pool.generations[e.index]? = some (e.generation + 1) := by
    rw [hpool]
    simp [EntityPool.Deallocate, List.getElem?_set, hlt, hg]
  refine ⟨w1, hdel, fun infos wn es e2 hrun hlast hidx => ?_⟩
  obtain ⟨hinvn, hl⟩ := createEntities_generation env reg e.index (e.generation + 1) infos w1 wn es
    hinv hrun
  obtain ⟨hv2, hgen2⟩ := hl e2 hlast
  have hgen := hgen2 hidx
  refine ⟨by omega, ?_, hv2⟩
  simp [IsValid, EntityPool.IsValid, hinvn]

end Game

namespace Game

open MemDb

/-- C13 at a concrete input: entity 0 of the scenario world is deleted and one deferred
`CreateEntity` follows, which returns index 0 at generation 1. -/
theorem recycled_index_gets_new_generation_witness :
    IsActive scenarioWorld { index := 0, generation := 0 } = some true ∧
    (DeleteEntity scenarioWorld { index := 0, generation := 0 }).bind
      (fun w1 => (CreateEntities sampleEnv scenarioRegistry w1
        [{ templateId := TemplateId.Invalid, blueprint := { id := 0 }, immediate := false }]).map
        (fun r => r.2)) = some [{ index := 0, generation := 1 }] ∧
    ∃ w1, DeleteEntity scenarioWorld { index := 0, generation := 0 } = some w1 ∧
      ∀ infos wn es e2, CreateEntities sampleEnv scenarioRegistry w1 infos = some (wn, es) →
        es.getLast? = some e2 → e2.index = 0 →
        e2.generation ≠ 0 ∧ IsValid wn { index := 0, generation := 0 } = false ∧
        IsValid wn e2 = true :=
  ⟨by decide, by decide,
   recycled_index_gets_new_generation sampleEnv scenarioRegistry scenarioWorld
     { index := 0, generation := 0 } (by decide)⟩

/-- C15, the code at a failing input: in `recycleRun` the entity returned by the deferred
`CreateEntity` has the recycled index 0 at generation 1. Its `AllocateInstance` command is
still queued, it is valid, and `IsActive` is true: slot 0 of the entity map still holds
row 0 of the deleted entity. `DeleteEntity` passes its assertions on it. -/
theorem deferred_entity_on_recycled_index_is_active :
    recycleRun.map (fun r => r.2) = some { index := 0, generation := 1 } ∧
    recycleRun.map (fun r => r.1.allocQueue) =
      some [{ entity := { index := 0, generation := 1 },
              tid := { blueprintId := 0, templateId := InvalidId16 } }] ∧
    recycleRun.map (fun r => IsValid r.1 r.2) = some true ∧
    recycleRun.map (fun r => IsActive r.1 r.2) = some (some true) ∧
    recycleRun.map (fun r => r.1.entityMap[r.2.index]?) =
      some (some { category := 0, inst := some 0 }) ∧
    recycleRun.map (fun r => (DeleteEntity r.1 r.2).isSome) = some true := by
  refine ⟨by decide, by decide, by decide, by decide, by decide, by decide⟩

end Game

namespace Game

open MemDb

/-- C17: for a buffer holding the queues `q0` and `q1`, `Dispatch` with recording
`Execute` functions returns, and the record holds every op of `q0` and of `q1` exactly
once. Whenever `Dispatch` returns, with any `Execute` functions and so on the world, the
state is the one reached by executing exactly these ops, both queues of the buffer are
empty, the buffer's id is on the free list of the op-buffer allocator, and the caller's
handle is the invalid index. -/
theorem dispatch_drains_and_releases_buffer (a : OpBufferAllocator) (buffer : OpBuffer)
    (q0 : RegPidQueue) (q1 : DeregPidQueue) (hq : a.Get buffer = some (q0, q1)) :
    DispatchWith (logOp Sum.inl) (logOp Sum.inr) a buffer [] =
      some (q0.map Sum.inl ++ q1.map Sum.inr, (a.Set buffer ([], [])).Dealloc buffer, none) ∧
    ((a.Set buffer ([], [])).Dealloc buffer).Get buffer = some ([], []) ∧
    ((a.Set buffer ([], [])).Dealloc buffer).freeIds = a.freeIds ++ [buffer] ∧
    (∀ (σ : Type) (er : Op.RegisterProperty → σ → Option σ)
        (ed : Op.DeregisterProperty → σ → Option σ) (s : σ)
        (r : σ × OpBufferAllocator × Option OpBuffer),
      DispatchWith er ed a buffer s = some r →
        drain (executeOp er ed) (q0.map Sum.inl ++ q1.map Sum.inr) s = some r.1 ∧
        r.2.1 = (a.Set buffer ([], [])).Dealloc buffer ∧ r.2.2 = none) ∧
    (∀ (H : HashScheme) (reg : TypeRegistry) (w : World)
        (r : World × OpBufferAllocator × Option OpBuffer),
      Dispatch H reg a buffer w = some r →
        drain (executeOp (ExecuteRegisterProperty H reg) (ExecuteDeregisterProperty H reg))
          (q0.map Sum.inl ++ q1.map Sum.inr) w = some r.1 ∧
        r.2.1.Get buffer = some ([], []) ∧ buffer ∈ r.2.1.freeIds ∧ r.2.2 = none) := by
  have hgen : ∀ (σ : Type) (er : Op.RegisterProperty → σ → Option σ)
      (ed : Op.DeregisterProperty → σ → Option σ) (s : σ)
      (r : σ × OpBufferAllocator × Option OpBuffer),
      DispatchWith er ed a buffer s = some r →
        drain (executeOp er ed) (q0.map Sum.inl ++ q1.map Sum.inr) s = some r.1 ∧
        r.2.1 = (a.Set buffer ([], [])).Dealloc buffer ∧ r.2.2 = none := by
    intro σ er ed s r h
    rw [drain_append, drain_map_inl]
    simp only [DispatchWith, hq] at h
    cases h1 : drain er q0 s with
    | none => simp [h1] at h
    | some s1 =>
      simp only [h1] at h ⊢
      rw [drain_map_inr]
      cases h2 : drain ed q1 s1 with
      | none => simp [h2] at h
      | some s2 =>
        simp only [h2, Option.some.injEq] at h
        subst h
        exact ⟨rfl, rfl, rfl⟩
  have hget : ((a.Set buffer ([], [])).Dealloc buffer).Get buffer = some ([], []) :=
    idAllocator_get_set a buffer (q0, q1) ([], []) hq
  refine ⟨?_, hget, rfl, hgen, ?_⟩
  · have hlog : executeOp (logOp (Sum.inl : Op.RegisterProperty → ExecutedOp))
        (logOp (Sum.inr : Op.DeregisterProperty → ExecutedOp)) = logOp id := by
      funext op log
      cases op <;> rfl
    have hr : ∀ (q : RegPidQueue) (log : List ExecutedOp),
        drain (logOp Sum.inl) q log = some (log ++ q.map Sum.inl) := by
      intro q log
      rw [← drain_map_inl (logOp Sum.inl) (logOp Sum.inr), hlog, drain_logOp]
    have hd : ∀ (q : DeregPidQueue) (log : List ExecutedOp),
        drain (logOp Sum.inr) q log = some (log ++ q.map Sum.inr) := by
      intro q log
      rw [← drain_map_inr (logOp Sum.inl) (logOp Sum.inr), hlog, drain_logOp]
    simp only [DispatchWith, hq, hr, hd, List.nil_append]
  · intro H reg w r h
    obtain ⟨h1, h2, h3⟩ := hgen _ _ _ w r h
    refine ⟨h1, by rw [h2]; exact hget, ?_, h3⟩
    rw [h2]
    simp [Ids.IdAllocator.Dealloc, Ids.IdAllocator.Set]

/-- C17 at a concrete input: buffer 0 holds one add op and one remove op. -/
theorem dispatch_drains_and_releases_buffer_witness :
    Ids.IdAllocator.Get
      ({ entries := [([{ entity := { index := 0, generation := 0 }, pid := 1, value := none }],
                      [{ entity := { index := 1, generation := 0 }, pid := 0 }])],
         freeIds := [] } : OpBufferAllocator) 0 =
      some ([{ entity := { index := 0, generation := 0 }, pid := 1, value := none }],
            [{ entity := { index := 1, generation := 0 }, pid := 0 }]) ∧
    DispatchWith (logOp Sum.inl) (logOp Sum.inr)
      ({ entries := [([{ entity := { index := 0, generation := 0 }, pid := 1, value := none }],
                      [{ entity := { index := 1, generation := 0 }, pid := 0 }])],
         freeIds := [] } : OpBufferAllocator) 0 [] =
      some ([.inl { entity := { index := 0, generation := 0 }, pid := 1, value := none },
             .inr { entity := { index := 1, generation := 0 }, pid := 0 }],
            { entries := [([], [])], freeIds := [0] }, none) :=
  ⟨rfl,
   (dispatch_drains_and_releases_buffer
      ({ entries := [([{ entity := { index := 0, generation := 0 }, pid := 1, value := none }],
                      [{ entity := { index := 1, generation := 0 }, pid := 0 }])],
         freeIds := [] } : OpBufferAllocator) 0
      [{ entity := { index := 0, generation := 0 }, pid := 1, value := none }]
      [{ entity := { index := 1, generation := 0 }, pid := 0 }] rfl).1⟩

end Game

namespace Game

open MemDb

/-- C18: for an add-component op with a null value `AddOp` allocates nothing and
enqueues the op unchanged. For an op whose value points to a caller block holding at
least `s = TypeSize` bytes, `AddOp` succeeds; the enqueued op points to a block that did
not exist before, different from the caller's, holding a copy of the first `s` bytes the
caller supplied; no other block is changed; what `Execute` reads through the enqueued op
is the op `AddOp` stores in the value model; and in every later memory that still has
the arena block, whatever happened to the caller's block, `Execute` reads the same op
and so does the same. -/
theorem addOp_copies_value_to_arena (reg : TypeRegistry) (heap : Heap)
    (op : Op.RegisterPropertyPtr) :
    (op.value = none → AddOpRegisterPropertyPtr reg heap op = some (heap, op)) ∧
    (∀ source bytes, op.value = some source → heap[source]? = some (some bytes) →
      reg.TypeSize op.pid ≤ bytes.length →
      ∃ heap1 target,
        AddOpRegisterPropertyPtr reg heap op = some (heap1, { op with value := some target }) ∧
        heap[target]? = none ∧ target ≠ source ∧
        heap1[target]? = some (some (bytes.take (reg.TypeSize op.pid))) ∧
        (∀ address, address ≠ target → heap1[address]? = heap[address]?) ∧
        loadOp heap1 { op with value := some target } = (loadOp heap op).map (storedOp reg) ∧
        ∀ heap2 : Heap, heap2[target]? = heap1[target]? →
          loadOp heap2 { op with value := some target } =
            loadOp heap1 { op with value := some target } ∧
          ∀ (H : HashScheme) (w : World),
            (loadOp heap2 { op with value := some target }).bind
                (fun o => ExecuteRegisterProperty H reg o w) =
              (loadOp heap1 { op with value := some target }).bind
                (fun o => ExecuteRegisterProperty H reg o w)) := by
  constructor
  · intro hnull
    simp [AddOpRegisterPropertyPtr, hnull]
  · intro source bytes hv hb hlen
    have hslt : source < heap.length := (List.getElem?_eq_some.mp hb).1
    have hcopy : Memory.Copy bytes (List.replicate (reg.TypeSize op.pid) 0) (reg.TypeSize op.pid) =
        bytes.take (reg.TypeSize op.pid) := by
      simp [Memory.Copy]
    have htarget : ((heap ++ [some (List.replicate (reg.TypeSize op.pid) 0)]).set heap.length
        (some (bytes.take (reg.TypeSize op.pid))))[heap.length]? =
        some (some (bytes.take (reg.TypeSize op.pid))) := by
      simp [List.getElem?_set]
    have hload1 : loadOp ((heap ++ [some (List.replicate (reg.TypeSize op.pid) 0)]).set heap.length
        (some (bytes.take (reg.TypeSize op.pid)))) { op with value := some heap.length } =
        some { entity := op.entity, pid := op.pid,
               value := some (bytes.take (reg.TypeSize op.pid)) } := by
      simp only [loadOp, htarget]
    refine ⟨(heap ++ [some (List.replicate (reg.TypeSize op.pid) 0)]).set heap.length
      (some (bytes.take (reg.TypeSize op.pid))), heap.length, ?_, ?_, ?_, htarget, ?_, ?_, ?_⟩
    · simp only [AddOpRegisterPropertyPtr, hv, hb, arenaAlloc, List.getElem?_concat_length, hcopy]
    · exact List.getElem?_eq_none (le_refl _)
    · omega
    · intro address hne
      rw [List.getElem?_set, if_neg (fun h => hne h.symm), List.getElem?_append]
      split
      · rfl
      · next hge =>
        have hgt : heap.length < address := by omega
        have h1 : heap[address]? = none := List.getElem?_eq_none (by omega)
        have h2 : [some (List.replicate (reg.TypeSize op.pid) 0)][address - heap.length]? = none :=
          List.getElem?_eq_none (by simp; omega)
        rw [h1, h2]
    · rw [hload1]
      simp only [loadOp, hv, hb, Option.map_some', storedOp]
      simp [Memory.Copy]
    · intro heap2 h2
      have heq : loadOp heap2 { op with value := some heap.length } =
          loadOp ((heap ++ [some (List.replicate (reg.TypeSize op.pid) 0)]).set heap.length
            (some (bytes.take (reg.TypeSize op.pid)))) { op with value := some heap.length } := by
        simp only [loadOp, h2]
      exact ⟨heq, fun H w => by rw [heq]⟩

end Game

namespace Game

open MemDb

/-- `Execute(Op::RegisterProperty)` once the target category is resolved: when the target
has a row-parallel table other than the entity's, with a column for the property if the
op carries a value, the op succeeds and the entity is mapped to the new last row of
that table. -/
theorem executeRegister_at_target (H : HashScheme) (reg : TypeRegistry) (w w1 : World)
    (op : Op.RegisterProperty) (k k2 : CategoryId) (row : Nat) (cat newCat : Category)
    (src dst0 : Table)
    (hm : GetEntityMapping w op.entity = some { category := k, inst := some row })
    (hcat : w.GetCategory k = some cat)
    (hfound : (match w.catIndexMap.lookup (H.AddToHash cat.hash op.pid) with
      | some cid => some (w, cid)
      | none =>
        match w.db.GetTable cat.instanceTable with
        | some tbl => some (w.CreateCategory H { properties := tbl.properties ++ [op.pid] })
        | none => none) = some (w1, k2))
    (hm1 : GetEntityMapping w1 op.entity = some { category := k, inst := some row })
    (hcat1 : w1.GetCategory k = some cat)
    (hsrc1 : w1.db.GetTable cat.instanceTable = some src)
    (hk2 : w1.GetCategory k2 = some newCat)
    (hdst0 : w1.db.GetTable newCat.instanceTable = some dst0)
    (hne : cat.instanceTable ≠ newCat.instanceTable) (hrow : row < src.numRows)
    (hlen0 : dst0.columns.length = dst0.properties.length)
    (hrows0 : ∀ buffer ∈ dst0.columns, buffer.length = dst0.numRows)
    (hval : op.value ≠ none → op.pid ∈ dst0.properties) :
    ∃ w2 t2, ExecuteRegisterProperty H reg op w = some w2 ∧
      GetEntityMapping w2 op.entity = some { category := k2, inst := some dst0.numRows } ∧
      w2.categories = w1.categories ∧ w2.catIndexMap = w1.catIndexMap ∧
      w2.db.tables.length = w1.db.tables.length ∧
      w2.db.GetTable newCat.instanceTable = some t2 ∧
      t2.properties = dst0.properties ∧ t2.numRows = dst0.numRows + 1 := by
  obtain ⟨w2, hmig, hcats2, hmap2c, _, hlen2, hnew2, _, _, hmap2⟩ :=
    migrate_spec reg w1 op.entity k2 { category := k, inst := some row } row cat newCat src dst0
      hm1 rfl hcat1 hk2 hsrc1 hdst0 hne hrow
  have hk2' : w2.GetCategory k2 = some newCat := by
    simpa [World.GetCategory, hcats2] using hk2
  have hexec : ExecuteRegisterProperty H reg op w =
      match op.value with
      | none => some w2
      | some value =>
        match w2.GetCategory k2 with
        | none => none
        | some newCat =>
          match w2.db.GetColumnId newCat.instanceTable op.pid with
          | none => none
          | some cid =>
            match w2.db.WriteValue newCat.instanceTable cid dst0.numRows value
                (reg.TypeSize op.pid) with
            | some db => some { w2 with db := db }
            | none => none := by
    unfold ExecuteRegisterProperty
    simp only [hm, hcat, hfound, hmig]
  rw [hexec]
  cases hv : op.value with
  | none => exact ⟨w2, _, rfl, hmap2, hcats2, hmap2c, hlen2, hnew2, rfl, rfl⟩
  | some v =>
    have hmem : op.pid ∈ dst0.properties := hval (by simp [hv])
    obtain ⟨cid, hcid⟩ := Option.isSome_iff_exists.mp
      ((table_getColumnId_isSome (src.CopyShared row (dst0.AllocateRow reg op.entity).1 dst0.numRows)
        op.pid).mpr hmem)
    have hcidp : dst0.properties[cid]? = some op.pid := table_getColumnId_some _ _ _ hcid
    have hcell := getValue_copyShared_allocateRow reg src dst0 op.entity row cid op.pid
      hlen0 hrows0 hcidp
    obtain ⟨db3, dst2, hwrite, hget3, hprops3, hrows3, _, _, _, _⟩ :=
      writeValue_spec w2.db newCat.instanceTable cid dst0.numRows v (reg.TypeSize op.pid) _ _
        hnew2 hcell
    have hgc : w2.db.GetColumnId newCat.instanceTable op.pid = some cid := by
      simp only [Database.GetColumnId, hnew2]
      exact hcid
    have hlen3 : db3.tables.length = w2.db.tables.length := by
      simp only [Database.WriteValue, hnew2] at hwrite
      split at hwrite
      · split at hwrite
        · cases hwrite
          simp [Database.SetTable]
        · cases hwrite
      · cases hwrite
    refine ⟨{ w2 with db := db3 }, dst2, ?_, ?_, hcats2, hmap2c, by rw [← hlen2]; exact hlen3,
      hget3, hprops3, hrows3⟩
    · simp only [hk2', hgc, hwrite]
    · exact (getEntityMapping_congr w2 { w2 with db := db3 } op.entity rfl rfl).trans hmap2

end Game

namespace Game

open MemDb

/-- Whenever `Migrate` returns, the entity is mapped to the target category at the
returned row, and categories, hash map and pool are as before. -/
theorem migrate_some (reg : TypeRegistry) (w w2 : World) (e : Entity) (newCategory : CategoryId)
    (r : InstanceId) (h : w.Migrate reg e newCategory = some (w2, r)) :
    GetEntityMapping w2 e = some { category := newCategory, inst := some r } ∧
    w2.categories = w.categories ∧ w2.catIndexMap = w.catIndexMap ∧ w2.pool = w.pool := by
  unfold World.Migrate at h
  cases hm : GetEntityMapping w e with
  | none => simp [hm] at h
  | some mapping =>
    obtain ⟨hv, hem, _⟩ := getEntityMapping_some w e mapping hm
    have helt : e.index < w.entityMap.length := (List.getElem?_eq_some.mp hem).1
    simp only [hm] at h
    split at h
    · split at h
      · split at h
        · cases h
        · split at h
          · cases h
          · next src2 moved _ =>
            simp only [Option.some.injEq, Prod.mk.injEq] at h
            obtain ⟨rfl, rfl⟩ := h
            refine ⟨?_, rfl, rfl, rfl⟩
            apply getEntityMapping_of
            · exact hv
            · show (List.set _ e.index _)[e.index]? = _
              rw [List.getElem?_set]
              simp only [if_true]
              rw [if_pos]
              split <;> simpa using helt
            · simp
      · cases h
    · cases h

/-- Whenever `Execute(Op::RegisterProperty)` returns and the hash-to-category map has an
entry for the new hash, the entity is mapped to the category of that entry and no
category has been created. -/
theorem executeRegister_some_found (H : HashScheme) (reg : TypeRegistry) (w w2 : World)
    (op : Op.RegisterProperty) (mapping : EntityMapping) (cat : Category) (cid : CategoryId)
    (hm : GetEntityMapping w op.entity = some mapping)
    (hcat : w.GetCategory mapping.category = some cat)
    (hfound : w.catIndexMap.lookup (H.AddToHash cat.hash op.pid) = some cid)
    (h : ExecuteRegisterProperty H reg op w = some w2) :
    (∃ r, GetEntityMapping w2 op.entity = some { category := cid, inst := some r }) ∧
    w2.categories = w.categories ∧ w2.catIndexMap = w.catIndexMap := by
  unfold ExecuteRegisterProperty at h
  simp only [hm, hcat, hfound] at h
  cases hmig : w.Migrate reg op.entity cid with
  | none => simp [hmig] at h
  | some res =>
    obtain ⟨w3, r⟩ := res
    obtain ⟨hmap, hcats, hidx, _⟩ := migrate_some reg w w3 op.entity cid r hmig
    simp only [hmig] at h
    cases hv : op.value with
    | none =>
      simp only [hv, Option.some.injEq] at h
      subst h
      exact ⟨⟨r, hmap⟩, hcats, hidx⟩
    | some v =>
      simp only [hv] at h
      split at h
      · cases h
      · split at h
        · cases h
        · split at h
          · next db _ =>
            simp only [Option.some.injEq] at h
            subst h
            exact ⟨⟨r, (getEntityMapping_congr w3 { w3 with db := db } op.entity rfl rfl).trans
              hmap⟩, hcats, hidx⟩
          · cases h

end Game

namespace Game

open MemDb

theorem hashOf_append_singleton (H : HashScheme) (ids : List PropertyId) (p : PropertyId) :
    H.hashOf (ids ++ [p]) = H.AddToHash (H.hashOf ids) p := by
  simp [HashScheme.hashOf, List.foldl_append]

/-- C19: for an active entity `e` at a row of the table `src` of its category `cat`,
whose hash is the hash of the schema of `src`, and every component id `p`. When the
hash-to-category map has an entry for `AddToHash(h, p)`, every returning `Execute` of the
add op leaves `e` mapped to the category of that entry and creates no category, and
`Execute` returns when that category has a row-parallel table other than `src` (with a
column `p` if the op carries a value). When the map has no entry, `Execute` returns,
having created one category, registered under `AddToHash(h, p)`, whose new table has
exactly the schema of `src` followed by `p` (n + 1 entries), and `e` is mapped to its
only row. -/
theorem execute_add_targets_found_or_creates (H : HashScheme) (reg : TypeRegistry) (w : World)
    (op : Op.RegisterProperty) (k : CategoryId) (row : Nat) (cat : Category) (src : Table)
    (hm : GetEntityMapping w op.entity = some { category := k, inst := some row })
    (hcat : w.GetCategory k = some cat)
    (hsrc : w.db.GetTable cat.instanceTable = some src)
    (hrow : row < src.numRows) (hhash : cat.hash = H.hashOf src.properties) :
    (∀ cid w2, w.catIndexMap.lookup (H.AddToHash cat.hash op.pid) = some cid →
      ExecuteRegisterProperty H reg op w = some w2 →
      (∃ r, GetEntityMapping w2 op.entity = some { category := cid, inst := some r }) ∧
      w2.categories = w.categories ∧ w2.catIndexMap = w.catIndexMap) ∧
    (∀ cid newCat dst, w.catIndexMap.lookup (H.AddToHash cat.hash op.pid) = some cid →
      w.GetCategory cid = some newCat → w.db.GetTable newCat.instanceTable = some dst →
      cat.instanceTable ≠ newCat.instanceTable →
      dst.columns.length = dst.properties.length →
      (∀ buffer ∈ dst.columns, buffer.length = dst.numRows) →
      (op.value ≠ none → op.pid ∈ dst.properties) →
      ∃ w2, ExecuteRegisterProperty H reg op w = some w2 ∧
        GetEntityMapping w2 op.entity = some { category := cid, inst := some dst.numRows }) ∧
    (w.catIndexMap.lookup (H.AddToHash cat.hash op.pid) = none →
      ∃ w2 t, ExecuteRegisterProperty H reg op w = some w2 ∧
        w2.categories = w.categories ++
          [{ hash := H.AddToHash cat.hash op.pid, instanceTable := w.db.tables.length }] ∧
        w2.catIndexMap = (H.AddToHash cat.hash op.pid, w.categories.length) :: w.catIndexMap ∧
        w2.db.tables.length = w.db.tables.length + 1 ∧
        w2.db.GetTable w.db.tables.length = some t ∧
        t.properties = src.properties ++ [op.pid] ∧
        t.properties.length = src.properties.length + 1 ∧ t.numRows = 1 ∧
        GetEntityMapping w2 op.entity =
          some { category := w.categories.length, inst := some 0 }) := by
  refine ⟨fun cid w2 hlook hex => ?_, fun cid newCat dst hlook hk2 hdst hne hlen hrows hval => ?_,
    fun hlook => ?_⟩
  · exact executeRegister_some_found H reg w w2 op _ cat cid hm hcat hlook hex
  · obtain ⟨w2, _, hex, hmap, _⟩ := executeRegister_at_target H reg w w op k cid row cat newCat
      src dst hm hcat (by rw [hlook]) hm hcat hsrc hk2 hdst hne hrow hlen hrows hval
    exact ⟨w2, hex, hmap⟩
  · have hnew : H.hashOf (src.properties ++ [op.pid]) = H.AddToHash cat.hash op.pid := by
      rw [hashOf_append_singleton, hhash]
    obtain ⟨w1, hw1⟩ : ∃ w1 : World, w1 =
        { w with
          db := { tables := w.db.tables ++
            [{ properties := src.properties ++ [op.pid]
               columns := (src.properties ++ [op.pid]).map (fun _ => [])
               owners := [], numRows := 0 }] }
          categories := w.categories ++
            [{ hash := H.AddToHash cat.hash op.pid, instanceTable := w.db.tables.length }]
          catIndexMap := (H.AddToHash cat.hash op.pid, w.categories.length) :: w.catIndexMap } :=
      ⟨_, rfl⟩
    have hcreate : w.CreateCategory H { properties := src.properties ++ [op.pid] } =
        (w1, w.categories.length) := by
      rw [hw1]
      simp only [World.CreateCategory, hnew, hlook, Database.CreateTable]
    have hlt := db_getTable_lt _ _ _ hsrc
    have hm1 : GetEntityMapping w1 op.entity = some { category := k, inst := some row } := by
      rw [getEntityMapping_congr w w1 op.entity (by rw [hw1]) (by rw [hw1])]
      exact hm
    have hcat1 : w1.GetCategory k = some cat := by
      rw [hw1]
      simp only [World.GetCategory] at hcat ⊢
      rw [List.getElem?_append_left (List.getElem?_eq_some.mp hcat).1]
      exact hcat
    have hsrc1 : w1.db.GetTable cat.instanceTable = some src := by
      rw [hw1]
      simp only [Database.GetTable] at hsrc ⊢
      rw [List.getElem?_append_left hlt]
      exact hsrc
    have hk2 : w1.GetCategory w.categories.length = some
        { hash := H.AddToHash cat.hash op.pid, instanceTable := w.db.tables.length } := by
      rw [hw1]
      simp [World.GetCategory]
    have hdst0 : w1.db.GetTable w.db.tables.length = some
        { properties := src.properties ++ [op.pid]
          columns := (src.properties ++ [op.pid]).map (fun _ => [])
          owners := [], numRows := 0 } := by
      rw [hw1]
      simp [Database.GetTable]
    obtain ⟨w2, t2, hex, hmap, hcats, hidx, hlen2, ht2, hprops2, hrows2⟩ :=
      executeRegister_at_target H reg w w1 op k w.categories.length row cat
        { hash := H.AddToHash cat.hash op.pid, instanceTable := w.db.tables.length } src
        { properties := src.properties ++ [op.pid]
          columns := (src.properties ++ [op.pid]).map (fun _ => [])
          owners := [], numRows := 0 }
        hm hcat (by simp only [hlook, hsrc]; rw [hcreate]) hm1 hcat1 hsrc1 hk2 hdst0
        (by
          show cat.instanceTable ≠ w.db.tables.length
          exact Nat.ne_of_lt hlt)
        hrow (by simp)
        (by
          intro buffer hb
          simp only [List.mem_map] at hb
          obtain ⟨_, _, rfl⟩ := hb
          rfl)
        (fun _ => by simp)
    rw [hw1] at hcats hidx hlen2
    refine ⟨w2, t2, hex, hcats, hidx, ?_, ht2, hprops2, ?_, hrows2, hmap⟩
    · rw [hlen2]
      simp
    · rw [hprops2]
      simp

/-- C19 at a concrete input: `Health` is added, without a value, to entity 0 of the
scenario world, whose map has no entry for {Position, Health}. -/
theorem execute_add_targets_found_or_creates_witness :
    GetEntityMapping scenarioWorld { index := 0, generation := 0 } =
      some { category := 0, inst := some 0 } ∧
    scenarioWorld.catIndexMap.lookup (additiveHash.AddToHash (additiveHash.hashOf [0]) 1) = none ∧
    ∃ w2 t,
      ExecuteRegisterProperty additiveHash scenarioRegistry
        { entity := { index := 0, generation := 0 }, pid := 1, value := none } scenarioWorld
        = some w2 ∧
      w2.categories = scenarioWorld.categories ++
        [{ hash := additiveHash.AddToHash (additiveHash.hashOf [0]) 1, instanceTable := 1 }] ∧
      w2.db.GetTable 1 = some t ∧ t.properties = [0] ++ [1] ∧
      GetEntityMapping w2 { index := 0, generation := 0 } = some { category := 1, inst := some 0 } :=
  ⟨by decide, by decide,
   ((execute_add_targets_found_or_creates additiveHash scenarioRegistry scenarioWorld
      { entity := { index := 0, generation := 0 }, pid := 1, value := none } 0 0
      { hash := additiveHash.hashOf [0], instanceTable := 0 }
      { properties := [0]
        columns := [[[1, 0, 0, 0, 2, 0, 0, 0, 3, 0, 0, 0], [4, 0, 0, 0, 5, 0, 0, 0, 6, 0, 0, 0]]]
        owners := [{ index := 0, generation := 0 }, { index := 1, generation := 0 }]
        numRows := 2 }
      (by decide) rfl rfl (by decide) rfl).2.2 (by decide)).imp
     (fun _ h => h.imp (fun _ h => ⟨h.1, h.2.1, h.2.2.2.2.1, h.2.2.2.2.2.1,
       h.2.2.2.2.2.2.2.2⟩))⟩

end Game

namespace Game

open MemDb

/-- The fill loop of the remove path fails, on a write outside the array, when there are
more columns other than `pid` than the array has room for. -/
theorem copyWithout_overflow (pid x : PropertyId) (cols pre : List PropertyId) (n : Nat)
    (hn : n < (cols.filter (fun c => decide (c ≠ pid))).length) :
    copyWithout pid cols (pre ++ List.replicate n x) pre.length = none := by
  induction cols generalizing pre n with
  | nil => simp at hn
  | cons c cols ih =>
    by_cases hc : c = pid
    · have hf : (c :: cols).filter (fun c => decide (c ≠ pid)) =
          cols.filter (fun c => decide (c ≠ pid)) := by simp [List.filter_cons, hc]
      rw [hf] at hn
      simp only [copyWithout, hc, if_true]
      exact ih pre n hn
    · have hf : (c :: cols).filter (fun c => decide (c ≠ pid)) =
          c :: cols.filter (fun c => decide (c ≠ pid)) := by simp [List.filter_cons, hc]
      rw [hf] at hn
      simp only [List.length_cons] at hn
      cases n with
      | zero => simp [copyWithout, hc]
      | succ m =>
        have hset : (pre ++ List.replicate (m + 1) x).set pre.length c =
            (pre ++ [c]) ++ List.replicate m x := by
          rw [List.replicate_succ, List.set_append_right _ _ (le_refl _)]
          simp
        have hlt : pre.length < (pre ++ List.replicate (m + 1) x).length := by simp
        simp only [copyWithout, hc, if_false, hlt, if_true, hset]
        have := ih (pre ++ [c]) m (by omega)
        simp only [List.length_append, List.length_singleton] at this
        exact this

theorem filter_ne_eq_erase_of_count (pid : PropertyId) (cols : List PropertyId)
    (h : cols.count pid = 1) :
    cols.filter (fun c => decide (c ≠ pid)) = cols.erase pid := by
  induction cols with
  | nil => simp at h
  | cons c cols ih =>
    by_cases hc : c = pid
    · subst hc
      have h0 : cols.count c = 0 := by simpa using h
      have hnot : c ∉ cols := List.count_eq_zero.mp h0
      simp only [List.filter_cons, ne_eq, not_true_eq_false, decide_False, Bool.false_eq_true,
        if_false, List.erase_cons_head]
      rw [List.filter_eq_self]
      intro a ha
      have hne : a ≠ c := fun hac => hnot (hac ▸ ha)
      simpa using hne
    · have h1 : cols.count pid = 1 := by
        rw [List.count_cons_of_ne (fun hpc => hc hpc.symm)] at h
        exact h
      have hbeq : (c == pid) = false := by simpa using hc
      simp only [List.filter_cons, ne_eq, hc, not_false_eq_true, decide_True, if_true,
        List.erase_cons, hbeq, Bool.false_eq_true, if_false]
      rw [ih h1]

theorem filter_ne_eq_self_of_not_mem (pid : PropertyId) (cols : List PropertyId)
    (h : pid ∉ cols) : cols.filter (fun c => decide (c ≠ pid)) = cols := by
  rw [List.filter_eq_self]
  intro a ha
  have hne : a ≠ pid := fun hac => h (hac ▸ ha)
  simpa using hne

end Game

namespace Game

open MemDb

/-- C20: for an active entity at a row of the table `src` (n columns) of its category,
when the hash-to-category map has no entry for `RemoveFromHash(h, p)` (the incremental
hash being the hash of the remaining ids). If `p` occurs exactly once in the schema, the
fill loop stays inside its array of n - 1 entries and yields the schema without `p`, the
other columns in their order, n - 1 entries; `Execute` returns, having created one
category whose new table has exactly that schema, and the entity is mapped to its only
row. If `p` is not in the schema, the n columns to write do not fit the n - 1 entries:
the loop runs out of the array (it would fill an array of n), and `Execute` fails. -/
theorem execute_remove_creates_schema_without (H : HashScheme) (reg : TypeRegistry) (w : World)
    (op : Op.DeregisterProperty) (k : CategoryId) (row : Nat) (cat : Category) (src : Table)
    (hm : GetEntityMapping w op.entity = some { category := k, inst := some row })
    (hcat : w.GetCategory k = some cat)
    (hsrc : w.db.GetTable cat.instanceTable = some src)
    (hrow : row < src.numRows)
    (hmiss : w.catIndexMap.lookup (H.RemoveFromHash cat.hash op.pid) = none)
    (hconsistent : H.hashOf (src.properties.erase op.pid) = H.RemoveFromHash cat.hash op.pid) :
    (src.properties.count op.pid = 1 →
      copyWithout op.pid src.properties
        (List.replicate (src.properties.length - 1) InvalidPropertyId) 0 =
        some (src.properties.erase op.pid) ∧
      src.properties.erase op.pid = src.properties.filter (fun c => decide (c ≠ op.pid)) ∧
      (src.properties.erase op.pid).length = src.properties.length - 1 ∧
      ∃ w2 t, ExecuteDeregisterProperty H reg op w = some w2 ∧
        w2.categories = w.categories ++
          [{ hash := H.RemoveFromHash cat.hash op.pid, instanceTable := w.db.tables.length }] ∧
        w2.db.GetTable w.db.tables.length = some t ∧
        t.properties = src.properties.erase op.pid ∧
        GetEntityMapping w2 op.entity =
          some { category := w.categories.length, inst := some 0 }) ∧
    (op.pid ∉ src.properties →
      (src.properties ≠ [] →
        copyWithout op.pid src.properties
          (List.replicate (src.properties.length - 1) InvalidPropertyId) 0 = none ∧
        copyWithout op.pid src.properties
          (List.replicate src.properties.length InvalidPropertyId) 0 = some src.properties) ∧
      ExecuteDeregisterProperty H reg op w = none) := by
  constructor
  · intro hcount
    have hfe := filter_ne_eq_erase_of_count op.pid src.properties hcount
    have hmem : op.pid ∈ src.properties := List.count_pos_iff.mp (by omega)
    have hlen : (src.properties.erase op.pid).length = src.properties.length - 1 :=
      List.length_erase_of_mem hmem
    have hcopy : copyWithout op.pid src.properties
        (List.replicate (src.properties.length - 1) InvalidPropertyId) 0 =
        some (src.properties.erase op.pid) := by
      have := copyWithout_eq op.pid InvalidPropertyId src.properties [] (src.properties.length - 1)
        (by rw [hfe, hlen])
      rw [hfe, hlen] at this
      simpa using this
    refine ⟨hcopy, hfe.symm, hlen, ?_⟩
    obtain ⟨w1, hw1⟩ : ∃ w1 : World, w1 =
        { w with
          db := { tables := w.db.tables ++
            [{ properties := src.properties.erase op.pid
               columns := (src.properties.erase op.pid).map (fun _ => [])
               owners := [], numRows := 0 }] }
          categories := w.categories ++
            [{ hash := H.RemoveFromHash cat.hash op.pid, instanceTable := w.db.tables.length }]
          catIndexMap :=
            (H.RemoveFromHash cat.hash op.pid, w.categories.length) :: w.catIndexMap } :=
      ⟨_, rfl⟩
    have hcreate : w.CreateCategory H { properties := src.properties.erase op.pid } =
        (w1, w.categories.length) := by
      rw [hw1]
      simp only [World.CreateCategory, hconsistent, hmiss, Database.CreateTable]
    have hlt := db_getTable_lt _ _ _ hsrc
    have hm1 : GetEntityMapping w1 op.entity = some { category := k, inst := some row } := by
      rw [getEntityMapping_congr w w1 op.entity (by rw [hw1]) (by rw [hw1])]
      exact hm
    have hcat1 : w1.GetCategory k = some cat := by
      rw [hw1]
      simp only [World.GetCategory] at hcat ⊢
      rw [List.getElem?_append_left (List.getElem?_eq_some.mp hcat).1]
      exact hcat
    have hsrc1 : w1.db.GetTable cat.instanceTable = some src := by
      rw [hw1]
      simp only [Database.GetTable] at hsrc ⊢
      rw [List.getElem?_append_left hlt]
      exact hsrc
    have hk2 : w1.GetCategory w.categories.length = some
        { hash := H.RemoveFromHash cat.hash op.pid, instanceTable := w.db.tables.length } := by
      rw [hw1]
      simp [World.GetCategory]
    have hdst0 : w1.db.GetTable w.db.tables.length = some
        { properties := src.properties.erase op.pid
          columns := (src.properties.erase op.pid).map (fun _ => [])
          owners := [], numRows := 0 } := by
      rw [hw1]
      simp [Database.GetTable]
    obtain ⟨w2, hmig, hcats2, _, _, _, hnew2, _, _, hmap2⟩ :=
      migrate_spec reg w1 op.entity w.categories.length { category := k, inst := some row } row cat
        { hash := H.RemoveFromHash cat.hash op.pid, instanceTable := w.db.tables.length } src
        { properties := src.properties.erase op.pid
          columns := (src.properties.erase op.pid).map (fun _ => [])
          owners := [], numRows := 0 }
        hm1 rfl hcat1 hk2 hsrc1 hdst0
        (by
          show cat.instanceTable ≠ w.db.tables.length
          exact Nat.ne_of_lt hlt)
        hrow
    have hlen0 : ¬ src.properties.length = 0 := by
      have := List.length_pos_of_mem hmem
      omega
    refine ⟨w2, _, ?_, by rw [hcats2, hw1], hnew2, rfl, hmap2⟩
    unfold ExecuteDeregisterProperty
    simp only [hm, hcat, hmiss, hsrc, hlen0, if_false, hcopy, hcreate, hmig]
  · intro hnot
    have hfs := filter_ne_eq_self_of_not_mem op.pid src.properties hnot
    have hover : src.properties ≠ [] →
        copyWithout op.pid src.properties
          (List.replicate (src.properties.length - 1) InvalidPropertyId) 0 = none := by
      intro hne
      have hpos : 0 < src.properties.length := List.length_pos.mpr hne
      have := copyWithout_overflow op.pid InvalidPropertyId src.properties []
        (src.properties.length - 1) (by rw [hfs]; omega)
      simpa using this
    refine ⟨fun hne => ⟨hover hne, ?_⟩, ?_⟩
    · have := copyWithout_eq op.pid InvalidPropertyId src.properties [] src.properties.length
        (by rw [hfs])
      rw [hfs] at this
      simpa using this
    · unfold ExecuteDeregisterProperty
      simp only [hm, hcat, hmiss, hsrc]
      by_cases hl : src.properties.length = 0
      · simp [hl]
      · have hne : src.properties ≠ [] := fun h => hl (by rw [h]; rfl)
        simp [hl, hover hne]

/-- C20 at a concrete input: `Health` is removed from entity 0 of the {Position, Health}
table; the map has no entry for {Position}. -/
theorem execute_remove_creates_schema_without_witness :
    GetEntityMapping scenarioWorldHealth { index := 0, generation := 0 } =
      some { category := 0, inst := some 0 } ∧
    scenarioWorldHealth.catIndexMap.lookup
      (additiveHash.RemoveFromHash (additiveHash.hashOf [0, 1]) 1) = none ∧
    scenarioTableHealth.properties.count 1 = 1 ∧
    copyWithout 1 scenarioTableHealth.properties
      (List.replicate (scenarioTableHealth.properties.length - 1) InvalidPropertyId) 0 =
      some (scenarioTableHealth.properties.erase 1) ∧
    ∃ w2 t,
      ExecuteDeregisterProperty additiveHash scenarioRegistry
        { entity := { index := 0, generation := 0 }, pid := 1 } scenarioWorldHealth = some w2 ∧
      w2.db.GetTable 1 = some t ∧ t.properties = scenarioTableHealth.properties.erase 1 :=
  ⟨by decide, by decide, by decide,
   ((execute_remove_creates_schema_without additiveHash scenarioRegistry scenarioWorldHealth
      { entity := { index := 0, generation := 0 }, pid := 1 } 0 0
      { hash := additiveHash.hashOf [0, 1], instanceTable := 0 } scenarioTableHealth
      (by decide) rfl rfl (by decide) (by decide) (by decide)).1 (by decide)).1,
   ((execute_remove_creates_schema_without additiveHash scenarioRegistry scenarioWorldHealth
      { entity := { index := 0, generation := 0 }, pid := 1 } 0 0
      { hash := additiveHash.hashOf [0, 1], instanceTable := 0 } scenarioTableHealth
      (by decide) rfl rfl (by decide) (by decide) (by decide)).1 (by decide)).2.2.2.imp
     (fun _ h => h.imp (fun _ h => ⟨h.1, h.2.2.1, h.2.2.2.1⟩))⟩

end Game

namespace Game

open MemDb

/-- C18 at a concrete input: the caller's block 0 holds the four bytes of 50; `Health`
(4 bytes) is added with a pointer to it, and the caller overwrites its block afterwards. -/
theorem addOp_copies_value_to_arena_witness :
    ∃ heap1 target,
      AddOpRegisterPropertyPtr scenarioRegistry [some [50, 0, 0, 0]]
        { entity := { index := 0, generation := 0 }, pid := 1, value := some 0 } =
        some (heap1, { entity := { index := 0, generation := 0 }, pid := 1,
                       value := some target }) ∧
      heap1[target]? = some (some [50, 0, 0, 0]) ∧
      loadOp (heap1.set 0 (some [9, 9, 9, 9]))
          { entity := { index := 0, generation := 0 }, pid := 1, value := some target } =
        loadOp heap1
          { entity := { index := 0, generation := 0 }, pid := 1, value := some target } :=
  match (addOp_copies_value_to_arena scenarioRegistry [some [50, 0, 0, 0]]
      { entity := { index := 0, generation := 0 }, pid := 1, value := some 0 }).2
      0 [50, 0, 0, 0] rfl rfl (by decide) with
  | ⟨heap1, target, hadd, _, hne, hget, _, _, hframe⟩ =>
    ⟨heap1, target, hadd, hget,
      (hframe (heap1.set 0 (some [9, 9, 9, 9])) (by
        rw [List.getElem?_set, if_neg (fun h => hne h.symm)])).1⟩

end Game

namespace VkUtilities

/-- The loop of `GetMemoryType` finds the first iteration whose bit is set and whose
memory type has all the flags, and finds none only when there is none. -/
theorem getMemoryTypeLoop_spec (memoryTypes : Nat → Nat) (flags : Nat) :
    ∀ (remaining i bits : Nat),
      (∀ r, GetMemoryTypeLoop memoryTypes flags remaining i bits = some r →
        ∃ k, k < remaining ∧ r = i + k ∧ bits.testBit k = true ∧
          memoryTypes (i + k) &&& flags = flags ∧
          ∀ j, j < k → ¬(bits.testBit j = true ∧ memoryTypes (i + j) &&& flags = flags)) ∧
      (GetMemoryTypeLoop memoryTypes flags remaining i bits = none →
        ∀ k, k < remaining → ¬(bits.testBit k = true ∧ memoryTypes (i + k) &&& flags = flags)) := by
  intro remaining
  induction remaining with
  | zero =>
    intro i bits
    refine ⟨fun r h => ?_, fun _ k hk => absurd hk (Nat.not_lt_zero k)⟩
    simp [GetMemoryTypeLoop] at h
  | succ n ih =>
    intro i bits
    have hbit : (bits &&& 1 = 1) ↔ bits.testBit 0 = true := by
      rw [Nat.and_one_is_mod, Nat.testBit_zero]; simp
    have hshift : ∀ k, (bits >>> 1).testBit k = bits.testBit (k + 1) := by
      intro k; rw [Nat.testBit_shiftRight, Nat.add_comm]
    have hrec := ih (i + 1) (bits >>> 1)
    -- the facts about the rest of the loop, restated for `bits`
    have hsome : ∀ r, GetMemoryTypeLoop memoryTypes flags n (i + 1) (bits >>> 1) = some r →
        ¬(bits.testBit 0 = true ∧ memoryTypes i &&& flags = flags) →
        ∃ k, k < n + 1 ∧ r = i + k ∧ bits.testBit k = true ∧
          memoryTypes (i + k) &&& flags = flags ∧
          ∀ j, j < k → ¬(bits.testBit j = true ∧ memoryTypes (i + j) &&& flags = flags) := by
      intro r hr h0
      obtain ⟨k, hk, hrk, hb, hm, hmin⟩ := hrec.1 r hr
      refine ⟨k + 1, by omega, by omega, by rw [← hshift]; exact hb, ?_, ?_⟩
      · have : i + (k + 1) = i + 1 + k := by omega
        rw [this]; exact hm
      · intro j hj
        cases j with
        | zero => simpa using h0
        | succ j =>
          have := hmin j (by omega)
          rw [hshift] at this
          have he : i + (j + 1) = i + 1 + j := by omega
          rw [he]; exact this
    have hnone : GetMemoryTypeLoop memoryTypes flags n (i + 1) (bits >>> 1) = none →
        ¬(bits.testBit 0 = true ∧ memoryTypes i &&& flags = flags) →
        ∀ k, k < n + 1 → ¬(bits.testBit k = true ∧ memoryTypes (i + k) &&& flags = flags) := by
      intro hr h0 k hk
      cases k with
      | zero => simpa using h0
      | succ k =>
        have := hrec.2 hr k (by omega)
        rw [hshift] at this
        have he : i + (k + 1) = i + 1 + k := by omega
        rw [he]; exact this
    by_cases hb : bits &&& 1 = 1
    · by_cases hm : memoryTypes i &&& flags = flags
      · refine ⟨fun r h => ?_, fun h => ?_⟩
        · simp only [GetMemoryTypeLoop, if_pos hb, if_pos hm, Option.some.injEq] at h
          exact ⟨0, by omega, by omega, hbit.1 hb, by simpa using hm,
            fun j hj => absurd hj (Nat.not_lt_zero j)⟩
        · simp [GetMemoryTypeLoop, hb, hm] at h
      · have h0 : ¬(bits.testBit 0 = true ∧ memoryTypes i &&& flags = flags) := fun h => hm h.2
        refine ⟨fun r h => ?_, fun h => ?_⟩
        · simp only [GetMemoryTypeLoop, if_pos hb, if_neg hm] at h
          exact hsome r h h0
        · simp only [GetMemoryTypeLoop, if_pos hb, if_neg hm] at h
          exact hnone h h0
    · have h0 : ¬(bits.testBit 0 = true ∧ memoryTypes i &&& flags = flags) :=
        fun h => hb (hbit.2 h.1)
      refine ⟨fun r h => ?_, fun h => ?_⟩
      · simp only [GetMemoryTypeLoop, if_neg hb] at h
        exact hsome r h h0
      · simp only [GetMemoryTypeLoop, if_neg hb] at h
        exact hnone h h0

/-- C29: `GetMemoryType(bits, flags, index)` returns `VK_SUCCESS` with `index = i` exactly
when `i` is the smallest `i < VK_MAX_MEMORY_TYPES` such that bit `i` of `bits` is set and
`(memoryTypes[i].propertyFlags & flags) == flags`; it returns
`VK_ERROR_FEATURE_NOT_PRESENT` exactly when there is no such `i`, and then `index` keeps
the value it had; there is no third result. -/
theorem getMemoryType_least_matching_type (memoryTypes : Nat → Nat) (bits flags index : Nat) :
    (∀ i, GetMemoryType memoryTypes bits flags index = (VkResult.VK_SUCCESS, i) ↔
      (i < VK_MAX_MEMORY_TYPES ∧ bits.testBit i = true ∧ memoryTypes i &&& flags = flags ∧
        ∀ j, j < i → ¬(bits.testBit j = true ∧ memoryTypes j &&& flags = flags))) ∧
    ((GetMemoryType memoryTypes bits flags index).1 = VkResult.VK_ERROR_FEATURE_NOT_PRESENT ↔
      ¬∃ i, i < VK_MAX_MEMORY_TYPES ∧ bits.testBit i = true ∧
        memoryTypes i &&& flags = flags) ∧
    ((GetMemoryType memoryTypes bits flags index).1 = VkResult.VK_ERROR_FEATURE_NOT_PRESENT →
      (GetMemoryType memoryTypes bits flags index).2 = index) ∧
    ((GetMemoryType memoryTypes bits flags index).1 = VkResult.VK_SUCCESS ∨
      (GetMemoryType memoryTypes bits flags index).1 = VkResult.VK_ERROR_FEATURE_NOT_PRESENT) := by
  have hspec := getMemoryTypeLoop_spec memoryTypes flags VK_MAX_MEMORY_TYPES 0 bits
  cases hloop : GetMemoryTypeLoop memoryTypes flags VK_MAX_MEMORY_TYPES 0 bits with
  | none =>
    have hno := hspec.2 hloop
    have hres : GetMemoryType memoryTypes bits flags index =
        (VkResult.VK_ERROR_FEATURE_NOT_PRESENT, index) := by
      simp only [GetMemoryType, hloop]
    rw [hres]
    refine ⟨fun i => ⟨fun h => ?_, fun h => ?_⟩, ⟨fun _ => ?_, fun _ => rfl⟩, fun _ => rfl,
      Or.inr rfl⟩
    · simp at h
    · have := hno i h.1
      rw [Nat.zero_add] at this
      exact absurd ⟨h.2.1, h.2.2.1⟩ this
    · rintro ⟨i, hi, hb, hm⟩
      have := hno i hi
      rw [Nat.zero_add] at this
      exact this ⟨hb, hm⟩
  | some r =>
    obtain ⟨k, hk, hrk, hb, hm, hmin⟩ := hspec.1 r hloop
    rw [Nat.zero_add] at hrk hm
    subst hrk
    have hmin1 : ∀ j, j < r → ¬(bits.testBit j = true ∧ memoryTypes j &&& flags = flags) := by
      intro j hj
      have := hmin j hj
      rw [Nat.zero_add] at this
      exact this
    have hres : GetMemoryType memoryTypes bits flags index = (VkResult.VK_SUCCESS, r) := by
      simp only [GetMemoryType, hloop]
    rw [hres]
    refine ⟨fun i => ⟨fun h => ?_, fun h => ?_⟩, ⟨fun h => ?_, fun h => ?_⟩, fun h => ?_,
      Or.inl rfl⟩
    · have hir : r = i := by simpa using h
      subst hir
      exact ⟨hk, hb, hm, hmin1⟩
    · have hir : r = i := by
        rcases Nat.lt_trichotomy r i with hlt | heq | hgt
        · exact absurd ⟨hb, hm⟩ (h.2.2.2 r hlt)
        · exact heq
        · exact absurd ⟨h.2.1, h.2.2.1⟩ (hmin1 i hgt)
      rw [hir]
    · simp at h
    · exact absurd ⟨r, hk, hb, hm⟩ h
    · simp at h

end VkUtilities

namespace VkUtilities

/-- The loop of `BufferUpdate` returns when it is given more tests than there are chunks;
chunk `k` has the size `min(65536, totalSize - 65536 k)` and the 64-bit offset
`(totalOffset + 65536 k) mod 2^64`. -/
theorem bufferUpdateLoop_spec :
    ∀ (fuel totalSize totalOffset : Nat), (totalSize + 65535) / 65536 < fuel →
      totalOffset < 18446744073709551616 →
      ∃ commands, BufferUpdateLoop fuel totalSize totalOffset = some commands ∧
        commands.length = (totalSize + 65535) / 65536 ∧
        ∀ (k : Nat), k < commands.length →
          commands[k]? = some
            { dstOffset := (totalOffset + 65536 * k) % 18446744073709551616
              dataSize := min 65536 (totalSize - 65536 * k)
              srcOffset := (totalOffset + 65536 * k) % 18446744073709551616 } := by
  intro fuel
  induction fuel with
  | zero => intro totalSize totalOffset h; exact absurd h (Nat.not_lt_zero _)
  | succ fuel ih =>
    intro totalSize totalOffset hfuel hoff
    by_cases hpos : totalSize > 0
    · by_cases hsmall : totalSize < 65536
      · obtain ⟨commands, hrec, hlen, _⟩ := ih (totalSize - totalSize)
          ((totalOffset + totalSize) % 18446744073709551616) (by omega) (by omega)
        have hlen0 : commands.length = 0 := by rw [hlen]; omega
        have hnil : commands = [] := List.length_eq_zero.1 hlen0
        subst hnil
        refine ⟨[{ dstOffset := totalOffset, dataSize := totalSize, srcOffset := totalOffset }],
          ?_, ?_, ?_⟩
        · simp only [BufferUpdateLoop, if_pos hpos, if_pos hsmall, hrec]
        · simp only [List.length_singleton]; omega
        · intro k hk
          have hk0 : k = 0 := by simpa using hk
          subst hk0
          have h1 : (totalOffset + 65536 * 0) % 18446744073709551616 = totalOffset := by
            rw [Nat.mul_zero, Nat.add_zero]; exact Nat.mod_eq_of_lt hoff
          have h2 : min 65536 (totalSize - 65536 * 0) = totalSize := by
            rw [Nat.mul_zero, Nat.sub_zero]; exact Nat.min_eq_right (by omega)
          rw [h1, h2]; simp
      · obtain ⟨commands, hrec, hlen, hcmd⟩ := ih (totalSize - 65536)
          ((totalOffset + 65536) % 18446744073709551616) (by omega) (by omega)
        refine ⟨{ dstOffset := totalOffset, dataSize := 65536, srcOffset := totalOffset } ::
          commands, ?_, ?_, ?_⟩
        · simp only [BufferUpdateLoop, if_pos hpos, if_neg hsmall, hrec]
        · simp only [List.length_cons, hlen]; omega
        · intro k hk
          cases k with
          | zero =>
            have h1 : (totalOffset + 65536 * 0) % 18446744073709551616 = totalOffset := by
              rw [Nat.mul_zero, Nat.add_zero]; exact Nat.mod_eq_of_lt hoff
            have h2 : min 65536 (totalSize - 65536 * 0) = 65536 := by
              rw [Nat.mul_zero, Nat.sub_zero]; exact Nat.min_eq_left (by omega)
            rw [h1, h2]; simp
          | succ j =>
            have hj : j < commands.length := by simpa using hk
            have h1 : ((totalOffset + 65536) % 18446744073709551616 + 65536 * j) %
                18446744073709551616 = (totalOffset + 65536 * (j + 1)) % 18446744073709551616 := by
              omega
            have h2 : totalSize - 65536 - 65536 * j = totalSize - 65536 * (j + 1) := by omega
            rw [List.getElem?_cons_succ, hcmd j hj, h1, h2]
    · have hz : totalSize = 0 := by omega
      subst hz
      exact ⟨[], by simp [BufferUpdateLoop], by simp, fun k hk => absurd hk (Nat.not_lt_zero k)⟩

/-- C30, the divergence: with `offset = 2^64 - 1` and `size = 65537` the second command is
issued at destination offset 65535, where `totalOffset += uploadSize` has wrapped, and not
at `offset + 65536`; the two destination ranges are not contiguous. -/
theorem bufferUpdate_offset_wraps :
    BufferUpdate 3 18446744073709551615 65537 =
      some [{ dstOffset := 18446744073709551615, dataSize := 65536,
              srcOffset := 18446744073709551615 },
            { dstOffset := 65535, dataSize := 1, srcOffset := 65535 }] ∧
    (65535 : Nat) ≠ 18446744073709551615 + 65536 * 1 := by
  constructor
  · decide
  · decide

/-- C30, amended: given more loop tests than there are chunks, `BufferUpdate` returns and
issues exactly `ceil(size / 65536)` commands; command `k` writes `min(65536, size - 65536 k)`
bytes at the 64-bit destination offset `(offset + 65536 k) mod 2^64` and reads them from
`data` plus that same offset. When the range `[offset, offset + size)` lies in the 64-bit
offset space, the destination offset of command `k` is `offset + 65536 k`, each command
starts where the one before it ended, and the last command ends at `offset + size`. -/
theorem bufferUpdate_chunks (fuel offset size : Nat) (hfuel : (size + 65535) / 65536 < fuel)
    (hoffset : offset < 18446744073709551616) :
    ∃ commands, BufferUpdate fuel offset size = some commands ∧
      commands.length = (size + 65535) / 65536 ∧
      (size = 0 → commands = []) ∧
      (∀ (k : Nat), k < commands.length →
        commands[k]? = some
          { dstOffset := (offset + 65536 * k) % 18446744073709551616
            dataSize := min 65536 (size - 65536 * k)
            srcOffset := (offset + 65536 * k) % 18446744073709551616 }) ∧
      (offset + size ≤ 18446744073709551616 →
        (∀ (k : Nat), k < commands.length →
          commands[k]? = some
            { dstOffset := offset + 65536 * k
              dataSize := min 65536 (size - 65536 * k)
              srcOffset := offset + 65536 * k }) ∧
        (∀ (k : Nat), k + 1 < commands.length →
          (offset + 65536 * k) + min 65536 (size - 65536 * k) = offset + 65536 * (k + 1)) ∧
        (∀ (k : Nat), k + 1 = commands.length →
          (offset + 65536 * k) + min 65536 (size - 65536 * k) = offset + size)) := by
  obtain ⟨commands, hrun, hlen, hcmd⟩ := bufferUpdateLoop_spec fuel size offset hfuel hoffset
  refine ⟨commands, hrun, hlen, ?_, hcmd, fun hfit => ⟨?_, ?_, ?_⟩⟩
  · intro hz
    apply List.length_eq_zero.1
    rw [hlen, hz]
  · intro k hk
    have hlt : offset + 65536 * k < 18446744073709551616 := by
      rw [hlen] at hk; omega
    rw [hcmd k hk, Nat.mod_eq_of_lt hlt]
  · intro k hk
    rw [hlen] at hk
    have : min 65536 (size - 65536 * k) = 65536 := Nat.min_eq_left (by omega)
    rw [this]; omega
  · intro k hk
    rw [hlen] at hk
    have : min 65536 (size - 65536 * k) = size - 65536 * k := Nat.min_eq_right (by omega)
    rw [this]; omega

/-- C30 at a concrete input: 131073 bytes at offset 16 are written by three commands. -/
theorem bufferUpdate_chunks_witness :
    ∃ commands, BufferUpdate 4 16 131073 = some commands ∧
      commands.length = 3 ∧
      commands[2]? = some { dstOffset := 131088, dataSize := 1, srcOffset := 131088 } :=
  match bufferUpdate_chunks 4 16 131073 (by decide) (by decide) with
  | ⟨commands, hrun, hlen, _, _, hfit⟩ =>
    ⟨commands, hrun, hlen, (hfit (by decide)).1 2 (by rw [hlen]; decide)⟩

end VkUtilities

namespace MemDb

/-- Assignment between two different descriptors, with either operator: `this` holds what
`rhs` held, `rhs` is reset, and no block is allocated or freed. -/
theorem assign_transfers (m : DescriptionMemory) (this rhs : Nat) (d r : ColumnDescription)
    (hne : this ≠ rhs) (hthis : m.objects[this]? = some (some d))
    (hrhs : m.objects[rhs]? = some (some r)) :
    ∃ m1, ColumnDescription.Assign m this rhs = some m1 ∧
      m1.objects[this]? = some (some r) ∧
      m1.objects[rhs]? = some (some { name := none, typeSize := 0, defVal := none }) ∧
      m1.blocks = m.blocks := by
  have hlt : this < m.objects.length := by
    rcases Nat.lt_or_ge this m.objects.length with h | h
    · exact h
    · rw [List.getElem?_eq_none h] at hthis; cases hthis
  have hlr : rhs < m.objects.length := by
    rcases Nat.lt_or_ge rhs m.objects.length with h | h
    · exact h
    · rw [List.getElem?_eq_none h] at hrhs; cases hrhs
  simp only [ColumnDescription.Assign, hthis, hrhs]
  refine ⟨_, rfl, ?_, ?_, rfl⟩
  · have hne1 : ¬rhs = this := fun h => hne h.symm
    simp only [List.getElem?_set, if_neg hne1, if_true, List.length_set, hlt]
  · simp only [List.getElem?_set, if_true, List.length_set, hlr]

/-- Move construction: the new descriptor holds what `desc` held, `desc` is reset, and no
block is allocated or freed. -/
theorem moveConstruct_transfers (m : DescriptionMemory) (desc : Nat) (d : ColumnDescription)
    (hdesc : m.objects[desc]? = some (some d)) :
    ∃ m1 object, ColumnDescription.MoveConstruct m desc = some (m1, object) ∧
      object ≠ desc ∧ m1.objects[object]? = some (some d) ∧
      m1.objects[desc]? = some (some { name := none, typeSize := 0, defVal := none }) ∧
      m1.blocks = m.blocks := by
  have hlt : desc < m.objects.length := by
    rcases Nat.lt_or_ge desc m.objects.length with h | h
    · exact h
    · rw [List.getElem?_eq_none h] at hdesc; cases hdesc
  have hne : m.objects.length ≠ desc := fun h => absurd hlt (by omega)
  simp only [ColumnDescription.MoveConstruct, hdesc]
  refine ⟨_, _, rfl, hne, ?_, ?_, rfl⟩
  · have hne1 : ¬desc = m.objects.length := fun h => hne h.symm
    simp only [List.getElem?_set, if_neg hne1]
    rw [List.getElem?_append_right (Nat.le_refl _)]
    cases d; simp
  · simp only [List.getElem?_set, if_true, List.length_append, List.length_singleton]
    rw [if_pos (by omega)]

end MemDb

namespace MemDb

/-- C25, the divergence: `Position` (object 0) owns block 0 and `Health` (object 1) owns
block 1. After `Position = Health`, with either assignment operator, `Position` holds what
`Health` held and `Health` is reset, but block 0 is still allocated and no descriptor holds
it: it is left without an owner, and destroying both descriptors frees block 1 only. After
the self-assignment `Position = Position` the descriptor holds a null `defVal` and its
block is left without an owner in the same way. -/
theorem assignment_leaves_block_without_owner :
    twoDescriptions.objects =
      [some { name := some "Position", typeSize := 4, defVal := some 0 },
       some { name := some "Health", typeSize := 4, defVal := some 1 }] ∧
    twoDescriptions.blocks = [some [1, 2, 3, 4], some [100, 0, 0, 0]] ∧
    (∃ m, ColumnDescription.Assign twoDescriptions 0 1 = some m ∧
      m.objects = [some { name := some "Health", typeSize := 4, defVal := some 1 },
                   some { name := none, typeSize := 0, defVal := none }] ∧
      m.blocks[0]? = some (some [1, 2, 3, 4]) ∧ m.owners 0 = [] ∧
      ∃ m1 m2, ColumnDescription.Destroy m 0 = some m1 ∧
        ColumnDescription.Destroy m1 1 = some m2 ∧
        m2.objects = [none, none] ∧ m2.blocks = [some [1, 2, 3, 4], none]) ∧
    (∃ m, ColumnDescription.Assign twoDescriptions 0 0 = some m ∧
      m.objects[0]? = some (some { name := none, typeSize := 0, defVal := none }) ∧
      m.blocks[0]? = some (some [1, 2, 3, 4]) ∧ m.owners 0 = []) := by
  refine ⟨by decide, by decide, ⟨_, rfl, by decide, by decide, by decide,
    _, _, rfl, rfl, by decide, by decide⟩, ⟨_, rfl, by decide, by decide, by decide⟩⟩

end MemDb

namespace Game

open MemDb

/-- The view loop writes the views of the tables into its block, from `viewIndex` on, and
writes nothing else. -/
theorem fillViews_spec (properties : List PropertyId) (views : Nat) :
    ∀ (tids : List TableId) (viewIndex : Nat) (m : QueryMemory) (block made : List CategoryTableView),
      m.viewAllocator[views]? = some block → viewIndex + tids.length ≤ block.length →
      makeViews m.world.db properties tids = some made →
      ∃ m1, fillViews properties views tids viewIndex m = some m1 ∧
        m1.world = m.world ∧ m1.filterAllocator = m.filterAllocator ∧
        m1.viewAllocator = m.viewAllocator.set views
          (block.take viewIndex ++ made ++ block.drop (viewIndex + tids.length)) := by
  intro tids
  induction tids with
  | nil =>
    intro viewIndex m block made hblock hlen hmade
    simp only [makeViews, Option.some.injEq] at hmade
    subst hmade
    refine ⟨m, rfl, rfl, rfl, ?_⟩
    simp only [List.append_nil, List.length_nil, Nat.add_zero, List.take_append_drop]
    apply List.ext_getElem?
    intro i
    rw [List.getElem?_set]
    split
    · next h => subst h; simp only [hblock, (List.getElem?_eq_some.mp hblock).1, if_true]
    · rfl
  | cons tid tids ih =>
    intro viewIndex m block made hblock hlen hmade
    simp only [List.length_cons] at hlen
    cases hview : makeView m.world.db properties tid with
    | none => simp [makeViews, hview] at hmade
    | some view =>
      cases hrest : makeViews m.world.db properties tids with
      | none => simp [makeViews, hview, hrest] at hmade
      | some rest =>
        simp only [makeViews, hview, hrest, Option.some.injEq] at hmade
        subst hmade
        have hlt : viewIndex < block.length := by omega
        have hvlt : views < m.viewAllocator.length := (List.getElem?_eq_some.mp hblock).1
        obtain ⟨m1, hm1⟩ : ∃ m1 : QueryMemory, m1 =
            { m with viewAllocator := m.viewAllocator.set views (block.set viewIndex view) } :=
          ⟨_, rfl⟩
        have hstore : storeView m views viewIndex view = some m1 := by
          simp only [storeView, hblock, if_pos hlt, hm1]
        have hblock1 : m1.viewAllocator[views]? = some (block.set viewIndex view) := by
          rw [hm1]
          simp only [List.getElem?_set, if_true, hvlt]
        have hw : m1.world = m.world := by rw [hm1]
        obtain ⟨m2, hfill, hw2, hf2, hv2⟩ := ih (viewIndex + 1) m1 (block.set viewIndex view) rest
          hblock1 (by simp only [List.length_set]; omega) (by rw [hw]; exact hrest)
        refine ⟨m2, ?_, hw2.trans hw, hf2.trans (by rw [hm1]), ?_⟩
        · simp only [fillViews, hview, hstore, hfill]
        · rw [hv2, hm1]
          simp only [List.set_set]
          congr 1
          have h1 : (block.set viewIndex view).take (viewIndex + 1) =
              block.take viewIndex ++ [view] := by
            rw [List.set_eq_take_append_cons_drop, if_pos hlt]
            have hl : (block.take viewIndex ++ [view]).length = viewIndex + 1 := by
              simp only [List.length_append, List.length_take, List.length_singleton]
              omega
            have happ : block.take viewIndex ++ view :: block.drop (viewIndex + 1) =
                (block.take viewIndex ++ [view]) ++ block.drop (viewIndex + 1) := by simp
            rw [happ, List.take_left' hl]
          have h2 : (block.set viewIndex view).drop (viewIndex + 1 + tids.length) =
              block.drop (viewIndex + (tids.length + 1)) := by
            rw [List.drop_set_of_lt view block (by omega)]
            congr 1; omega
          rw [h1, h2]
          simp

end Game

namespace Game

open MemDb

/-- C21: `Query(filter)` on a stored filter returns and does not mutate the database. In
the memory after the call the world is the one before the call, so every table has the
same schema, row count, column contents and owners, and the entity map, the categories
and the hash-to-category map are unchanged; the filters are unchanged; the blocks the view
arena held before the call are unchanged, and at most one block, the views of the
returned dataset, is added to it. The dataset read through its pointer is the dataset of
the pure `Query`. -/
theorem query_does_not_mutate (m : QueryMemory) (filter : Filter) (f : FilterData)
    (hf : m.filterAllocator.Get filter = some f) :
    ∃ m1 data, QueryInMemory m filter = some (m1, data) ∧
      m1.world = m.world ∧
      (∀ tid, m1.world.db.GetTable tid = m.world.db.GetTable tid) ∧
      m1.world.entityMap = m.world.entityMap ∧
      m1.world.categories = m.world.categories ∧
      m1.world.catIndexMap = m.world.catIndexMap ∧
      m1.filterAllocator = m.filterAllocator ∧
      m1.filterAllocator.Get filter = some f ∧
      ((m.world.db.Query f.inclusive f.exclusive = [] ∧ m1.viewAllocator = m.viewAllocator ∧
          data.views = none) ∨
        (m.world.db.Query f.inclusive f.exclusive ≠ [] ∧
          ∃ block, m1.viewAllocator = m.viewAllocator ++ [block] ∧
            data.views = some m.viewAllocator.length)) ∧
      (Query m.filterAllocator m.world filter).isSome = true ∧
      loadDataset m1 data = Query m.filterAllocator m.world filter := by
  obtain ⟨made, hmade, hlen, _⟩ := makeViews_spec m.world.db f.properties
    (m.world.db.Query f.inclusive f.exclusive)
    (fun tid hm => by
      obtain ⟨t, ht, _⟩ := ((db_query_spec m.world.db f.inclusive f.exclusive).2 tid).mp hm
      exact ⟨t, ht⟩)
  by_cases hnil : (m.world.db.Query f.inclusive f.exclusive).length = 0
  · refine ⟨m, { numViews := (m.world.db.Query f.inclusive f.exclusive).length, views := none },
      ?_, rfl, fun _ => rfl, rfl, rfl, rfl, rfl, hf,
      Or.inl ⟨List.length_eq_zero.1 hnil, rfl, rfl⟩, ?_, ?_⟩
    · simp only [QueryInMemory, hf, if_pos hnil]
    · simp only [Query, hf, if_pos hnil, Option.isSome_some]
    · simp only [Query, hf, if_pos hnil, loadDataset]
  · obtain ⟨m0, hm0⟩ : ∃ m0 : QueryMemory, m0 =
        (allocViews m (m.world.db.Query f.inclusive f.exclusive).length).1 := ⟨_, rfl⟩
    have hblock : m0.viewAllocator[m.viewAllocator.length]? =
        some (List.replicate (m.world.db.Query f.inclusive f.exclusive).length
          CategoryTableView.unwritten) := by
      rw [hm0]
      simp only [allocViews]
      rw [List.getElem?_append_right (Nat.le_refl _)]
      simp
    obtain ⟨m1, hfill, hw, hfa, hva⟩ := fillViews_spec f.properties m.viewAllocator.length
      (m.world.db.Query f.inclusive f.exclusive) 0 m0 _ made hblock
      (by simp only [List.length_replicate]; omega) (by rw [hm0]; exact hmade)
    have hw0 : m0.world = m.world := by rw [hm0]; rfl
    have hfa0 : m0.filterAllocator = m.filterAllocator := by rw [hm0]; rfl
    have hva1 : m1.viewAllocator = m.viewAllocator ++ [made] := by
      rw [hva, hm0]
      simp only [allocViews, List.take_zero, List.nil_append, Nat.zero_add]
      rw [List.drop_of_length_le (by simp only [List.length_replicate]; exact Nat.le_refl _),
        List.append_nil]
      simp
    have hw1 : m1.world = m.world := hw.trans hw0
    have hfa1 : m1.filterAllocator = m.filterAllocator := hfa.trans hfa0
    refine ⟨m1, { numViews := (m.world.db.Query f.inclusive f.exclusive).length,
                  views := some m.viewAllocator.length },
      ?_, hw1, fun _ => by rw [hw1], by rw [hw1], by rw [hw1], by rw [hw1], hfa1,
      by rw [hfa1]; exact hf, Or.inr ⟨fun h => hnil (by rw [h]; rfl), made, hva1, rfl⟩, ?_, ?_⟩
    · have h2 : (allocViews m (m.world.db.Query f.inclusive f.exclusive).length).2 =
          m.viewAllocator.length := rfl
      simp only [QueryInMemory, hf, if_neg hnil, h2, ← hm0, hfill]
    · simp only [Query, hf, if_neg hnil, hmade, Option.isSome_some]
    · simp only [Query, hf, if_neg hnil, hmade, loadDataset, hva1]
      rw [List.getElem?_append_right (Nat.le_refl _)]
      simp

/-- C21 at a concrete input: the filter {inclusive {Position}, exclusive {Health}} is
queried on the scenario world, with one block already in the view arena. -/
theorem query_does_not_mutate_witness :
    ∃ m1 data,
      QueryInMemory { world := scenarioWorld, filterAllocator := scenarioFilters,
                      viewAllocator := [[]] } 0 = some (m1, data) ∧
      m1.world.entityMap = scenarioWorld.entityMap ∧
      m1.world.db.GetTable 0 = scenarioWorld.db.GetTable 0 ∧
      m1.viewAllocator[0]? = some [] ∧ data.views = some 1 :=
  match query_does_not_mutate { world := scenarioWorld, filterAllocator := scenarioFilters,
                                viewAllocator := [[]] } 0
      { inclusive := TableSignature [0], exclusive := TableSignature [1], properties := [0],
        access := [AccessMode.READ] } rfl with
  | ⟨m1, data, hq, _, htab, hmap, _, _, _, _, harena, _, _⟩ =>
    ⟨m1, data, hq, hmap, htab 0, by
      rcases harena with ⟨_, h, _⟩ | ⟨_, block, h, _⟩
      · rw [h]; rfl
      · rw [h]; rfl, by
      rcases harena with ⟨h, _, _⟩ | ⟨_, block, _, h⟩
      · exact absurd h (by decide)
      · exact h⟩

end Game

namespace Game

open MemDb

/-- What `CreateEntity` does to the pool, the count, and the size and capacity of the
entity map. -/
theorem createEntity_frame (env : EntityEnv) (reg : TypeRegistry) (w w2 : World)
    (info : EntityCreateInfo) (e : Entity) (h : CreateEntity env reg w info = some (w2, e)) :
    w.pool.Allocate = some (w2.pool, e) ∧
    w2.numEntities = (w.numEntities + 1) % 4294967296 ∧
    w2.entityMap.length = (growEntityMap env w e.index).entityMap.length ∧
    w2.entityMapCapacity = (growEntityMap env w e.index).entityMapCapacity ∧
    (info.immediate = true → e.index < w2.entityMap.length) := by
  have hpool := createEntity_pool env reg w w2 info e h
  unfold CreateEntity at h
  rw [hpool] at h
  simp only at h
  obtain ⟨w1, hw1⟩ : ∃ w1 : World, w1 = growEntityMap env
      { w with pool := w2.pool, numEntities := (w.numEntities + 1) % 4294967296 } e.index :=
    ⟨_, rfl⟩
  rw [← hw1] at h
  have hlen : w1.entityMap.length = (growEntityMap env w e.index).entityMap.length := by
    rw [hw1]; unfold growEntityMap; split <;> rfl
  have hcap : w1.entityMapCapacity = (growEntityMap env w e.index).entityMapCapacity := by
    rw [hw1]; unfold growEntityMap; split <;> rfl
  have hnum : w1.numEntities = (w.numEntities + 1) % 4294967296 := by
    rw [hw1]; unfold growEntityMap; split <;> rfl
  have hplace : ∀ category w3, w1.PlaceInstance reg e category = some w3 →
      w3.numEntities = w1.numEntities ∧ w3.entityMap.length = w1.entityMap.length ∧
      w3.entityMapCapacity = w1.entityMapCapacity ∧ e.index < w3.entityMap.length := by
    intro category w3 hp
    obtain ⟨k, cat, t, _, _, _, hlt, hw3⟩ := placeInstance_some reg w1 w3 e category hp
    rw [hw3]
    exact ⟨rfl, by simp, rfl, by simpa using hlt⟩
  by_cases himm : info.immediate = true
  · simp only [himm, Bool.not_true, Bool.false_eq_true, if_false] at h
    split at h
    · cases hp : w1.AllocateInstanceTemplate env reg e (createCommand info e).tid with
      | none => simp [hp] at h
      | some w3 =>
        simp only [hp, Option.some.injEq, Prod.mk.injEq, and_true] at h
        subst h
        obtain ⟨h1, h2, h3, h4⟩ := hplace _ _ hp
        exact ⟨hpool, h1.trans hnum, h2.trans hlen, h3.trans hcap, fun _ => h4⟩
    · cases hp : w1.AllocateInstanceBlueprint env reg e
          { id := (createCommand info e).tid.blueprintId } with
      | none => simp [hp] at h
      | some w3 =>
        simp only [hp, Option.some.injEq, Prod.mk.injEq, and_true] at h
        subst h
        obtain ⟨h1, h2, h3, h4⟩ := hplace _ _ hp
        exact ⟨hpool, h1.trans hnum, h2.trans hlen, h3.trans hcap, fun _ => h4⟩
  · have hf : info.immediate = false := by simpa using himm
    simp only [hf, Bool.not_false, if_true, Option.some.injEq, Prod.mk.injEq, and_true] at h
    subst h
    exact ⟨hpool, hnum, hlen, hcap, fun h => by rw [hf] at h; cases h⟩

/-- What a successful `DeleteEntity` does. -/
theorem deleteEntity_shape (w w2 : World) (e : Entity) (h : DeleteEntity w e = some w2) :
    IsValid w e = true ∧ IsActive w e = some true ∧
    w2 = { w with
           pool := w.pool.Deallocate e
           deallocQueue := w.deallocQueue ++ [{ entity := e }]
           numEntities := (w.numEntities + 4294967295) % 4294967296 } := by
  unfold DeleteEntity at h
  by_cases hv : IsValid w e = true
  · simp only [hv, if_true] at h
    cases ha : IsActive w e with
    | none => simp [ha] at h
    | some b =>
      cases b with
      | false => simp [ha] at h
      | true =>
        simp only [ha, Option.some.injEq] at h
        exact ⟨hv, rfl, h.symm⟩
  · simp [hv] at h

/-- The two ways `Allocate` succeeds: the first released index is reused, or a slot is
appended to the pool. -/
theorem pool_allocate_cases (pool pool2 : EntityPool) (e : Entity)
    (h : pool.Allocate = some (pool2, e)) :
    (∃ rest, pool.freeIds = e.index :: rest ∧ pool2.freeIds = rest ∧
      pool2.generations = pool.generations ∧ e.index < pool.generations.length) ∨
    (pool.freeIds = [] ∧ pool2.freeIds = [] ∧ pool2.generations = pool.generations ++ [0] ∧
      e.index = pool.generations.length) := by
  unfold EntityPool.Allocate at h
  cases hf : pool.freeIds with
  | nil =>
    simp only [hf, Option.some.injEq, Prod.mk.injEq] at h
    obtain ⟨rfl, rfl⟩ := h
    exact Or.inr ⟨rfl, rfl, rfl, rfl⟩
  | cons index rest =>
    simp only [hf] at h
    cases hg : pool.generations[index]? with
    | none => simp [hg] at h
    | some g =>
      simp only [hg, Option.some.injEq, Prod.mk.injEq] at h
      obtain ⟨rfl, rfl⟩ := h
      exact Or.inl ⟨rest, rfl, rfl, rfl, (List.getElem?_eq_some.mp hg).1⟩

/-- One call keeps the slots of the pool within the entity map. -/
theorem entityCall_slots (env : EntityEnv) (reg : TypeRegistry)
    (hgrow : ∀ capacity, capacity < env.growCapacity capacity) (call : EntityCall)
    (w w1 : World) (h1 : w.pool.generations.length ≤ w.entityMap.length)
    (h2 : w.entityMap.length ≤ w.entityMapCapacity) (h3 : w.pool.FreeIdsInRange)
    (hstep : call.apply env reg w = some w1) :
    w1.pool.generations.length ≤ w1.entityMap.length ∧
    w1.entityMap.length ≤ w1.entityMapCapacity ∧ w1.pool.FreeIdsInRange := by
  cases call with
  | create info =>
    simp only [EntityCall.apply] at hstep
    cases hc : CreateEntity env reg w info with
    | none => simp [hc] at hstep
    | some res =>
      obtain ⟨w3, e⟩ := res
      simp only [hc, Option.some.injEq] at hstep
      subst hstep
      obtain ⟨hpool, _, hlen, hcap, _⟩ := createEntity_frame env reg w w3 info e hc
      have hg : (growEntityMap env w e.index).entityMap.length ≤
            (growEntityMap env w e.index).entityMapCapacity ∧
          w.entityMap.length ≤ (growEntityMap env w e.index).entityMap.length ∧
          (e.index ≤ w.entityMap.length → e.index < (growEntityMap env w e.index).entityMap.length) := by
        unfold growEntityMap
        by_cases hle : w.entityMap.length ≤ e.index
        · simp only [if_pos hle, length_resizeEntityMap]
          have := hgrow w.entityMapCapacity
          exact ⟨Nat.le_refl _, by omega, fun _ => by omega⟩
        · simp only [if_neg hle]
          exact ⟨h2, Nat.le_refl _, fun _ => by omega⟩
      rw [hlen, hcap]
      rcases pool_allocate_cases _ _ _ hpool with ⟨rest, hfree, hfree2, hgen, hlt⟩ | ⟨_, hfree2, hgen, hidx⟩
      · refine ⟨by rw [hgen]; omega, hg.1, ?_⟩
        intro id hid
        rw [hgen]
        exact h3 id (by rw [hfree]; exact List.mem_cons_of_mem _ (by rw [← hfree2]; exact hid))
      · refine ⟨?_, hg.1, ?_⟩
        · have := hg.2.2 (by omega)
          rw [hgen, List.length_append, List.length_singleton]
          omega
        · intro id hid
          rw [hfree2] at hid
          cases hid
  | delete entity =>
    simp only [EntityCall.apply] at hstep
    obtain ⟨hvalid, _, hw1⟩ := deleteEntity_shape w w1 entity hstep
    have hlt : entity.index < w.pool.generations.length := by
      simp only [IsValid, EntityPool.IsValid, beq_iff_eq] at hvalid
      exact (List.getElem?_eq_some.mp hvalid).1
    rw [hw1]
    refine ⟨by simpa [EntityPool.Deallocate] using h1, h2, ?_⟩
    intro id hid
    simp only [EntityPool.Deallocate, List.mem_append, List.mem_singleton] at hid
    simp only [EntityPool.Deallocate, List.length_set]
    rcases hid with hid | hid
    · exact h3 id hid
    · rw [hid]; exact hlt

/-- The pool and the entity map after a run of `CreateEntity` and `DeleteEntity` calls
from a world without entities: the entity map has a slot for every slot of the pool, its
size is within its capacity, and every index waiting for reuse is a slot of the pool. -/
theorem runEntityCalls_slots (env : EntityEnv) (reg : TypeRegistry)
    (hgrow : ∀ capacity, capacity < env.growCapacity capacity) :
    ∀ (calls : List EntityCall) (w w2 : World),
      w.pool.generations.length ≤ w.entityMap.length →
      w.entityMap.length ≤ w.entityMapCapacity → w.pool.FreeIdsInRange →
      runEntityCalls env reg w calls = some w2 →
      w2.pool.generations.length ≤ w2.entityMap.length ∧
      w2.entityMap.length ≤ w2.entityMapCapacity ∧ w2.pool.FreeIdsInRange := by
  intro calls
  induction calls with
  | nil =>
    intro w w2 h1 h2 h3 hrun
    simp only [runEntityCalls, Option.some.injEq] at hrun
    subst hrun
    exact ⟨h1, h2, h3⟩
  | cons call calls ih =>
    intro w w2 h1 h2 h3 hrun
    simp only [runEntityCalls] at hrun
    cases hstep : call.apply env reg w with
    | none => simp [hstep] at hrun
    | some w1 =>
      simp only [hstep] at hrun
      obtain ⟨g1, g2, g3⟩ := entityCall_slots env reg hgrow call w w1 h1 h2 h3 hstep
      exact ih w1 w2 g1 g2 g3 hrun

end Game

namespace Game

open MemDb

/-- C27: in every world reached from a world without entities by `CreateEntity` and
`DeleteEntity` calls, when `Util::Array::Grow()` increases the capacity, a `CreateEntity`
that returns the entity `e` leaves the entity map with a slot for it,
`e.index < entityMap.Size()`; and a deferred `CreateEntity` does return. -/
theorem createEntity_index_has_slot (env : EntityEnv) (reg : TypeRegistry)
    (w0 w : World) (calls : List EntityCall) (info : EntityCreateInfo)
    (hgrow : ∀ capacity, capacity < env.growCapacity capacity)
    (hempty : w0.NoEntities) (hrun : runEntityCalls env reg w0 calls = some w) :
    (∀ w1 e, CreateEntity env reg w info = some (w1, e) → e.index < w1.entityMap.length) ∧
    (info.immediate = false → ∃ w1 e, CreateEntity env reg w info = some (w1, e)) := by
  obtain ⟨hgen0, hfree0, hmap0, _⟩ := hempty
  obtain ⟨h1, h2, h3⟩ := runEntityCalls_slots env reg hgrow calls w0 w
    (by rw [hgen0, hmap0]; exact Nat.le_refl _) (by rw [hmap0]; exact Nat.zero_le _)
    (fun id hid => by rw [hfree0] at hid; cases hid) hrun
  constructor
  · intro w1 e hc
    obtain ⟨g1, _, _⟩ := entityCall_slots env reg hgrow (EntityCall.create info) w w1 h1 h2 h3
      (by simp only [EntityCall.apply, hc])
    obtain ⟨hpool, _, _, _, _⟩ := createEntity_frame env reg w w1 info e hc
    have hlt : e.index < w1.pool.generations.length :=
      (List.getElem?_eq_some.mp (pool_allocate_spec _ _ _ hpool).1).1
    omega
  · intro hdef
    obtain ⟨pool2, e, hp⟩ := pool_allocate_some w.pool h3
    simp only [CreateEntity, hp, hdef, Bool.not_false, if_true]
    exact ⟨_, _, rfl⟩

/-- C27 at a concrete input: from the world with the category {Position} and no entity,
an immediate `CreateEntity`, a `DeleteEntity` of its entity and a deferred `CreateEntity`
are run; the next deferred `CreateEntity` returns an entity with a slot in the entity map. -/
theorem createEntity_index_has_slot_witness :
    ∃ w, runEntityCalls sampleEnv scenarioRegistry seedWorld
        [EntityCall.create { templateId := TemplateId.Invalid, blueprint := { id := 0 },
                             immediate := true },
         EntityCall.delete { index := 0, generation := 0 },
         EntityCall.create { templateId := TemplateId.Invalid, blueprint := { id := 0 },
                             immediate := false }] = some w ∧
      ∃ w1 e, CreateEntity sampleEnv scenarioRegistry w
          { templateId := TemplateId.Invalid, blueprint := { id := 0 }, immediate := false } =
          some (w1, e) ∧ e.index < w1.entityMap.length :=
  match Option.isSome_iff_exists.mp (by decide :
      (runEntityCalls sampleEnv scenarioRegistry seedWorld
        [EntityCall.create { templateId := TemplateId.Invalid, blueprint := { id := 0 },
                             immediate := true },
         EntityCall.delete { index := 0, generation := 0 },
         EntityCall.create { templateId := TemplateId.Invalid, blueprint := { id := 0 },
                             immediate := false }]).isSome = true) with
  | ⟨w, hrun⟩ =>
    ⟨w, hrun,
      match (createEntity_index_has_slot sampleEnv scenarioRegistry seedWorld w _
          { templateId := TemplateId.Invalid, blueprint := { id := 0 }, immediate := false }
          (fun capacity => Nat.lt_add_of_pos_right (by decide)) (by decide) hrun) with
      | ⟨hslot, hret⟩ =>
        match hret rfl with
        | ⟨w1, e, hc⟩ => ⟨w1, e, hc, hslot w1 e hc⟩⟩

end Game

namespace Game

open MemDb

/-- A list of different numbers below `n` has at most `n` elements. -/
theorem length_le_of_nodup_lt (l : List Nat) (n : Nat) (hnd : l.Nodup) (h : ∀ x ∈ l, x < n) :
    l.length ≤ n := by
  have hsub : l ⊆ List.range n := fun x hx => List.mem_range.2 (h x hx)
  have := (List.subperm_of_subset hnd hsub).length_le
  simpa using this

/-- One call on a pool whose released indices are different slots and that has `live`
allocated slots, `numEntities` being `live` as a 32-bit number: a `CreateEntity` makes it
`live + 1`; a `DeleteEntity` of an allocated slot finds `live > 0` and makes it `live - 1`. -/
theorem entityCall_count (env : EntityEnv) (reg : TypeRegistry) (call : EntityCall)
    (w w1 : World) (live : Nat) (h1 : w.pool.FreeIdsInRange) (h2 : w.pool.freeIds.Nodup)
    (h3 : w.pool.generations.length = live + w.pool.freeIds.length)
    (h4 : w.numEntities = live % 4294967296)
    (hstep : call.apply env reg w = some w1)
    (halloc : deletesAllocated env reg w [call] = true) :
    ∃ live1, w1.pool.FreeIdsInRange ∧ w1.pool.freeIds.Nodup ∧
      w1.pool.generations.length = live1 + w1.pool.freeIds.length ∧
      w1.numEntities = live1 % 4294967296 ∧
      live1 + countDeletes [call] = live + countCreates [call] := by
  cases call with
  | create info =>
    simp only [EntityCall.apply] at hstep
    cases hc : CreateEntity env reg w info with
    | none => simp [hc] at hstep
    | some res =>
      obtain ⟨w3, e⟩ := res
      simp only [hc, Option.some.injEq] at hstep
      subst hstep
      obtain ⟨hpool, hnum, _, _, _⟩ := createEntity_frame env reg w w3 info e hc
      refine ⟨live + 1, ?_, ?_, ?_, by rw [hnum, h4]; omega, by simp [countDeletes, countCreates]⟩
      · rcases pool_allocate_cases _ _ _ hpool with ⟨rest, hfree, hfree2, hgen, _⟩ | ⟨_, hfree2, _, _⟩
        · intro id hid
          rw [hgen]
          exact h1 id (by rw [hfree]; exact List.mem_cons_of_mem _ (by rw [← hfree2]; exact hid))
        · intro id hid
          rw [hfree2] at hid
          cases hid
      · rcases pool_allocate_cases _ _ _ hpool with ⟨rest, hfree, hfree2, _, _⟩ | ⟨_, hfree2, _, _⟩
        · rw [hfree] at h2
          rw [hfree2]
          exact (List.nodup_cons.1 h2).2
        · rw [hfree2]; exact List.nodup_nil
      · rcases pool_allocate_cases _ _ _ hpool with ⟨rest, hfree, hfree2, hgen, _⟩ | ⟨hfree, hfree2, hgen, _⟩
        · rw [hgen, hfree2, h3, hfree, List.length_cons]; omega
        · rw [hgen, hfree2, List.length_append, h3, hfree]; simp
  | delete entity =>
    simp only [EntityCall.apply] at hstep
    obtain ⟨hvalid, _, hw1⟩ := deleteEntity_shape w w1 entity hstep
    have hlt : entity.index < w.pool.generations.length := by
      simp only [IsValid, EntityPool.IsValid, beq_iff_eq] at hvalid
      exact (List.getElem?_eq_some.mp hvalid).1
    have hnot : entity.index ∉ w.pool.freeIds := by
      simp only [deletesAllocated, Bool.and_eq_true, decide_eq_true_eq] at halloc
      exact halloc.1
    have hnd : (w.pool.freeIds ++ [entity.index]).Nodup := by
      rw [List.nodup_append]
      refine ⟨h2, List.nodup_singleton _, ?_⟩
      intro a ha hb
      rw [List.mem_singleton] at hb
      exact hnot (hb ▸ ha)
    have hrange : ∀ x ∈ w.pool.freeIds ++ [entity.index], x < w.pool.generations.length := by
      intro x hx
      rw [List.mem_append, List.mem_singleton] at hx
      rcases hx with hx | hx
      · exact h1 x hx
      · rw [hx]; exact hlt
    have hle := length_le_of_nodup_lt _ _ hnd hrange
    rw [List.length_append, List.length_singleton] at hle
    have hpos : 0 < live := by omega
    rw [hw1]
    refine ⟨live - 1, ?_, hnd, ?_, ?_, ?_⟩
    · intro id hid
      simp only [EntityPool.Deallocate, List.length_set]
      exact hrange id hid
    · simp only [EntityPool.Deallocate, List.length_set, List.length_append,
        List.length_singleton]
      omega
    · show (w.numEntities + 4294967295) % 4294967296 = (live - 1) % 4294967296
      rw [h4]; omega
    · simp only [countDeletes, countCreates]; omega

/-- The count after a run of calls whose `DeleteEntity` calls are all given allocated
entities. -/
theorem runEntityCalls_count (env : EntityEnv) (reg : TypeRegistry) :
    ∀ (calls : List EntityCall) (w w2 : World) (live : Nat),
      w.pool.FreeIdsInRange → w.pool.freeIds.Nodup →
      w.pool.generations.length = live + w.pool.freeIds.length →
      w.numEntities = live % 4294967296 →
      runEntityCalls env reg w calls = some w2 →
      deletesAllocated env reg w calls = true →
      ∃ live2, w2.numEntities = live2 % 4294967296 ∧
        live2 + countDeletes calls = live + countCreates calls := by
  intro calls
  induction calls with
  | nil =>
    intro w w2 live _ _ _ h4 hrun _
    simp only [runEntityCalls, Option.some.injEq] at hrun
    subst hrun
    exact ⟨live, h4, rfl⟩
  | cons call calls ih =>
    intro w w2 live h1 h2 h3 h4 hrun halloc
    simp only [runEntityCalls] at hrun
    cases hstep : call.apply env reg w with
    | none => simp [hstep] at hrun
    | some w1 =>
      simp only [hstep] at hrun
      have hsplit : deletesAllocated env reg w [call] = true ∧
          deletesAllocated env reg w1 calls = true := by
        simp only [deletesAllocated, hstep, Bool.and_eq_true] at halloc ⊢
        exact ⟨⟨halloc.1, trivial⟩, halloc.2⟩
      obtain ⟨live1, g1, g2, g3, g4, hcount1⟩ :=
        entityCall_count env reg call w w1 live h1 h2 h3 h4 hstep hsplit.1
      obtain ⟨live2, hnum, hcount2⟩ := ih w1 w2 live1 g1 g2 g3 g4 hrun hsplit.2
      refine ⟨live2, hnum, ?_⟩
      cases call with
      | create info =>
        simp only [countDeletes, countCreates] at hcount1 ⊢
        omega
      | delete entity =>
        simp only [countDeletes, countCreates] at hcount1 ⊢
        omega

end Game

namespace Game

open MemDb

/-- C28, the divergence: from the world with the category {Position} and no entity, an
immediate `CreateEntity` returns (index 0, generation 0) and `DeleteEntity` of it
succeeds; the slot's generation is then 1 and its mapping still holds the row, because
the deallocation is only queued, so `DeleteEntity` of (index 0, generation 1) passes both
assertions too. After one `CreateEntity` and two successful `DeleteEntity` calls
`GetNumEntities()` is 4294967295: the 32-bit count has gone below zero. -/
theorem numEntities_wraps_below_zero :
    (runEntityCalls sampleEnv scenarioRegistry seedWorld
      [EntityCall.create { templateId := TemplateId.Invalid, blueprint := { id := 0 },
                           immediate := true },
       EntityCall.delete { index := 0, generation := 0 },
       EntityCall.delete { index := 0, generation := 1 }]).map GetNumEntities =
      some 4294967295 ∧
    GetNumEntities seedWorld = 0 ∧
    countCreates
      [EntityCall.create { templateId := TemplateId.Invalid, blueprint := { id := 0 },
                           immediate := true },
       EntityCall.delete { index := 0, generation := 0 },
       EntityCall.delete { index := 0, generation := 1 }] = 1 ∧
    countDeletes
      [EntityCall.create { templateId := TemplateId.Invalid, blueprint := { id := 0 },
                           immediate := true },
       EntityCall.delete { index := 0, generation := 0 },
       EntityCall.delete { index := 0, generation := 1 }] = 2 := by
  refine ⟨by decide, by decide, by decide, by decide⟩

/-- C28, amended: from a world without entities, after any sequence of successful
`CreateEntity` and `DeleteEntity` calls in which every `DeleteEntity` is given an entity
whose index is allocated at the time of the call, there are at most as many
`DeleteEntity` calls as `CreateEntity` calls and `GetNumEntities()` is their difference
as a 32-bit number; it is their difference when that is below `2^32`. `CreateEntity`
counts whether or not `immediate` is set, and `DeleteEntity` counts at call time. -/
theorem numEntities_counts_creates_minus_deletes (env : EntityEnv) (reg : TypeRegistry)
    (w0 w : World) (calls : List EntityCall) (hempty : w0.NoEntities)
    (hrun : runEntityCalls env reg w0 calls = some w)
    (halloc : deletesAllocated env reg w0 calls = true) :
    countDeletes calls ≤ countCreates calls ∧
    GetNumEntities w = (countCreates calls - countDeletes calls) % 4294967296 ∧
    (countCreates calls - countDeletes calls < 4294967296 →
      GetNumEntities w = countCreates calls - countDeletes calls) := by
  obtain ⟨hgen0, hfree0, _, hnum0⟩ := hempty
  obtain ⟨live, hnum, hcount⟩ := runEntityCalls_count env reg calls w0 w 0
    (fun id hid => by rw [hfree0] at hid; cases hid) (by rw [hfree0]; exact List.nodup_nil)
    (by rw [hgen0, hfree0]; rfl) (by rw [hnum0]) hrun halloc
  have hlive : live = countCreates calls - countDeletes calls := by omega
  refine ⟨by omega, by rw [← hlive]; exact hnum, fun hlt => ?_⟩
  rw [← hlive] at hlt ⊢
  rw [GetNumEntities, hnum, Nat.mod_eq_of_lt hlt]

/-- C28, amended, at a concrete input: a deferred and an immediate `CreateEntity`, then
`DeleteEntity` of the immediate entity. -/
theorem numEntities_counts_creates_minus_deletes_witness :
    ∃ w, runEntityCalls sampleEnv scenarioRegistry seedWorld
        [EntityCall.create { templateId := TemplateId.Invalid, blueprint := { id := 0 },
                             immediate := false },
         EntityCall.create { templateId := TemplateId.Invalid, blueprint := { id := 0 },
                             immediate := true },
         EntityCall.delete { index := 1, generation := 0 }] = some w ∧
      GetNumEntities w = 1 :=
  match Option.isSome_iff_exists.mp (by decide :
      (runEntityCalls sampleEnv scenarioRegistry seedWorld
        [EntityCall.create { templateId := TemplateId.Invalid, blueprint := { id := 0 },
                             immediate := false },
         EntityCall.create { templateId := TemplateId.Invalid, blueprint := { id := 0 },
                             immediate := true },
         EntityCall.delete { index := 1, generation := 0 }]).isSome = true) with
  | ⟨w, hrun⟩ =>
    ⟨w, hrun,
      (numEntities_counts_creates_minus_deletes sampleEnv scenarioRegistry seedWorld w _
        (by decide) hrun (by decide)).2.2 (by decide)⟩

end Game

namespace Game

open MemDb

/-- What a successful `Migrate` did: the tables and the mapping it read, and the world it
returns. -/
theorem migrate_inv (reg : TypeRegistry) (w w2 : World) (e : Entity) (newCategory : CategoryId)
    (r : InstanceId) (h : w.Migrate reg e newCategory = some (w2, r)) :
    ∃ mapping row oldCat newCat src dst src1 src2 moved,
      GetEntityMapping w e = some mapping ∧ mapping.inst = some row ∧
      w.GetCategory mapping.category = some oldCat ∧ w.GetCategory newCategory = some newCat ∧
      w.db.GetTable oldCat.instanceTable = some src ∧
      w.db.GetTable newCat.instanceTable = some dst ∧
      (w.db.SetTable newCat.instanceTable
        (src.CopyShared row (dst.AllocateRow reg e).1 dst.numRows)).GetTable
          oldCat.instanceTable = some src1 ∧
      src1.FreeRow row = some (src2, moved) ∧ r = dst.numRows ∧
      w2 = { w with
             db := (w.db.SetTable newCat.instanceTable
               (src.CopyShared row (dst.AllocateRow reg e).1 dst.numRows)).SetTable
                 oldCat.instanceTable src2
             entityMap := (match moved with
               | some displaced =>
                 w.entityMap.set displaced.index { category := mapping.category, inst := some row }
               | none => w.entityMap).set e.index
                 { category := newCategory, inst := some dst.numRows } } := by
  unfold World.Migrate at h
  cases hm : GetEntityMapping w e with
  | none => simp [hm] at h
  | some mapping =>
    simp only [hm] at h
    cases hi : mapping.inst with
    | none => simp [hi] at h
    | some row =>
      cases ho : w.GetCategory mapping.category with
      | none => simp [hi, ho] at h
      | some oldCat =>
        cases hn : w.GetCategory newCategory with
        | none => simp [hi, ho, hn] at h
        | some newCat =>
          simp only [hi, ho, hn] at h
          cases hs : w.db.GetTable oldCat.instanceTable with
          | none => simp [hs] at h
          | some src =>
            cases hd : w.db.GetTable newCat.instanceTable with
            | none => simp [hs, hd] at h
            | some dst =>
              simp only [hs, hd] at h
              cases hs1 : (w.db.SetTable newCat.instanceTable
                  (src.CopyShared row (dst.AllocateRow reg e).1 (dst.AllocateRow reg e).2)).GetTable
                    oldCat.instanceTable with
              | none => simp [hs1] at h
              | some src1 =>
                simp only [hs1] at h
                cases hf : src1.FreeRow row with
                | none => simp [hf] at h
                | some res =>
                  obtain ⟨src2, moved⟩ := res
                  simp only [hf, Option.some.injEq, Prod.mk.injEq] at h
                  obtain ⟨rfl, rfl⟩ := h
                  exact ⟨mapping, row, oldCat, newCat, src, dst, src1, src2, moved,
                    rfl, hi, ho, rfl, hs, hd, hs1, hf, rfl, rfl⟩

end Game

namespace MemDb

theorem rowParallel_allocateRow (reg : TypeRegistry) (t : Table) (e : Game.Entity)
    (h : t.RowParallel) : (t.AllocateRow reg e).1.RowParallel := by
  obtain ⟨hlen, hrows, hown⟩ := h
  refine ⟨?_, ?_, ?_⟩
  · simp [Table.AllocateRow, hlen]
  · intro buffer hb
    obtain ⟨j, hjlt, hget⟩ := List.getElem_of_mem hb
    have hj : (t.AllocateRow reg e).1.columns[j]? = some buffer := by
      rw [List.getElem?_eq_getElem hjlt, hget]
    simp only [Table.AllocateRow, List.getElem?_zipWith] at hj
    cases hp : t.properties[j]? with
    | none => simp [hp] at hj
    | some pid =>
      cases hc : t.columns[j]? with
      | none => simp [hp, hc] at hj
      | some col =>
        have hcl : col.length = t.numRows := hrows _ (List.getElem?_mem hc)
        simp only [hp, hc, Option.some.injEq] at hj
        subst hj
        show _ = t.numRows + 1
        simp [hcl]
  · simp [Table.AllocateRow, hown]

theorem rowParallel_copyShared (src dst : Table) (row newRow : Nat) (h : dst.RowParallel) :
    (src.CopyShared row dst newRow).RowParallel := by
  obtain ⟨hlen, hrows, hown⟩ := h
  refine ⟨?_, ?_, hown⟩
  · simp [Table.CopyShared, hlen]
  · intro buffer hb
    obtain ⟨j, hjlt, hget⟩ := List.getElem_of_mem hb
    have hj : (src.CopyShared row dst newRow).columns[j]? = some buffer := by
      rw [List.getElem?_eq_getElem hjlt, hget]
    simp only [Table.CopyShared, List.getElem?_zipWith] at hj
    cases hp : dst.properties[j]? with
    | none => simp [hp] at hj
    | some pid =>
      cases hc : dst.columns[j]? with
      | none => simp [hp, hc] at hj
      | some col =>
        have hcl : col.length = dst.numRows := hrows _ (List.getElem?_mem hc)
        simp only [hp, hc, Option.some.injEq] at hj
        subst hj
        show _ = dst.numRows
        split
        · split <;> simp [hcl]
        · simp [hcl]

theorem rowParallel_freeRow (t t2 : Table) (row : Nat) (moved : Option Game.Entity)
    (h : t.RowParallel) (hfree : t.FreeRow row = some (t2, moved)) : t2.RowParallel := by
  obtain ⟨hlen, hrows, hown⟩ := h
  unfold Table.FreeRow at hfree
  by_cases hlt : row < t.numRows
  · simp only [if_pos hlt, Option.some.injEq, Prod.mk.injEq] at hfree
    obtain ⟨rfl, _⟩ := hfree
    refine ⟨by simp [hlen], ?_, by simp [length_swapRemove, hown]⟩
    intro buffer hb
    simp only [List.mem_map] at hb
    obtain ⟨b, hbm, rfl⟩ := hb
    rw [length_swapRemove, hrows b hbm]
  · simp [if_neg hlt] at hfree

theorem rowParallel_getTable (db : Database) (tid : TableId) (t : Table) (h : db.RowParallel)
    (ht : db.GetTable tid = some t) : t.RowParallel :=
  h t (List.getElem?_mem ht)

theorem rowParallel_setTable (db : Database) (tid : TableId) (t : Table) (h : db.RowParallel)
    (ht : t.RowParallel) : (db.SetTable tid t).RowParallel := by
  intro t2 hmem
  simp only [Database.SetTable] at hmem
  rcases List.mem_or_eq_of_mem_set hmem with h1 | h1
  · exact h t2 h1
  · rw [h1]; exact ht

theorem rowParallel_createTable (db : Database) (properties : List PropertyId)
    (h : db.RowParallel) : (db.CreateTable properties).1.RowParallel := by
  intro t hmem
  simp only [Database.CreateTable, List.mem_append, List.mem_singleton] at hmem
  rcases hmem with h1 | h1
  · exact h t h1
  · rw [h1]
    refine ⟨by simp, ?_, rfl⟩
    intro buffer hb
    simp only [List.mem_map] at hb
    obtain ⟨_, _, rfl⟩ := hb
    rfl

theorem rowParallel_writeValue (db db2 : Database) (tid : TableId) (col : ColumnIndex)
    (row : Nat) (value : Value) (n : Nat) (h : db.RowParallel)
    (hw : db.WriteValue tid col row value n = some db2) : db2.RowParallel := by
  unfold Database.WriteValue at hw
  cases ht : db.GetTable tid with
  | none => simp [ht] at hw
  | some t =>
    simp only [ht] at hw
    cases hc : t.columns[col]? with
    | none => simp [hc] at hw
    | some buffer =>
      simp only [hc] at hw
      cases hcell : buffer[row]? with
      | none => simp [hcell] at hw
      | some cell =>
        simp only [hcell, Option.some.injEq] at hw
        subst hw
        obtain ⟨hlen, hrows, hown⟩ := rowParallel_getTable db tid t h ht
        refine rowParallel_setTable db tid _ h ⟨by simp [hlen], ?_, hown⟩
        intro b hb
        rcases List.mem_or_eq_of_mem_set hb with h1 | h1
        · exact hrows b h1
        · rw [h1, List.length_set]
          exact hrows buffer (List.getElem?_mem hc)

end MemDb

namespace Game

open MemDb

/-- What a successful `Execute(Op::RegisterProperty)` did: the category it resolved (found
in the map, or created), the migration, and the optional write of the value. -/
theorem executeRegister_inv (H : HashScheme) (reg : TypeRegistry) (op : Op.RegisterProperty)
    (w w3 : World) (h : ExecuteRegisterProperty H reg op w = some w3) :
    ∃ mapping cat w1 k2 w2 r,
      GetEntityMapping w op.entity = some mapping ∧
      w.GetCategory mapping.category = some cat ∧
      ((w.catIndexMap.lookup (H.AddToHash cat.hash op.pid) = some k2 ∧ w1 = w) ∨
        (w.catIndexMap.lookup (H.AddToHash cat.hash op.pid) = none ∧
          ∃ tbl, w.db.GetTable cat.instanceTable = some tbl ∧
            w.CreateCategory H { properties := tbl.properties ++ [op.pid] } = (w1, k2))) ∧
      w1.Migrate reg op.entity k2 = some (w2, r) ∧
      (w3 = w2 ∨
        ∃ value newCat cid db, op.value = some value ∧ w2.GetCategory k2 = some newCat ∧
          w2.db.WriteValue newCat.instanceTable cid r value (reg.TypeSize op.pid) = some db ∧
          w3 = { w2 with db := db }) := by
  unfold ExecuteRegisterProperty at h
  cases hm : GetEntityMapping w op.entity with
  | none => simp [hm] at h
  | some mapping =>
    simp only [hm] at h
    cases hc : w.GetCategory mapping.category with
    | none => simp [hc] at h
    | some cat =>
      simp only [hc] at h
      have hmig : ∀ (w1 : World) (k2 : CategoryId),
          (match w1.Migrate reg op.entity k2 with
            | none => none
            | some (w2, newInstance) =>
              match op.value with
              | none => some w2
              | some value =>
                match w2.GetCategory k2 with
                | none => none
                | some newCat =>
                  match w2.db.GetColumnId newCat.instanceTable op.pid with
                  | none => none
                  | some cid =>
                    match w2.db.WriteValue newCat.instanceTable cid newInstance value
                        (reg.TypeSize op.pid) with
                    | some db => some { w2 with db := db }
                    | none => none) = some w3 →
          ∃ w2 r, w1.Migrate reg op.entity k2 = some (w2, r) ∧
            (w3 = w2 ∨
              ∃ value newCat cid db, op.value = some value ∧ w2.GetCategory k2 = some newCat ∧
                w2.db.WriteValue newCat.instanceTable cid r value (reg.TypeSize op.pid) = some db ∧
                w3 = { w2 with db := db }) := by
        intro w1 k2 h1
        cases hmg : w1.Migrate reg op.entity k2 with
        | none => simp [hmg] at h1
        | some res =>
          obtain ⟨w2, r⟩ := res
          simp only [hmg] at h1
          refine ⟨w2, r, rfl, ?_⟩
          cases hv : op.value with
          | none =>
            simp only [hv, Option.some.injEq] at h1
            exact Or.inl h1.symm
          | some value =>
            simp only [hv] at h1
            cases hnc : w2.GetCategory k2 with
            | none => simp [hnc] at h1
            | some newCat =>
              simp only [hnc] at h1
              cases hcid : w2.db.GetColumnId newCat.instanceTable op.pid with
              | none => simp [hcid] at h1
              | some cid =>
                simp only [hcid] at h1
                cases hwv : w2.db.WriteValue newCat.instanceTable cid r value
                    (reg.TypeSize op.pid) with
                | none => simp [hwv] at h1
                | some db =>
                  simp only [hwv, Option.some.injEq] at h1
                  exact Or.inr ⟨value, newCat, cid, db, rfl, rfl, hwv, h1.symm⟩
      cases hl : w.catIndexMap.lookup (H.AddToHash cat.hash op.pid) with
      | some cid =>
        simp only [hl] at h
        obtain ⟨w2, r, hmg, hfin⟩ := hmig w cid h
        exact ⟨mapping, cat, w, cid, w2, r, rfl, hc, Or.inl ⟨hl, rfl⟩, hmg, hfin⟩
      | none =>
        simp only [hl] at h
        cases ht : w.db.GetTable cat.instanceTable with
        | none => simp [ht] at h
        | some tbl =>
          simp only [ht] at h
          obtain ⟨w2, r, hmg, hfin⟩ := hmig _ _ h
          exact ⟨mapping, cat, _, _, w2, r, rfl, hc, Or.inr ⟨hl, tbl, ht, rfl⟩, hmg, hfin⟩

/-- What a successful `Execute(Op::DeregisterProperty)` did: the category it resolved
(found in the map, or created for the remaining columns), and the migration. -/
theorem executeDeregister_inv (H : HashScheme) (reg : TypeRegistry)
    (op : Op.DeregisterProperty) (w w2 : World)
    (h : ExecuteDeregisterProperty H reg op w = some w2) :
    ∃ mapping cat w1 k2 r,
      GetEntityMapping w op.entity = some mapping ∧
      w.GetCategory mapping.category = some cat ∧
      ((w.catIndexMap.lookup (H.RemoveFromHash cat.hash op.pid) = some k2 ∧ w1 = w) ∨
        (w.catIndexMap.lookup (H.RemoveFromHash cat.hash op.pid) = none ∧
          ∃ tbl properties, w.db.GetTable cat.instanceTable = some tbl ∧
            tbl.properties.length ≠ 0 ∧
            copyWithout op.pid tbl.properties
              (List.replicate (tbl.properties.length - 1) InvalidPropertyId) 0 = some properties ∧
            w.CreateCategory H { properties := properties } = (w1, k2))) ∧
      w1.Migrate reg op.entity k2 = some (w2, r) := by
  unfold ExecuteDeregisterProperty at h
  cases hm : GetEntityMapping w op.entity with
  | none => simp [hm] at h
  | some mapping =>
    simp only [hm] at h
    cases hc : w.GetCategory mapping.category with
    | none => simp [hc] at h
    | some cat =>
      simp only [hc] at h
      have hmig : ∀ (w1 : World) (k2 : CategoryId),
          (match w1.Migrate reg op.entity k2 with
            | none => none
            | some (w2, _) => some w2) = some w2 →
          ∃ r, w1.Migrate reg op.entity k2 = some (w2, r) := by
        intro w1 k2 h1
        cases hmg : w1.Migrate reg op.entity k2 with
        | none => simp [hmg] at h1
        | some res =>
          obtain ⟨w2a, r⟩ := res
          simp only [hmg, Option.some.injEq] at h1
          subst h1
          exact ⟨r, rfl⟩
      cases hl : w.catIndexMap.lookup (H.RemoveFromHash cat.hash op.pid) with
      | some cid =>
        simp only [hl] at h
        obtain ⟨r, hmg⟩ := hmig w cid h
        exact ⟨mapping, cat, w, cid, r, rfl, hc, Or.inl ⟨hl, rfl⟩, hmg⟩
      | none =>
        simp only [hl] at h
        cases ht : w.db.GetTable cat.instanceTable with
        | none => simp [ht] at h
        | some tbl =>
          simp only [ht] at h
          by_cases hz : tbl.properties.length = 0
          · simp [hz] at h
          · simp only [if_neg hz] at h
            cases hcw : copyWithout op.pid tbl.properties
                (List.replicate (tbl.properties.length - 1) InvalidPropertyId) 0 with
            | none => simp [hcw] at h
            | some properties =>
              simp only [hcw] at h
              obtain ⟨r, hmg⟩ := hmig _ _ h
              exact ⟨mapping, cat, _, _, r, rfl, hc,
                Or.inr ⟨hl, tbl, properties, ht, hz, hcw, rfl⟩, hmg⟩

/-- A property of the state that every executed op keeps is kept by the drain loop. -/
theorem drain_preserves {α σ : Type} (execute : α → σ → Option σ) (P : σ → Prop)
    (hstep : ∀ op s s1, P s → execute op s = some s1 → P s1) :
    ∀ (queue : List α) (s s1 : σ), P s → drain execute queue s = some s1 → P s1 := by
  intro queue
  induction queue with
  | nil =>
    intro s s1 hp h
    simp only [drain, Option.some.injEq] at h
    subst h
    exact hp
  | cons op queue ih =>
    intro s s1 hp h
    simp only [drain] at h
    cases he : execute op s with
    | none => simp [he] at h
    | some s2 =>
      simp only [he] at h
      exact ih s2 s1 (hstep op s s2 hp he) h

/-- A property of the world that both `Execute` overloads keep is kept by `Dispatch`. -/
theorem dispatch_preserves (H : HashScheme) (reg : TypeRegistry) (P : World → Prop)
    (hreg : ∀ op w w1, P w → ExecuteRegisterProperty H reg op w = some w1 → P w1)
    (hdereg : ∀ op w w1, P w → ExecuteDeregisterProperty H reg op w = some w1 → P w1)
    (a a1 : OpBufferAllocator) (buffer : OpBuffer) (b1 : Option OpBuffer) (w w1 : World)
    (hp : P w) (h : Dispatch H reg a buffer w = some (w1, a1, b1)) : P w1 := by
  unfold Dispatch DispatchWith at h
  cases hq : a.Get buffer with
  | none => simp [hq] at h
  | some queues =>
    simp only [hq] at h
    cases h1 : drain (ExecuteRegisterProperty H reg) queues.1 w with
    | none => simp [h1] at h
    | some s1 =>
      simp only [h1] at h
      cases h2 : drain (ExecuteDeregisterProperty H reg) queues.2 s1 with
      | none => simp [h2] at h
      | some s2 =>
        simp only [h2, Option.some.injEq, Prod.mk.injEq] at h
        obtain ⟨rfl, _, _⟩ := h
        exact drain_preserves _ P hdereg _ _ _
          (drain_preserves _ P hreg _ _ _ hp h1) h2

end Game

namespace Game

open MemDb

theorem rowParallel_migrate (reg : TypeRegistry) (w w2 : World) (e : Entity)
    (newCategory : CategoryId) (r : InstanceId) (hp : w.db.RowParallel)
    (h : w.Migrate reg e newCategory = some (w2, r)) : w2.db.RowParallel := by
  obtain ⟨mapping, row, oldCat, newCat, src, dst, src1, src2, moved, _, _, _, _, _, hdst,
    hsrc1, hfree, _, rfl⟩ := migrate_inv reg w w2 e newCategory r h
  have hdstp := rowParallel_getTable w.db _ dst hp hdst
  have h1 : (w.db.SetTable newCat.instanceTable
      (src.CopyShared row (dst.AllocateRow reg e).1 dst.numRows)).RowParallel :=
    rowParallel_setTable _ _ _ hp
      (rowParallel_copyShared _ _ _ _ (rowParallel_allocateRow reg dst e hdstp))
  exact rowParallel_setTable _ _ _ h1
    (rowParallel_freeRow _ _ _ _ (rowParallel_getTable _ _ src1 h1 hsrc1) hfree)

theorem rowParallel_createCategory (H : HashScheme) (w : World) (info : CategoryCreateInfo)
    (hp : w.db.RowParallel) : (w.CreateCategory H info).1.db.RowParallel := by
  unfold World.CreateCategory
  cases hl : w.catIndexMap.lookup (H.hashOf info.properties) with
  | some cid => exact hp
  | none => exact rowParallel_createTable w.db info.properties hp

theorem rowParallel_executeRegister (H : HashScheme) (reg : TypeRegistry)
    (op : Op.RegisterProperty) (w w3 : World) (hp : w.db.RowParallel)
    (h : ExecuteRegisterProperty H reg op w = some w3) : w3.db.RowParallel := by
  obtain ⟨mapping, cat, w1, k2, w2, r, _, _, hfound, hmig, hfin⟩ :=
    executeRegister_inv H reg op w w3 h
  have h1 : w1.db.RowParallel := by
    rcases hfound with ⟨_, rfl⟩ | ⟨_, tbl, _, hcc⟩
    · exact hp
    · have := rowParallel_createCategory H w { properties := tbl.properties ++ [op.pid] } hp
      rw [hcc] at this
      exact this
  have h2 := rowParallel_migrate reg w1 w2 op.entity k2 r h1 hmig
  rcases hfin with rfl | ⟨value, newCat, cid, db, _, _, hwv, rfl⟩
  · exact h2
  · exact rowParallel_writeValue _ _ _ _ _ _ _ h2 hwv

theorem rowParallel_executeDeregister (H : HashScheme) (reg : TypeRegistry)
    (op : Op.DeregisterProperty) (w w2 : World) (hp : w.db.RowParallel)
    (h : ExecuteDeregisterProperty H reg op w = some w2) : w2.db.RowParallel := by
  obtain ⟨mapping, cat, w1, k2, r, _, _, hfound, hmig⟩ := executeDeregister_inv H reg op w w2 h
  have h1 : w1.db.RowParallel := by
    rcases hfound with ⟨_, rfl⟩ | ⟨_, tbl, properties, _, _, _, hcc⟩
    · exact hp
    · have := rowParallel_createCategory H w { properties := properties } hp
      rw [hcc] at this
      exact this
  exact rowParallel_migrate reg w1 w2 op.entity k2 r h1 hmig

theorem rowParallel_placeInstance (reg : TypeRegistry) (w w2 : World) (e : Entity)
    (category : Option CategoryId) (hp : w.db.RowParallel)
    (h : w.PlaceInstance reg e category = some w2) : w2.db.RowParallel := by
  obtain ⟨k, cat, t, _, _, ht, _, rfl⟩ := placeInstance_some reg w w2 e category h
  exact rowParallel_setTable _ _ _ hp
    (rowParallel_allocateRow reg t e (rowParallel_getTable _ _ t hp ht))

/-- What a successful `DeallocateInstance` did. -/
theorem deallocateInstance_inv (w w2 : World) (e : Entity)
    (h : w.DeallocateInstance e = some w2) :
    ∃ mapping row cat t t2 moved,
      w.entityMap[e.index]? = some mapping ∧ mapping.inst = some row ∧
      w.GetCategory mapping.category = some cat ∧
      w.db.GetTable cat.instanceTable = some t ∧ t.FreeRow row = some (t2, moved) ∧
      w2 = { w with
             db := w.db.SetTable cat.instanceTable t2
             entityMap := (match moved with
               | some displaced =>
                 w.entityMap.set displaced.index { category := mapping.category, inst := some row }
               | none => w.entityMap).set e.index EntityMapping.unplaced } := by
  unfold World.DeallocateInstance at h
  cases hm : w.entityMap[e.index]? with
  | none => simp [hm] at h
  | some mapping =>
    simp only [hm] at h
    cases hi : mapping.inst with
    | none => simp [hi] at h
    | some row =>
      cases hc : w.GetCategory mapping.category with
      | none => simp [hi, hc] at h
      | some cat =>
        simp only [hi, hc] at h
        cases ht : w.db.GetTable cat.instanceTable with
        | none => simp [ht] at h
        | some t =>
          simp only [ht] at h
          cases hf : t.FreeRow row with
          | none => simp [hf] at h
          | some res =>
            obtain ⟨t2, moved⟩ := res
            simp only [hf, Option.some.injEq] at h
            exact ⟨mapping, row, cat, t, t2, moved, rfl, hi, hc, ht, hf, h.symm⟩

theorem rowParallel_deallocateInstance (w w2 : World) (e : Entity) (hp : w.db.RowParallel)
    (h : w.DeallocateInstance e = some w2) : w2.db.RowParallel := by
  obtain ⟨mapping, row, cat, t, t2, moved, _, _, _, ht, hf, rfl⟩ := deallocateInstance_inv w w2 e h
  exact rowParallel_setTable _ _ _ hp
    (rowParallel_freeRow _ _ _ _ (rowParallel_getTable _ _ t hp ht) hf)

/-- What a successful `CreateEntity` did to the tables and the mappings: nothing but the
growth of the entity map when it is deferred, and a placement after that growth when it
is immediate. -/
theorem createEntity_inv (env : EntityEnv) (reg : TypeRegistry) (w w2 : World)
    (info : EntityCreateInfo) (e : Entity) (h : CreateEntity env reg w info = some (w2, e)) :
    ∃ w1 : World, w1.db = w.db ∧ w1.categories = w.categories ∧ w1.catIndexMap = w.catIndexMap ∧
      w1.entityMap = (growEntityMap env w e.index).entityMap ∧
      ((w2.db = w1.db ∧ w2.categories = w1.categories ∧ w2.catIndexMap = w1.catIndexMap ∧
          w2.entityMap = w1.entityMap) ∨
        ∃ category, w1.PlaceInstance reg e category = some w2) := by
  have hpool := createEntity_pool env reg w w2 info e h
  unfold CreateEntity at h
  rw [hpool] at h
  simp only at h
  obtain ⟨w1, hw1⟩ : ∃ w1 : World, w1 = growEntityMap env
      { w with pool := w2.pool, numEntities := (w.numEntities + 1) % 4294967296 } e.index :=
    ⟨_, rfl⟩
  rw [← hw1] at h
  have hdb : w1.db = w.db := by rw [hw1]; unfold growEntityMap; split <;> rfl
  have hcat : w1.categories = w.categories := by rw [hw1]; unfold growEntityMap; split <;> rfl
  have hmap : w1.catIndexMap = w.catIndexMap := by rw [hw1]; unfold growEntityMap; split <;> rfl
  have hem : w1.entityMap = (growEntityMap env w e.index).entityMap := by
    rw [hw1]; unfold growEntityMap; split <;> rfl
  refine ⟨w1, hdb, hcat, hmap, hem, ?_⟩
  by_cases himm : info.immediate = true
  · simp only [himm, Bool.not_true, Bool.false_eq_true, if_false] at h
    split at h
    · cases hp : w1.AllocateInstanceTemplate env reg e (createCommand info e).tid with
      | none => simp [hp] at h
      | some w3 =>
        simp only [hp, Option.some.injEq, Prod.mk.injEq, and_true] at h
        subst h
        exact Or.inr ⟨_, hp⟩
    · cases hp : w1.AllocateInstanceBlueprint env reg e
          { id := (createCommand info e).tid.blueprintId } with
      | none => simp [hp] at h
      | some w3 =>
        simp only [hp, Option.some.injEq, Prod.mk.injEq, and_true] at h
        subst h
        exact Or.inr ⟨_, hp⟩
  · have hf : info.immediate = false := by simpa using himm
    simp only [hf, Bool.not_false, if_true, Option.some.injEq, Prod.mk.injEq, and_true] at h
    subst h
    exact Or.inl ⟨rfl, rfl, rfl, rfl⟩

/-- One call keeps every table row-parallel. -/
theorem rowParallel_apply (env : EntityEnv) (H : HashScheme) (reg : TypeRegistry)
    (call : WorldCall) (w w1 : World) (hp : w.db.RowParallel)
    (h : call.apply env H reg w = some w1) : w1.db.RowParallel := by
  cases call with
  | createEntity info =>
    simp only [WorldCall.apply] at h
    cases hc : CreateEntity env reg w info with
    | none => simp [hc] at h
    | some res =>
      obtain ⟨w2, e⟩ := res
      simp only [hc, Option.some.injEq] at h
      subst h
      obtain ⟨w0, hdb, _, _, _, hcase⟩ := createEntity_inv env reg w w2 info e hc
      rcases hcase with ⟨hdb2, _, _, _⟩ | ⟨category, hplace⟩
      · rw [hdb2, hdb]; exact hp
      · exact rowParallel_placeInstance reg w0 w2 e category (by rw [hdb]; exact hp) hplace
  | deleteEntity entity =>
    simp only [WorldCall.apply] at h
    obtain ⟨_, _, rfl⟩ := deleteEntity_shape w w1 entity h
    exact hp
  | applyAllocate =>
    simp only [WorldCall.apply, ApplyAllocateCommand] at h
    cases hq : w.allocQueue with
    | nil => simp [hq] at h
    | cons cmd queue =>
      simp only [hq] at h
      split at h
      · exact rowParallel_placeInstance reg { w with allocQueue := queue } w1 cmd.entity
          (env.templateCategory cmd.tid) hp h
      · exact rowParallel_placeInstance reg { w with allocQueue := queue } w1 cmd.entity
          (env.blueprintCategory cmd.tid.blueprintId) hp h
  | applyDealloc =>
    simp only [WorldCall.apply, ApplyDeallocCommand] at h
    cases hq : w.deallocQueue with
    | nil => simp [hq] at h
    | cons cmd queue =>
      simp only [hq] at h
      exact rowParallel_deallocateInstance { w with deallocQueue := queue } w1 cmd.entity hp h
  | dispatch a buffer =>
    simp only [WorldCall.apply] at h
    cases hd : Dispatch H reg a buffer w with
    | none => simp [hd] at h
    | some res =>
      obtain ⟨w2, a1, b1⟩ := res
      simp only [hd, Option.some.injEq] at h
      subst h
      exact dispatch_preserves H reg (fun w => w.db.RowParallel)
        (fun op w w1 hp h => rowParallel_executeRegister H reg op w w1 hp h)
        (fun op w w1 hp h => rowParallel_executeDeregister H reg op w w1 hp h)
        a a1 buffer b1 w w2 hp hd

end Game

namespace Game

open MemDb

/-- C24: after any sequence of successful calls of `CreateEntity`, `DeleteEntity`,
applications of queued commands and `Dispatch`, that is, after any sequence of row
allocations, row removals and migrations, every table of a database whose tables were
row-parallel at the start has one column buffer per schema entry, all of its columns have
the same length, and that length is the table's row count, the number
`GetNumInstances` reports for a category of the table. -/
theorem columns_have_row_count_length (env : EntityEnv) (H : HashScheme) (reg : TypeRegistry)
    (w0 w : World) (calls : List WorldCall) (hstart : w0.db.RowParallel)
    (hrun : runWorldCalls env H reg w0 calls = some w) :
    (∀ t ∈ w.db.tables, t.columns.length = t.properties.length ∧
      (∀ buffer ∈ t.columns, buffer.length = t.numRows) ∧
      ∀ b1 ∈ t.columns, ∀ b2 ∈ t.columns, b1.length = b2.length) ∧
    (∀ k n, GetNumInstances w k = some n →
      ∃ cat t, w.GetCategory k = some cat ∧ w.db.GetTable cat.instanceTable = some t ∧
        ∀ buffer ∈ t.columns, buffer.length = n) := by
  have hp : w.db.RowParallel := by
    induction calls generalizing w0 with
    | nil =>
      simp only [runWorldCalls, Option.some.injEq] at hrun
      subst hrun
      exact hstart
    | cons call calls ih =>
      simp only [runWorldCalls] at hrun
      cases hstep : call.apply env H reg w0 with
      | none => simp [hstep] at hrun
      | some w1 =>
        simp only [hstep] at hrun
        exact ih w1 (rowParallel_apply env H reg call w0 w1 hstart hstep) hrun
  constructor
  · intro t ht
    obtain ⟨hlen, hrows, _⟩ := hp t ht
    exact ⟨hlen, hrows, fun b1 h1 b2 h2 => by rw [hrows b1 h1, hrows b2 h2]⟩
  · intro k n hn
    unfold GetNumInstances at hn
    cases hc : w.GetCategory k with
    | none => simp [hc] at hn
    | some cat =>
      simp only [hc, Database.GetNumRows] at hn
      cases ht : w.db.GetTable cat.instanceTable with
      | none => simp [ht] at hn
      | some t =>
        simp only [ht, Option.some.injEq] at hn
        subst hn
        exact ⟨cat, t, rfl, ht, (rowParallel_getTable _ _ t hp ht).2.1⟩

end Game

namespace Game

open MemDb

/-- C24 at a concrete input: two immediate `CreateEntity` calls, a `Dispatch` that adds
`Health` to the first entity, `DeleteEntity` of the second entity and the application of
its queued deallocation. -/
theorem columns_have_row_count_length_witness :
    ∃ w, runWorldCalls sampleEnv additiveHash scenarioRegistry seedWorld
        [WorldCall.createEntity { templateId := TemplateId.Invalid, blueprint := { id := 0 },
                                  immediate := true },
         WorldCall.createEntity { templateId := TemplateId.Invalid, blueprint := { id := 0 },
                                  immediate := true },
         WorldCall.dispatch
           { entries := [([{ entity := { index := 0, generation := 0 }, pid := 1,
                             value := some [50, 0, 0, 0] }], [])], freeIds := [] } 0,
         WorldCall.deleteEntity { index := 1, generation := 0 },
         WorldCall.applyDealloc] = some w ∧
      w.db.tables.length = 2 ∧
      ∀ t ∈ w.db.tables, ∀ buffer ∈ t.columns, buffer.length = t.numRows :=
  match Option.isSome_iff_exists.mp (by decide :
      (runWorldCalls sampleEnv additiveHash scenarioRegistry seedWorld
        [WorldCall.createEntity { templateId := TemplateId.Invalid, blueprint := { id := 0 },
                                  immediate := true },
         WorldCall.createEntity { templateId := TemplateId.Invalid, blueprint := { id := 0 },
                                  immediate := true },
         WorldCall.dispatch
           { entries := [([{ entity := { index := 0, generation := 0 }, pid := 1,
                             value := some [50, 0, 0, 0] }], [])], freeIds := [] } 0,
         WorldCall.deleteEntity { index := 1, generation := 0 },
         WorldCall.applyDealloc]).isSome = true) with
  | ⟨w, hrun⟩ =>
    ⟨w, hrun, by
      have h : (runWorldCalls sampleEnv additiveHash scenarioRegistry seedWorld
        [WorldCall.createEntity { templateId := TemplateId.Invalid, blueprint := { id := 0 },
                                  immediate := true },
         WorldCall.createEntity { templateId := TemplateId.Invalid, blueprint := { id := 0 },
                                  immediate := true },
         WorldCall.dispatch
           { entries := [([{ entity := { index := 0, generation := 0 }, pid := 1,
                             value := some [50, 0, 0, 0] }], [])], freeIds := [] } 0,
         WorldCall.deleteEntity { index := 1, generation := 0 },
         WorldCall.applyDealloc]).map (fun w => w.db.tables.length) = some 2 := by decide
      rw [hrun] at h
      simpa using h,
      fun t ht => ((columns_have_row_count_length sampleEnv additiveHash scenarioRegistry
        seedWorld w _ (by decide) hrun).1 t ht).2.1⟩

end Game

namespace MemDb

/-- Freeing row `row` of a row-parallel table when it is not the last row: the last row's
values and owner are in `row` afterwards, the other remaining rows keep theirs, the table
has one row less, and the owner of the last row is reported as relocated. -/
theorem freeRow_relocates (t : Table) (row : Nat) (o : Game.Entity) (hpar : t.RowParallel)
    (hrow : row + 1 < t.numRows) (hlast : t.owners[t.numRows - 1]? = some o) :
    ∃ t2, t.FreeRow row = some (t2, some o) ∧ t2.numRows = t.numRows - 1 ∧
      t2.properties = t.properties ∧
      (∀ j, t2.GetValue j row = t.GetValue j (t.numRows - 1)) ∧
      (∀ j r, r < t.numRows - 1 → r ≠ row → t2.GetValue j r = t.GetValue j r) ∧
      t2.owners[row]? = some o ∧
      (∀ buffer ∈ t2.columns, buffer.length = t.numRows - 1) := by
  obtain ⟨hlen, hrows, hown⟩ := hpar
  have hlt : row < t.numRows := by omega
  refine ⟨{ t with
            columns := t.columns.map (fun buffer => swapRemove buffer row)
            owners := swapRemove t.owners row
            numRows := t.numRows - 1 },
    by rw [freeRow_eq t row hlt, if_pos hrow, hlast], rfl, rfl, ?_, ?_, ?_, ?_⟩
  · intro j
    simp only [Table.GetValue, List.getElem?_map]
    cases hc : t.columns[j]? with
    | none => simp
    | some buffer =>
      have hbl : buffer.length = t.numRows := hrows _ (List.getElem?_mem hc)
      simp only [Option.map_some']
      rw [getElem?_swapRemove buffer row row (by omega), hbl, if_pos (by omega), if_pos rfl]
  · intro j r hr hne
    simp only [Table.GetValue, List.getElem?_map]
    cases hc : t.columns[j]? with
    | none => simp
    | some buffer =>
      have hbl : buffer.length = t.numRows := hrows _ (List.getElem?_mem hc)
      simp only [Option.map_some']
      rw [getElem?_swapRemove buffer row r (by omega), hbl, if_pos hr, if_neg hne]
  · show (swapRemove t.owners row)[row]? = some o
    rw [getElem?_swapRemove t.owners row row (by omega), hown, if_pos (by omega), if_pos rfl,
      hlast]
  · intro buffer hb
    simp only [List.mem_map] at hb
    obtain ⟨b, hbm, rfl⟩ := hb
    rw [length_swapRemove, hrows b hbm]

end MemDb

namespace Game

open MemDb

/-- The mapping of the relocated entity after the two writes of a row removal: its slot
holds the freed row, whatever is written to the slot of the removed entity. -/
theorem relocated_mapping (w w2 : World) (e o : Entity) (k : CategoryId) (row : Nat)
    (mapping : EntityMapping) (hne : o.index ≠ e.index) (hvalid : IsValid w o = true)
    (hslot : o.index < w.entityMap.length) (hpool : w2.pool = w.pool)
    (hmap : w2.entityMap = (w.entityMap.set o.index { category := k, inst := some row }).set
      e.index mapping) :
    GetEntityMapping w2 o = some { category := k, inst := some row } ∧
    GetInstanceId w2 o = some row := by
  have hm : GetEntityMapping w2 o = some { category := k, inst := some row } := by
    apply getEntityMapping_of
    · simp only [IsValid, hpool] at hvalid ⊢
      exact hvalid
    · rw [hmap, List.getElem?_set, if_neg (fun h => hne h.symm), List.getElem?_set]
      simp [hslot]
    · simp
  exact ⟨hm, by simp only [GetInstanceId, hm]⟩

/-- C23: in a row-parallel table of `n` rows, removing a row `r < n - 1`, by applying the
deallocation of its entity or by migrating its entity to a category with another table,
succeeds, moves the values of the former last row `n - 1` into row `r`, keeps the other
remaining rows, and shrinks the table to `n - 1` rows; afterwards the entity that was at
row `n - 1` has a mapping whose row is `r`, and `GetInstanceId` returns `r` for it. -/
theorem swap_remove_relocates_last_row (reg : TypeRegistry) (w : World) (e o : Entity)
    (k : CategoryId) (r : Nat) (cat : Category) (t : Table)
    (hslot : w.entityMap[e.index]? = some { category := k, inst := some r })
    (hcat : w.GetCategory k = some cat) (ht : w.db.GetTable cat.instanceTable = some t)
    (hpar : t.RowParallel) (hr : r + 1 < t.numRows)
    (hlast : t.owners[t.numRows - 1]? = some o) (hne : o.index ≠ e.index)
    (hvalid : IsValid w o = true) (hoslot : o.index < w.entityMap.length) :
    (∃ w2 t2, w.DeallocateInstance e = some w2 ∧
      w2.db.GetTable cat.instanceTable = some t2 ∧ t2.numRows = t.numRows - 1 ∧
      (∀ buffer ∈ t2.columns, buffer.length = t.numRows - 1) ∧
      (∀ j, t2.GetValue j r = t.GetValue j (t.numRows - 1)) ∧
      (∀ j r1, r1 < t.numRows - 1 → r1 ≠ r → t2.GetValue j r1 = t.GetValue j r1) ∧
      t2.owners[r]? = some o ∧
      GetEntityMapping w2 o = some { category := k, inst := some r } ∧
      GetInstanceId w2 o = some r) ∧
    (∀ newCategory newCat dst, IsValid w e = true → w.GetCategory newCategory = some newCat →
      w.db.GetTable newCat.instanceTable = some dst →
      cat.instanceTable ≠ newCat.instanceTable →
      ∃ w2 t2 newRow, w.Migrate reg e newCategory = some (w2, newRow) ∧
        w2.db.GetTable cat.instanceTable = some t2 ∧ t2.numRows = t.numRows - 1 ∧
        (∀ buffer ∈ t2.columns, buffer.length = t.numRows - 1) ∧
        (∀ j, t2.GetValue j r = t.GetValue j (t.numRows - 1)) ∧
        (∀ j r1, r1 < t.numRows - 1 → r1 ≠ r → t2.GetValue j r1 = t.GetValue j r1) ∧
        t2.owners[r]? = some o ∧
        GetEntityMapping w2 o = some { category := k, inst := some r } ∧
        GetInstanceId w2 o = some r) := by
  obtain ⟨t2, hfree, hnum, _, hval, hkeep, hown, hcols⟩ := freeRow_relocates t r o hpar hr hlast
  have htid : cat.instanceTable < w.db.tables.length := db_getTable_lt w.db _ t ht
  constructor
  · obtain ⟨w2, hw2⟩ : ∃ w2 : World, w2 =
        { w with
          db := w.db.SetTable cat.instanceTable t2
          entityMap := (w.entityMap.set o.index { category := k, inst := some r }).set
            e.index EntityMapping.unplaced } := ⟨_, rfl⟩
    have hrun : w.DeallocateInstance e = some w2 := by
      simp only [World.DeallocateInstance, hslot, hcat, ht, hfree, hw2]
    obtain ⟨hm, hi⟩ := relocated_mapping w w2 e o k r EntityMapping.unplaced hne hvalid hoslot
      (by rw [hw2]) (by rw [hw2])
    refine ⟨w2, t2, hrun, ?_, hnum, hcols, hval, hkeep, hown, hm, hi⟩
    rw [hw2]
    show (w.db.SetTable cat.instanceTable t2).GetTable cat.instanceTable = some t2
    rw [db_getTable_setTable, if_pos rfl, if_pos htid]
  · intro newCategory newCat dst hev hnew hdst hdiff
    have hmap : GetEntityMapping w e = some { category := k, inst := some r } :=
      getEntityMapping_of w e _ hev hslot (by simp)
    obtain ⟨w2, hmig, _, _, hpool, _, _, ⟨src2, moved, hfree2, hsrc2⟩, _, _⟩ :=
      migrate_spec reg w e newCategory { category := k, inst := some r } r cat newCat t dst
        hmap rfl hcat hnew ht hdst hdiff (by omega)
    rw [hfree] at hfree2
    simp only [Option.some.injEq, Prod.mk.injEq] at hfree2
    obtain ⟨rfl, rfl⟩ := hfree2
    obtain ⟨mapping, row, oldCat, newCat1, src, dst1, src1, src3, moved, hm1, hrow1, hold1,
      hnew1, hsrc, hdst1, hsrc1, hfree3, _, hw2⟩ := migrate_inv reg w w2 e newCategory _ hmig
    rw [hmap] at hm1
    simp only [Option.some.injEq] at hm1
    subst hm1
    simp only [Option.some.injEq] at hrow1
    subst hrow1
    rw [hcat] at hold1
    simp only [Option.some.injEq] at hold1
    subst hold1
    rw [hnew] at hnew1
    simp only [Option.some.injEq] at hnew1
    subst hnew1
    rw [ht] at hsrc
    simp only [Option.some.injEq] at hsrc
    subst hsrc
    rw [db_getTable_setTable, if_neg (fun h => hdiff h.symm), ht] at hsrc1
    simp only [Option.some.injEq] at hsrc1
    subst hsrc1
    rw [hfree] at hfree3
    simp only [Option.some.injEq, Prod.mk.injEq] at hfree3
    obtain ⟨rfl, rfl⟩ := hfree3
    obtain ⟨hm, hi⟩ := relocated_mapping w w2 e o k r
      { category := newCategory, inst := some dst1.numRows } hne hvalid hoslot hpool
      (by rw [hw2])
    exact ⟨w2, _, _, hmig, hsrc2, hnum, hcols, hval, hkeep, hown, hm, hi⟩

/-- C23 at a concrete input: in the scenario world (entities 0 and 1 at rows 0 and 1 of
the {Position} table) the deallocation of entity 0 is applied; entity 1 is relocated from
row 1 to row 0 with its value. -/
theorem swap_remove_relocates_last_row_witness :
    ∃ w2 t2, scenarioWorld.DeallocateInstance { index := 0, generation := 0 } = some w2 ∧
      w2.db.GetTable 0 = some t2 ∧ t2.numRows = 1 ∧
      t2.GetValue 0 0 = some [4, 0, 0, 0, 5, 0, 0, 0, 6, 0, 0, 0] ∧
      GetInstanceId w2 { index := 1, generation := 0 } = some 0 :=
  match (swap_remove_relocates_last_row scenarioRegistry scenarioWorld
      { index := 0, generation := 0 } { index := 1, generation := 0 } 0 0
      { hash := additiveHash.hashOf [0], instanceTable := 0 }
      { properties := [0]
        columns := [[[1, 0, 0, 0, 2, 0, 0, 0, 3, 0, 0, 0], [4, 0, 0, 0, 5, 0, 0, 0, 6, 0, 0, 0]]]
        owners := [{ index := 0, generation := 0 }, { index := 1, generation := 0 }]
        numRows := 2 }
      rfl rfl rfl (by decide) (by decide) rfl (by decide) (by decide) (by decide)).1 with
  | ⟨w2, t2, hrun, htab, hnum, _, hval, _, _, _, hinst⟩ =>
    ⟨w2, t2, hrun, htab, hnum, (hval 0).trans (by decide), hinst⟩

end Game

namespace Game

open MemDb

/-- After a successful `Execute(Op::RegisterProperty)` on an entity of a category that is
registered under the hash of its schema, the entity is in a category whose hash is
`AddToHash(h, pid)`, and the source category is still registered under `h`. -/
theorem executeRegister_target (H : HashScheme) (reg : TypeRegistry) (op : Op.RegisterProperty)
    (w w3 : World) (k : CategoryId) (row : Nat) (cat : Category) (src : Table)
    (hm : GetEntityMapping w op.entity = some { category := k, inst := some row })
    (hcat : w.GetCategory k = some cat)
    (hsrc : w.db.GetTable cat.instanceTable = some src)
    (hhash : cat.hash = H.hashOf src.properties)
    (hself : w.catIndexMap.lookup cat.hash = some k)
    (hfound : ∀ cid, w.catIndexMap.lookup (H.AddToHash cat.hash op.pid) = some cid →
      ∃ c, w.GetCategory cid = some c ∧ c.hash = H.AddToHash cat.hash op.pid)
    (h : ExecuteRegisterProperty H reg op w = some w3) :
    ∃ k2 newCat r, GetEntityMapping w3 op.entity = some { category := k2, inst := some r } ∧
      w3.GetCategory k2 = some newCat ∧ newCat.hash = H.AddToHash cat.hash op.pid ∧
      w3.catIndexMap.lookup cat.hash = some k := by
  obtain ⟨mapping, cat1, w1, k2, w2, r, hm1, hcat1, hres, hmig, hfin⟩ :=
    executeRegister_inv H reg op w w3 h
  rw [hm] at hm1
  simp only [Option.some.injEq] at hm1
  subst hm1
  rw [hcat] at hcat1
  simp only [Option.some.injEq] at hcat1
  subst hcat1
  obtain ⟨hmap2, hcats2, hidx2, hpool2⟩ := migrate_some reg w1 w2 op.entity k2 r hmig
  have hfinal : GetEntityMapping w3 op.entity = some { category := k2, inst := some r } ∧
      w3.categories = w1.categories ∧ w3.catIndexMap = w1.catIndexMap := by
    rcases hfin with rfl | ⟨value, newCat, cid, db, _, _, _, rfl⟩
    · exact ⟨hmap2, hcats2, hidx2⟩
    · exact ⟨(getEntityMapping_congr w2 { w2 with db := db } op.entity rfl rfl).trans hmap2,
        hcats2, hidx2⟩
  obtain ⟨hmap3, hcats3, hidx3⟩ := hfinal
  rcases hres with ⟨hl, rfl⟩ | ⟨hl, tbl, htbl, hcc⟩
  · obtain ⟨c, hc, hch⟩ := hfound k2 hl
    refine ⟨k2, c, r, hmap3, ?_, hch, by rw [hidx3]; exact hself⟩
    simp only [World.GetCategory] at hc ⊢
    rw [hcats3]; exact hc
  · rw [hsrc] at htbl
    simp only [Option.some.injEq] at htbl
    subst htbl
    have hkey : H.hashOf (src.properties ++ [op.pid]) = H.AddToHash cat.hash op.pid := by
      rw [hashOf_append_singleton, hhash]
    have hne : (cat.hash == H.AddToHash cat.hash op.pid) = false := by
      rw [beq_eq_false_iff_ne]
      intro heq
      rw [← heq, hself] at hl
      cases hl
    simp only [World.CreateCategory, hkey, hl, Prod.mk.injEq] at hcc
    obtain ⟨rfl, rfl⟩ := hcc
    refine ⟨_, { hash := H.AddToHash cat.hash op.pid, instanceTable := (w.db.CreateTable
      (src.properties ++ [op.pid])).2 }, r, hmap3, ?_, rfl, ?_⟩
    · simp only [World.GetCategory]
      rw [hcats3]
      simp
    · rw [hidx3]
      simp only [List.lookup_cons, hne]
      exact hself

/-- `Execute(Op::DeregisterProperty)` when the map has an entry for the new hash: the
entity is migrated to the category of the entry. -/
theorem executeDeregister_found (H : HashScheme) (reg : TypeRegistry)
    (op : Op.DeregisterProperty) (w : World) (mapping : EntityMapping) (cat : Category)
    (cid : CategoryId) (hm : GetEntityMapping w op.entity = some mapping)
    (hcat : w.GetCategory mapping.category = some cat)
    (hl : w.catIndexMap.lookup (H.RemoveFromHash cat.hash op.pid) = some cid)
    (w2 : World) (r : InstanceId) (hmig : w.Migrate reg op.entity cid = some (w2, r)) :
    ExecuteDeregisterProperty H reg op w = some w2 := by
  simp only [ExecuteDeregisterProperty, hm, hcat, hl, hmig]

end Game

namespace Game

open MemDb

/-- C26: an active entity `e` is in category K (registered under the hash `h` of its
schema, table well formed) and `C` is not in K's schema; the map entry for
`AddToHash(h, C)`, if there is one, names a category with that hash whose table has the
schema of K with `C`; and `RemoveFromHash(AddToHash(h, C), C) == h`. Then `Dispatch` of a
buffer that holds an add of `C` to `e` and a remove of `C` from `e` succeeds and leaves
`e` in category K again, without `C`, and every column of K holds at `e`'s row the value
it held at `e`'s row before. -/
theorem add_then_remove_returns_to_category (H : HashScheme) (reg : TypeRegistry)
    (a : OpBufferAllocator) (buffer : OpBuffer) (w : World) (e : Entity) (C : PropertyId)
    (value : Option Value) (k : CategoryId) (row : Nat) (cat : Category) (src : Table)
    (hq : a.Get buffer = some ([{ entity := e, pid := C, value := value }],
                               [{ entity := e, pid := C }]))
    (hm : GetEntityMapping w e = some { category := k, inst := some row })
    (hcat : w.GetCategory k = some cat)
    (hsrc : w.db.GetTable cat.instanceTable = some src)
    (hwf : src.WellFormed) (hrow : row < src.numRows) (hnot : C ∉ src.properties)
    (hhash : cat.hash = H.hashOf src.properties)
    (hself : w.catIndexMap.lookup cat.hash = some k)
    (hinv : H.RemoveFromHash (H.AddToHash cat.hash C) C = cat.hash)
    (hc1 : w.CanonicalFor (H.AddToHash cat.hash C) (src.properties ++ [C]))
    (hfound : ∀ cid, w.catIndexMap.lookup (H.AddToHash cat.hash C) = some cid →
      ∃ c, w.GetCategory cid = some c ∧ c.hash = H.AddToHash cat.hash C) :
    ∃ w3 a1 newRow t3,
      Dispatch H reg a buffer w = some (w3, a1, none) ∧
      GetEntityMapping w3 e = some { category := k, inst := some newRow } ∧
      w3.GetCategory k = some cat ∧ w3.db.GetTable cat.instanceTable = some t3 ∧
      t3.properties = src.properties ∧ HasProperty w3 e C = some false ∧
      ∀ (j : Nat) (p : PropertyId), src.properties[j]? = some p →
        t3.GetValue j newRow = src.GetValue j row := by
  have hc2 : w.CanonicalFor (H.hashOf (src.properties ++ [C])) (src.properties ++ [C]) := by
    rw [hashOf_append_singleton, ← hhash]; exact hc1
  obtain ⟨w2, k2, newCat, dst, newRow, src2, moved, hexec, hmap2, hcat2, hdst, hdwf, hdperm,
    hnr, hvals, hcatk2, hfree, hsrc2⟩ := executeRegister_spec H reg w
      { entity := e, pid := C, value := value } k row cat src hm hcat hsrc hwf hrow hnot hc1 hc2
  obtain ⟨k2a, newCat1, r1, hmap2a, hcat2a, hhash2, hself2⟩ := executeRegister_target H reg
    { entity := e, pid := C, value := value } w w2 k row cat src hm hcat hsrc hhash hself
    hfound hexec
  rw [hmap2] at hmap2a
  simp only [Option.some.injEq, EntityMapping.mk.injEq] at hmap2a
  obtain ⟨rfl, rfl⟩ := hmap2a
  rw [hcat2] at hcat2a
  simp only [Option.some.injEq] at hcat2a
  subst hcat2a
  -- the source table after the first migration
  have hpar2 : src2.RowParallel :=
    rowParallel_freeRow src src2 row moved ⟨hwf.2.1, hwf.2.2.1, hwf.2.2.2⟩ hfree
  rw [freeRow_eq src row hrow] at hfree
  simp only [Option.some.injEq, Prod.mk.injEq] at hfree
  obtain ⟨hsrc2eq, _⟩ := hfree
  have hprops2 : src2.properties = src.properties := by rw [← hsrc2eq]
  have hne : newCat.instanceTable ≠ cat.instanceTable := by
    intro heq
    rw [heq, hsrc2] at hdst
    simp only [Option.some.injEq] at hdst
    have hlen := hdperm.length_eq
    rw [← hdst, hprops2] at hlen
    simp only [List.length_append, List.length_singleton] at hlen
    omega
  obtain ⟨w3, hmig, hcats3, _, _, _, hnew3, _, _, hmap3⟩ := migrate_spec reg w2 e k
    { category := k2, inst := some newRow } newRow newCat cat dst src2 hmap2 rfl hcat2 hcatk2
    hdst hsrc2 hne (by rw [← hnr]; exact Nat.lt_succ_self _)
  have hexec2 : ExecuteDeregisterProperty H reg { entity := e, pid := C } w2 = some w3 :=
    executeDeregister_found H reg { entity := e, pid := C } w2
      { category := k2, inst := some newRow } newCat k hmap2 hcat2
      (by rw [hhash2, hinv]; exact hself2) w3 _ hmig
  have hcat3 : w3.GetCategory k = some cat := by
    simp only [World.GetCategory] at hcatk2 ⊢
    rw [hcats3]; exact hcatk2
  have hprops3 : (dst.CopyShared newRow (src2.AllocateRow reg e).1 src2.numRows).properties =
      src.properties := by
    rw [← hprops2]; rfl
  refine ⟨w3, (a.Set buffer ([], [])).Dealloc buffer, src2.numRows,
    dst.CopyShared newRow (src2.AllocateRow reg e).1 src2.numRows,
    ?_, hmap3, hcat3, hnew3, hprops3, ?_, ?_⟩
  · simp only [Dispatch, DispatchWith, hq, drain, hexec, hexec2]
  · have hnone : (dst.CopyShared newRow (src2.AllocateRow reg e).1 src2.numRows).GetColumnId C =
        none := by
      rw [table_getColumnId_none, hprops3]; exact hnot
    simp only [HasProperty, hmap3, hcat3, Database.HasProperty, hnew3, hnone, Option.isSome_none]
  · intro j p hj
    have hj2 : src2.properties[j]? = some p := by rw [hprops2]; exact hj
    rw [getValue_copyShared_allocateRow reg dst src2 e newRow j p hpar2.1 hpar2.2.1 hj2]
    have hpmem : p ∈ dst.properties :=
      hdperm.symm.subset (List.mem_append_left _ (List.getElem?_mem hj))
    obtain ⟨i, hi⟩ := Option.isSome_iff_exists.mp ((table_getColumnId_isSome dst p).2 hpmem)
    have hip := table_getColumnId_some dst p i hi
    obtain ⟨v, hv⟩ := table_getValue_some src j row p hwf hj hrow
    have hcol : src.GetColumnId p = some j := table_getColumnId_of_nodup src p j hwf.1 hj
    have hdv := hvals i p hip
    simp only [hcol, hv] at hdv
    simp only [hi, hdv, hv]

end Game

namespace Game

open MemDb

/-- C26 at a concrete input: `Health` is added to and removed from entity 0 of the
scenario world in one buffer; the entity is in category 0 again with its `Position`. -/
theorem add_then_remove_returns_to_category_witness :
    ∃ w3 a1 newRow t3,
      Dispatch additiveHash scenarioRegistry
        { entries := [([{ entity := { index := 0, generation := 0 }, pid := 1,
                          value := some [50, 0, 0, 0] }],
                       [{ entity := { index := 0, generation := 0 }, pid := 1 }])],
          freeIds := [] } 0 scenarioWorld = some (w3, a1, none) ∧
      GetEntityMapping w3 { index := 0, generation := 0 } =
        some { category := 0, inst := some newRow } ∧
      w3.db.GetTable 0 = some t3 ∧
      t3.GetValue 0 newRow = some [1, 0, 0, 0, 2, 0, 0, 0, 3, 0, 0, 0] :=
  match add_then_remove_returns_to_category additiveHash scenarioRegistry
      { entries := [([{ entity := { index := 0, generation := 0 }, pid := 1,
                        value := some [50, 0, 0, 0] }],
                     [{ entity := { index := 0, generation := 0 }, pid := 1 }])],
        freeIds := [] } 0 scenarioWorld { index := 0, generation := 0 } 1 (some [50, 0, 0, 0])
      0 0 { hash := additiveHash.hashOf [0], instanceTable := 0 }
      { properties := [0]
        columns := [[[1, 0, 0, 0, 2, 0, 0, 0, 3, 0, 0, 0], [4, 0, 0, 0, 5, 0, 0, 0, 6, 0, 0, 0]]]
        owners := [{ index := 0, generation := 0 }, { index := 1, generation := 0 }]
        numRows := 2 }
      rfl (by decide) rfl rfl (by decide) (by decide) (by decide) rfl (by decide) (by decide)
      (fun cid h => by
        have hnone : scenarioWorld.catIndexMap.lookup
            (additiveHash.AddToHash (additiveHash.hashOf [0]) 1) = none := by decide
        rw [show (Category.mk (additiveHash.hashOf [0]) 0).hash = additiveHash.hashOf [0] from rfl,
          hnone] at h
        cases h)
      (fun cid h => by
        have hnone : scenarioWorld.catIndexMap.lookup
            (additiveHash.AddToHash (additiveHash.hashOf [0]) 1) = none := by decide
        rw [show (Category.mk (additiveHash.hashOf [0]) 0).hash = additiveHash.hashOf [0] from rfl,
          hnone] at h
        cases h) with
  | ⟨w3, a1, newRow, t3, hrun, hmap, _, htab, _, _, hval⟩ =>
    ⟨w3, a1, newRow, t3, hrun, hmap, htab, (hval 0 0 rfl).trans (by decide)⟩

end Game

namespace Game

open MemDb

end Game

namespace Game

open MemDb

end Game

namespace Game

open MemDb

end Game

namespace Game

open MemDb

/-- The loop that fills `info.properties` keeps the size of the array. -/
theorem copyWithout_length (pid : PropertyId) :
    ∀ (cols array : List PropertyId) (col : Nat) (res : List PropertyId),
      copyWithout pid cols array col = some res → res.length = array.length := by
  intro cols
  induction cols with
  | nil =>
    intro array col res h
    simp only [copyWithout, Option.some.injEq] at h
    rw [← h]
  | cons c cols ih =>
    intro array col res h
    simp only [copyWithout] at h
    by_cases hc : c = pid
    · rw [if_pos hc] at h
      exact ih array col res h
    · rw [if_neg hc] at h
      by_cases hlt : col < array.length
      · rw [if_pos hlt] at h
        rw [ih _ _ res h, List.length_set]
      · rw [if_neg hlt] at h
        cases h

/-- `CreateCategory` on a hit: the world is unchanged and the category is the one found. -/
theorem createCategory_hit (H : HashScheme) (w : World) (info : CategoryCreateInfo)
    (cid : CategoryId) (hl : w.catIndexMap.lookup (H.hashOf info.properties) = some cid) :
    w.CreateCategory H info = (w, cid) := by
  simp only [World.CreateCategory, hl]

end Game

namespace Game

open MemDb

end Game

namespace Game

open MemDb

end Game

namespace Game

open MemDb

/-- C16, the code at a failing input: in `recycleRun` the deferred `CreateEntity` returns
(index 0, generation 1) on the recycled index 0, and its `AllocateInstance` command is
still queued, so the entity has not been instantiated. Slot 0 of the entity map still
holds the row of the deleted entity, so `DeleteEntity` of the new entity passes both
assertions and returns: the entity is released in the pool, a deallocation is queued for
it and the count is decremented. On an index that is not recycled the same call fails its
assertion: `DeleteEntity` of the entity of a deferred `CreateEntity` in the world without
entities returns nothing. -/
theorem deleteEntity_succeeds_before_instantiation :
    recycleRun.map (fun r => r.2) = some { index := 0, generation := 1 } ∧
    recycleRun.map (fun r => r.1.allocQueue.map (fun cmd => cmd.entity)) =
      some [{ index := 0, generation := 1 }] ∧
    recycleRun.map (fun r => IsValid r.1 r.2) = some true ∧
    recycleRun.map (fun r => GetNumEntities r.1) = some 1 ∧
    recycleRun.map (fun r => (DeleteEntity r.1 r.2).map (fun w => w.deallocQueue)) =
      some (some [{ entity := { index := 0, generation := 0 } },
                  { entity := { index := 0, generation := 1 } }]) ∧
    recycleRun.map (fun r => (DeleteEntity r.1 r.2).map (fun w => IsValid w r.2)) =
      some (some false) ∧
    recycleRun.map (fun r => (DeleteEntity r.1 r.2).map GetNumEntities) = some (some 0) ∧
    (CreateEntity sampleEnv scenarioRegistry seedWorld
        { templateId := TemplateId.Invalid, blueprint := { id := 0 }, immediate := false }).map
      (fun r => (r.2, IsValid r.1 r.2, IsActive r.1 r.2, (DeleteEntity r.1 r.2).isSome)) =
      some ({ index := 0, generation := 0 }, true, some false, false) := by
  refine ⟨by decide, by decide, by decide, by decide, by decide, by decide, by decide,
    by decide⟩

end Game
